import Mathlib

/-!
# character-keeper: save / load / delete handlers and the fetch proxy

A shallow embedding of the Go handlers of the repository:

* `backend/internal/handlers/save.go`  (`SaveCharacterData`, `LoadCharacterData`,
  `DeleteCharacterData`), `backend/internal/handlers/character.go`
  (`GetCharacterData`) and the `enableCORS` middleware of `backend/cmd/server/main.go`;
* the serverless copies `api/save/save.go`, `api/load/load.go`, `api/delete/delete.go`,
  `api/character/character.go` with `EnableCORS` of `api/load/utils.go`.

A handler is a function from the request, the response writer and the state of the
backing engine to the response writer, the engine state and the list of calls it issued to
its collaborators (the engine and the outbound HTTP client).  The collaborators are fields
of `Env`: `encoding/json`, the go-redis client, `http.Get` and the clock.  The function
`url.ParseRequestURI` follows `net/url` of the Go standard library, with its authority
parser as one more field of `Env`.
-/

namespace CharacterKeeper

/-! ## Values -/

/-- The value `encoding/json` decodes into an `interface{}`: `nil`, `bool`, `float64`,
`string`, `[]interface{}` or `map[string]interface{}`.  A `float64` a decoder can produce
is finite, hence a rational number. -/
inductive JSON where
  | null : JSON
  | bool (b : Bool) : JSON
  | num (x : Rat) : JSON
  | str (s : String) : JSON
  | arr (items : List JSON) : JSON
  | obj (fields : List (String × JSON)) : JSON

/-- The Go builtin `len` on a string: the number of bytes of its UTF-8 encoding. -/
def len (s : String) : Nat := s.utf8ByteSize

/-- The struct `SaveRequest` of save.go. -/
structure SaveRequest where
  Key : String
  Data : JSON

/-- The struct `SaveResponse` of save.go. -/
structure SaveResponse where
  Status : String
  Key : String
  SavedAt : String

/-- The struct `LoadResponse` of save.go and load.go. -/
structure LoadResponse where
  Key : String
  Data : JSON
  LoadedAt : String

/-- The struct `DeleteResponse` of delete.go. -/
structure DeleteResponse where
  Status : String
  Key : String

/-- The struct `CharacterResponse` of character.go: only `Error` is tagged `omitempty`. -/
structure CharacterResponse where
  URL : String := ""
  Content : String := ""
  Error : String := ""

/-- JSON object written for a `SaveResponse` (tags `status`, `key`, `savedAt`). -/
def SaveResponse.toJSON (v : SaveResponse) : JSON :=
  .obj [("status", .str v.Status), ("key", .str v.Key), ("savedAt", .str v.SavedAt)]

/-- JSON object written for a `LoadResponse` (tags `key`, `data`, `loadedAt`). -/
def LoadResponse.toJSON (v : LoadResponse) : JSON :=
  .obj [("key", .str v.Key), ("data", v.Data), ("loadedAt", .str v.LoadedAt)]

/-- JSON object written for a `DeleteResponse` (tags `status`, `key`). -/
def DeleteResponse.toJSON (v : DeleteResponse) : JSON :=
  .obj [("status", .str v.Status), ("key", .str v.Key)]

/-- JSON object written for a `CharacterResponse`: `url` and `content` are always
present, `error` is left out when it is the empty string (`omitempty`). -/
def CharacterResponse.toJSON (v : CharacterResponse) : JSON :=
  .obj ([("url", .str v.URL), ("content", .str v.Content)] ++
    (if v.Error = "" then [] else [("error", .str v.Error)]))

/-- JSON object written for the `map[string]string` literal of `DeleteCharacterData`:
`encoding/json` writes the keys of a map in sorted order. -/
def deletedMap (key : String) : JSON :=
  .obj [("key", .str key), ("status", .str "deleted")]

/-! ## Requests and the response writer -/

/-- The parts of `*http.Request` the handlers read. -/
structure Request where
  Method : String
  Path : String := "/"
  /-- The parsed query, `r.URL.Query()`, in the order of the raw query. -/
  Query : List (String × String) := []
  /-- The header named `Origin`, `r.Header.Get("Origin")`. -/
  Origin : String := ""
  Body : String := ""

/-- The call `url.Values.Get`: the first value of the name, or the empty string. -/
def Request.queryGet (r : Request) (name : String) : String :=
  match r.Query.find? (fun p => p.1 == name) with
  | some p => p.2
  | none => ""

/-- One write to the response body. -/
inductive Chunk where
  /-- Raw text, as written by `http.Error` and `fmt.Fprint`. -/
  | text (s : String) : Chunk
  /-- The JSON encoding of a value, as written by `json.NewEncoder(w).Encode`. -/
  | json (v : JSON) : Chunk

/-- The state of an `http.ResponseWriter`: the headers, the status line once it is
written, and the writes to the body. -/
structure ResponseWriter where
  Header : List (String × String) := []
  Status : Option Nat := none
  Body : List Chunk := []

namespace ResponseWriter

/-- The call `w.Header().Set(name, value)`: it replaces the header; once the status
line is written the headers sent no longer change. -/
def set (w : ResponseWriter) (name value : String) : ResponseWriter :=
  match w.Status with
  | some _ => w
  | none => { w with Header := w.Header.filter (fun p => p.1 != name) ++ [(name, value)] }

/-- The call `w.WriteHeader(code)`: the first call fixes the status. -/
def WriteHeader (w : ResponseWriter) (code : Nat) : ResponseWriter :=
  match w.Status with
  | some _ => w
  | none => { w with Status := some code }

/-- The call `w.Write`: a write before `WriteHeader` sends status 200 first. -/
def write (w : ResponseWriter) (c : Chunk) : ResponseWriter :=
  { w with Status := some (w.Status.getD 200), Body := w.Body ++ [c] }

/-- The call `json.NewEncoder(w).Encode(v)`. -/
def Encode (w : ResponseWriter) (v : JSON) : ResponseWriter :=
  w.write (.json v)

/-- The status code the client receives: 200 when the handler wrote none. -/
def code (w : ResponseWriter) : Nat := w.Status.getD 200

/-- The value of a response header, if it is set. -/
def header (w : ResponseWriter) (name : String) : Option String :=
  (w.Header.find? (fun p => p.1 == name)).map (fun p => p.2)

end ResponseWriter

/-- The function `http.Error`: a plain-text reply with the given status. -/
def httpError (w : ResponseWriter) (error : String) (code : Nat) : ResponseWriter :=
  let w := w.set "Content-Type" "text/plain; charset=utf-8"
  let w := w.set "X-Content-Type-Options" "nosniff"
  let w := w.WriteHeader code
  w.write (.text (error ++ "\n"))

/-! ## Collaborators -/

/-- The functions of `encoding/json` the handlers call. -/
structure EncodingJson where
  /-- The call `json.NewDecoder(r.Body).Decode(&req)` for a `SaveRequest`. -/
  decodeSaveRequest : String → Except String SaveRequest
  /-- The call `json.Marshal` on an `interface{}`. -/
  Marshal : JSON → Except String String
  /-- The call `json.Unmarshal` into an `interface{}`. -/
  Unmarshal : String → Except String JSON

/-- Result of a go-redis `Get`: the value, `redis.Nil`, or another error. -/
inductive GetReply where
  | val (bytes : String) : GetReply
  | Nil : GetReply
  | err (msg : String) : GetReply

/-- The commands of the go-redis client the handlers call, over an engine state `σ`. -/
structure Engine (σ : Type) where
  /-- The command `Get(ctx, key)`. -/
  Get : σ → String → GetReply
  /-- The command `Set(ctx, key, value, expiration)`: its error and the state it leaves. -/
  Set : σ → String → String → Nat → Option String × σ
  /-- The command `Del(ctx, key)`: the count of removed keys or an error, and the state. -/
  Del : σ → String → Except String Nat × σ

/-- Result of `http.Get` followed by `io.ReadAll` of the body. -/
inductive FetchResult where
  /-- The request failed: `http.Get` returned an error. -/
  | failed (err : String) : FetchResult
  /-- The body was read in full. -/
  | body (content : String) : FetchResult
  /-- The request succeeded and `io.ReadAll` returned an error. -/
  | unreadable : FetchResult

/-- A call a handler issues to a collaborator. -/
inductive Call where
  | redisGet (key : String) : Call
  | redisSet (key value : String) (expiration : Nat) : Call
  | redisDel (key : String) : Call
  | httpGet (url : String) : Call
  deriving DecidableEq

/-- The collaborators of the handlers. -/
structure Env (σ : Type) where
  json : EncodingJson
  /-- The client `RedisClient` (`GetRedisClient()` in the api handlers). -/
  RedisClient : Engine σ
  /-- The function `http.Get` with `io.ReadAll`. -/
  httpGet : String → FetchResult
  /-- The value of `time.Now().Format(time.RFC3339)`. -/
  now : String
  /-- Whether `parseAuthority` of `net/url` accepts an authority. -/
  parseAuthority : String → Bool

/-- What a handler leaves behind. -/
structure Outcome (σ : Type) where
  w : ResponseWriter
  db : σ
  calls : List Call := []

/-- The Go type `http.HandlerFunc`, with the engine state threaded through. -/
abbrev Handler (σ : Type) : Type := ResponseWriter → Request → σ → Outcome σ

/-- The constant `time.Hour`, a `time.Duration` in nanoseconds. -/
def Hour : Nat := 60 * 60 * 1000000000

/-! ## backend/internal/handlers/save.go -/

/-- The handler `SaveCharacterData` of backend/internal/handlers/save.go. -/
def SaveCharacterData {σ : Type} (env : Env σ) (w : ResponseWriter) (r : Request) (db : σ) :
    Outcome σ :=
  if r.Method ≠ "POST" then
    ⟨httpError w "Method not allowed" 405, db, []⟩
  else
    match env.json.decodeSaveRequest r.Body with
    | .error err => ⟨httpError w ("Invalid JSON: " ++ err) 400, db, []⟩
    | .ok req =>
      if req.Key = "" then
        ⟨httpError w "Key cannot be empty" 400, db, []⟩
      else if len req.Key < 3 then
        ⟨httpError w "Key must be at least 3 characters" 400, db, []⟩
      else if len req.Key > 50 then
        ⟨httpError w "Key must be 50 characters or less" 400, db, []⟩
      else
        match env.json.Marshal req.Data with
        | .error err => ⟨httpError w ("Failed to serialize data: " ++ err) 500, db, []⟩
        | .ok jsonData =>
          let redisKey := "user_save:" ++ req.Key
          let expiration := 30 * 24 * Hour
          match env.RedisClient.Set db redisKey jsonData expiration with
          | (some err, db1) =>
            ⟨httpError w ("Failed to save data: " ++ err) 500, db1,
              [.redisSet redisKey jsonData expiration]⟩
          | (none, db1) =>
            let w := w.set "Content-Type" "application/json"
            let w := w.WriteHeader 200
            let response : SaveResponse := ⟨"saved", req.Key, env.now⟩
            ⟨w.Encode response.toJSON, db1, [.redisSet redisKey jsonData expiration]⟩

/-- The handler `LoadCharacterData` of backend/internal/handlers/save.go. -/
def LoadCharacterData {σ : Type} (env : Env σ) (w : ResponseWriter) (r : Request) (db : σ) :
    Outcome σ :=
  if r.Method ≠ "GET" then
    ⟨httpError w "Method not allowed" 405, db, []⟩
  else
    let key := r.queryGet "key"
    if key = "" then
      ⟨httpError w "Missing 'key' parameter" 400, db, []⟩
    else
      let redisKey := "user_save:" ++ key
      match env.RedisClient.Get db redisKey with
      | .Nil => ⟨httpError w "Save key not found" 404, db, [.redisGet redisKey]⟩
      | .err err => ⟨httpError w ("Failed to load data: " ++ err) 500, db, [.redisGet redisKey]⟩
      | .val jsonData =>
        match env.json.Unmarshal jsonData with
        | .error _ => ⟨httpError w "Corrupted data in storage" 500, db, [.redisGet redisKey]⟩
        | .ok data =>
          let w := w.set "Content-Type" "application/json"
          let w := w.WriteHeader 200
          let response : LoadResponse := ⟨key, data, env.now⟩
          ⟨w.Encode response.toJSON, db, [.redisGet redisKey]⟩

/-- The handler `DeleteCharacterData` of backend/internal/handlers/save.go: it reads
only the error of `Del`, not the count of removed keys. -/
def DeleteCharacterData {σ : Type} (env : Env σ) (w : ResponseWriter) (r : Request) (db : σ) :
    Outcome σ :=
  if r.Method ≠ "DELETE" then
    ⟨httpError w "Method not allowed" 405, db, []⟩
  else
    let key := r.queryGet "key"
    if key = "" then
      ⟨httpError w "Missing 'key' parameter" 400, db, []⟩
    else
      let redisKey := "user_save:" ++ key
      match env.RedisClient.Del db redisKey with
      | (.error err, db1) =>
        ⟨httpError w ("Failed to delete: " ++ err) 500, db1, [.redisDel redisKey]⟩
      | (.ok _, db1) =>
        let w := w.set "Content-Type" "application/json"
        ⟨w.Encode (deletedMap key), db1, [.redisDel redisKey]⟩

/-! ## net/url: `ParseRequestURI`

The function `parse(rawURL, viaRequest = true)` of the Go standard library, on the
characters of the string.  Every test it makes on a byte singles out an ASCII byte, so a
character outside ASCII behaves as each of its bytes does. -/

/-- The function `stringContainsCTLByte` of net/url. -/
def stringContainsCTLByte (s : List Char) : Bool :=
  s.any (fun c => c.toNat < 0x20 || c.toNat == 0x7f)

/-- An ASCII letter. -/
def isLetter (c : Char) : Bool :=
  (97 ≤ c.toNat && c.toNat ≤ 122) || (65 ≤ c.toNat && c.toNat ≤ 90)

/-- An ASCII digit. -/
def isDigit (c : Char) : Bool := 48 ≤ c.toNat && c.toNat ≤ 57

/-- The function `ishex` of net/url. -/
def ishex (c : Char) : Bool :=
  isDigit c || (97 ≤ c.toNat && c.toNat ≤ 102) || (65 ≤ c.toNat && c.toNat ≤ 70)

/-- The loop of `getScheme`: `seen` is `rawURL[:i]` and the last argument `rawURL[i:]`.
The result is the scheme and the rest of the string. -/
def getSchemeLoop (rawURL : List Char) :
    List Char → List Char → Except String (List Char × List Char)
  | _, [] => .ok ([], rawURL)
  | seen, c :: cs =>
    if isLetter c then
      getSchemeLoop rawURL (seen ++ [c]) cs
    else if isDigit c || c == '+' || c == '-' || c == '.' then
      if seen.isEmpty then .ok ([], rawURL) else getSchemeLoop rawURL (seen ++ [c]) cs
    else if c == ':' then
      if seen.isEmpty then .error "missing protocol scheme" else .ok (seen, cs)
    else
      .ok ([], rawURL)

/-- The function `getScheme` of net/url. -/
def getScheme (rawURL : List Char) : Except String (List Char × List Char) :=
  getSchemeLoop rawURL [] rawURL

/-- The check `unescape(s, encodePath)` makes: every `%` is followed by two hex digits. -/
def unescapePathOk : List Char → Bool
  | [] => true
  | c :: cs =>
    if c == '%' then
      match cs with
      | a :: b :: rest => ishex a && ishex b && unescapePathOk rest
      | _ => false
    else
      unescapePathOk cs

/-- The function `url.ParseRequestURI`: the error, if the string is rejected.  The
authority of a URL with a scheme and `//` is judged by `parseAuthority`. -/
def ParseRequestURI (parseAuthority : String → Bool) (rawURL : String) : Except String Unit :=
  let raw := rawURL.toList
  if stringContainsCTLByte raw then
    .error "net/url: invalid control character in URL"
  else if raw.isEmpty then
    .error "empty url"
  else if rawURL = "*" then
    .ok ()
  else
    match getScheme raw with
    | .error err => .error err
    | .ok (scheme, rest0) =>
      let rest :=
        if rest0.getLast? == some '?' && rest0.count '?' == 1 then rest0.dropLast
        else rest0.takeWhile (fun c => c != '?')
      if rest.head? != some '/' then
        if !scheme.isEmpty then .ok ()
        else .error "invalid URI for request"
      else if !scheme.isEmpty && rest.take 2 == ['/', '/'] then
        let authority := (rest.drop 2).takeWhile (fun c => c != '/')
        let path := (rest.drop 2).dropWhile (fun c => c != '/')
        if !parseAuthority (String.mk authority) then .error "net/url: invalid authority"
        else if unescapePathOk path then .ok () else .error "invalid URL escape"
      else
        if unescapePathOk rest then .ok () else .error "invalid URL escape"

/-! ## backend/internal/handlers/character.go -/

/-- The handler `GetCharacterData` of backend/internal/handlers/character.go. -/
def GetCharacterData {σ : Type} (env : Env σ) (w : ResponseWriter) (r : Request) (db : σ) :
    Outcome σ :=
  let targetURL := r.queryGet "url"
  if targetURL = "" then
    let w := w.WriteHeader 400
    ⟨w.Encode (CharacterResponse.toJSON { Error := "url parameter is required" }), db, []⟩
  else
    match ParseRequestURI env.parseAuthority targetURL with
    | .error _ =>
      let w := w.WriteHeader 400
      ⟨w.Encode (CharacterResponse.toJSON { Error := "invalid url format" }), db, []⟩
    | .ok _ =>
      match env.httpGet targetURL with
      | .failed err =>
        let w := w.WriteHeader 502
        ⟨w.Encode (CharacterResponse.toJSON { Error := "failed to fetch: " ++ err }), db,
          [.httpGet targetURL]⟩
      | .unreadable =>
        let w := w.WriteHeader 500
        ⟨w.Encode (CharacterResponse.toJSON { Error := "failed to read response" }), db,
          [.httpGet targetURL]⟩
      | .body content =>
        let w := w.set "Content-Type" "application/json"
        ⟨w.Encode (CharacterResponse.toJSON { URL := targetURL, Content := content }), db,
          [.httpGet targetURL]⟩

/-! ## backend/cmd/server/main.go -/

/-- The map `allowedOrigins` of `enableCORS` and `EnableCORS`. -/
def allowedOrigins (origin : String) : Bool :=
  origin == "http://localhost:4200" || origin == "https://character-keeper.vercel.app"

/-- The middleware `enableCORS` of backend/cmd/server/main.go. -/
def enableCORS {σ : Type} (next : Handler σ) : Handler σ := fun w r db =>
  let origin := r.Origin
  let w := if allowedOrigins origin then w.set "Access-Control-Allow-Origin" origin else w
  let w := w.set "Access-Control-Allow-Methods" "GET, POST, DELETE, OPTIONS"
  let w := w.set "Access-Control-Allow-Headers" "Content-Type"
  let w := w.set "Access-Control-Allow-Credentials" "true"
  if r.Method = "OPTIONS" then
    ⟨w.WriteHeader 200, db, []⟩
  else
    next w r db

/-- The handler registered for `GET /health`. -/
def health {σ : Type} : Handler σ := fun w _ db =>
  let w := w.WriteHeader 200
  ⟨w.write (.text "OK"), db, []⟩

/-- The reply of `http.ServeMux` when the path is registered under other methods. -/
def methodNotAllowed {σ : Type} (allow : String) : Handler σ := fun w _ db =>
  ⟨httpError (w.set "Allow" allow) "Method Not Allowed" 405, db, []⟩

/-- The routes registered in `main`, for a request whose path is in cleaned form: a
pattern with method `GET` also serves `HEAD`; a registered path under another method
is answered 405 and an unregistered path 404 by `http.ServeMux`. -/
def mux {σ : Type} (env : Env σ) : Handler σ := fun w r db =>
  if r.Path = "/api/character" then
    if r.Method = "GET" ∨ r.Method = "HEAD" then GetCharacterData env w r db
    else methodNotAllowed "GET, HEAD" w r db
  else if r.Path = "/api/save" then
    if r.Method = "POST" then SaveCharacterData env w r db
    else methodNotAllowed "POST" w r db
  else if r.Path = "/api/load" then
    if r.Method = "GET" ∨ r.Method = "HEAD" then LoadCharacterData env w r db
    else methodNotAllowed "GET, HEAD" w r db
  else if r.Path = "/api/delete" then
    if r.Method = "DELETE" then DeleteCharacterData env w r db
    else methodNotAllowed "DELETE" w r db
  else if r.Path = "/health" then
    if r.Method = "GET" ∨ r.Method = "HEAD" then health w r db
    else methodNotAllowed "GET, HEAD" w r db
  else
    ⟨httpError w "404 page not found" 404, db, []⟩

/-- The handler `main` serves: `enableCORS(mux)`. -/
def server {σ : Type} (env : Env σ) : Handler σ := enableCORS (mux env)

/-! ## api/: the serverless handlers -/

/-- The function `EnableCORS` of api/load/utils.go (repeated in load.go and
character.go, and as `enableCORS` in api/save/save.go): the writer with the CORS
headers, and whether the request was an `OPTIONS` request and is answered. -/
def EnableCORS (w : ResponseWriter) (r : Request) : ResponseWriter × Bool :=
  let origin := r.Origin
  let w := if allowedOrigins origin then w.set "Access-Control-Allow-Origin" origin else w
  let w := w.set "Access-Control-Allow-Methods" "GET, POST, DELETE, OPTIONS"
  let w := w.set "Access-Control-Allow-Headers" "Content-Type"
  let w := w.set "Access-Control-Allow-Credentials" "true"
  if r.Method = "OPTIONS" then
    (w.WriteHeader 200, true)
  else
    (w, false)

namespace Api

/-- The function `Handler` of api/save/save.go (api/save.go has the same text). -/
def save.Handler {σ : Type} (env : Env σ) : Handler σ := fun w r db =>
  match EnableCORS w r with
  | (w, true) => ⟨w, db, []⟩
  | (w, false) =>
    if r.Method ≠ "POST" then
      ⟨httpError w "Method not allowed" 405, db, []⟩
    else
      match env.json.decodeSaveRequest r.Body with
      | .error err => ⟨httpError w ("Invalid JSON: " ++ err) 400, db, []⟩
      | .ok req =>
        if req.Key = "" then
          ⟨httpError w "Key cannot be empty" 400, db, []⟩
        else if len req.Key < 3 then
          ⟨httpError w "Key must be at least 3 characters" 400, db, []⟩
        else if len req.Key > 50 then
          ⟨httpError w "Key must be 50 characters or less" 400, db, []⟩
        else
          match env.json.Marshal req.Data with
          | .error err => ⟨httpError w ("Failed to serialize data: " ++ err) 500, db, []⟩
          | .ok jsonData =>
            let redisKey := "user_save:" ++ req.Key
            let expiration := 30 * 24 * Hour
            match env.RedisClient.Set db redisKey jsonData expiration with
            | (some err, db1) =>
              ⟨httpError w ("Failed to save data: " ++ err) 500, db1,
                [.redisSet redisKey jsonData expiration]⟩
            | (none, db1) =>
              let w := w.set "Content-Type" "application/json"
              let w := w.WriteHeader 200
              let response : SaveResponse := ⟨"saved", req.Key, env.now⟩
              ⟨w.Encode response.toJSON, db1, [.redisSet redisKey jsonData expiration]⟩

/-- The function `Handler` of api/load/load.go (backend/api/load.go has the same text). -/
def load.Handler {σ : Type} (env : Env σ) : Handler σ := fun w r db =>
  match EnableCORS w r with
  | (w, true) => ⟨w, db, []⟩
  | (w, false) =>
    if r.Method ≠ "GET" then
      ⟨httpError w "Method not allowed" 405, db, []⟩
    else
      let key := r.queryGet "key"
      if key = "" then
        ⟨httpError w "Key parameter is required" 400, db, []⟩
      else
        let redisKey := "user_save:" ++ key
        match env.RedisClient.Get db redisKey with
        | .Nil => ⟨httpError w "Key not found" 404, db, [.redisGet redisKey]⟩
        | .err err =>
          ⟨httpError w ("Failed to load data: " ++ err) 500, db, [.redisGet redisKey]⟩
        | .val jsonData =>
          match env.json.Unmarshal jsonData with
          | .error err =>
            ⟨httpError w ("Failed to parse data: " ++ err) 500, db, [.redisGet redisKey]⟩
          | .ok data =>
            let w := w.set "Content-Type" "application/json"
            let w := w.WriteHeader 200
            let response : LoadResponse := ⟨key, data, env.now⟩
            ⟨w.Encode response.toJSON, db, [.redisGet redisKey]⟩

/-- The function `Handler` of api/delete/delete.go: a count of zero removed keys is
answered 404. -/
def delete.Handler {σ : Type} (env : Env σ) : Handler σ := fun w r db =>
  match EnableCORS w r with
  | (w, true) => ⟨w, db, []⟩
  | (w, false) =>
    if r.Method ≠ "DELETE" then
      ⟨httpError w "Method not allowed" 405, db, []⟩
    else
      let key := r.queryGet "key"
      if key = "" then
        ⟨httpError w "Key parameter is required" 400, db, []⟩
      else
        let redisKey := "user_save:" ++ key
        match env.RedisClient.Del db redisKey with
        | (.error err, db1) =>
          ⟨httpError w ("Failed to delete data: " ++ err) 500, db1, [.redisDel redisKey]⟩
        | (.ok result, db1) =>
          if result = 0 then
            ⟨httpError w "Key not found" 404, db1, [.redisDel redisKey]⟩
          else
            let w := w.set "Content-Type" "application/json"
            let w := w.WriteHeader 200
            let response : DeleteResponse := ⟨"deleted", key⟩
            ⟨w.Encode response.toJSON, db1, [.redisDel redisKey]⟩

/-- The function `Handler` of api/character/character.go (backend/api/character.go has
the same text). -/
def character.Handler {σ : Type} (env : Env σ) : Handler σ := fun w r db =>
  match EnableCORS w r with
  | (w, true) => ⟨w, db, []⟩
  | (w, false) =>
    if r.Method ≠ "GET" then
      let w := w.WriteHeader 405
      ⟨w.Encode (CharacterResponse.toJSON { Error := "method not allowed" }), db, []⟩
    else
      let targetURL := r.queryGet "url"
      if targetURL = "" then
        let w := w.WriteHeader 400
        ⟨w.Encode (CharacterResponse.toJSON { Error := "url parameter is required" }), db, []⟩
      else
        match ParseRequestURI env.parseAuthority targetURL with
        | .error _ =>
          let w := w.WriteHeader 400
          ⟨w.Encode (CharacterResponse.toJSON { Error := "invalid url format" }), db, []⟩
        | .ok _ =>
          match env.httpGet targetURL with
          | .failed err =>
            let w := w.WriteHeader 502
            ⟨w.Encode (CharacterResponse.toJSON { Error := "failed to fetch: " ++ err }), db,
              [.httpGet targetURL]⟩
          | .unreadable =>
            let w := w.WriteHeader 500
            ⟨w.Encode (CharacterResponse.toJSON { Error := "failed to read response" }), db,
              [.httpGet targetURL]⟩
          | .body content =>
            let w := w.set "Content-Type" "application/json"
            ⟨w.Encode (CharacterResponse.toJSON { URL := targetURL, Content := content }), db,
              [.httpGet targetURL]⟩

end Api

/-! ## The backing engine as a map -/

/-- A stored entry: the bytes and the expiration given to `Set`, in nanoseconds. -/
structure Entry where
  value : String
  expiration : Nat
  deriving DecidableEq

/-- The engine state as a finite map, most recent write first. -/
abbrev Store : Type := List (String × Entry)

/-- The entry stored under a key. -/
def Store.find (s : Store) (key : String) : Option Entry :=
  match s with
  | [] => none
  | (k, e) :: rest => if k = key then some e else Store.find rest key

/-- The store without the key. -/
def Store.erase (s : Store) (key : String) : Store :=
  match s with
  | [] => []
  | (k, e) :: rest => if k = key then Store.erase rest key else (k, e) :: Store.erase rest key

/-- The store with the entry under the key, replacing what was there. -/
def Store.put (s : Store) (key : String) (e : Entry) : Store :=
  (key, e) :: s.erase key

/-- An engine that never fails, over a map: `Get` of an absent key is `redis.Nil`, `Set`
overwrites, `Del` removes the key and counts what it removed. -/
def mapEngine : Engine Store where
  Get s key :=
    match s.find key with
    | some e => .val e.value
    | none => .Nil
  Set s key value expiration := (none, s.put key ⟨value, expiration⟩)
  Del s key := (.ok (if (s.find key).isSome then 1 else 0), s.erase key)

/-! ## A concrete environment

The collaborators on the example documents of the specification (`Save("hero1", {"hp":30})`
and its neighbours): what `encoding/json`, `http.Get` and `parseAuthority` answer on them.
Inputs outside the examples are answered with an error. -/

/-- The document `{"hp":30}`. -/
def hp30 : JSON := .obj [("hp", .num 30)]

/-- The document `{"hp":31}`. -/
def hp31 : JSON := .obj [("hp", .num 31)]

/-- The answers of `encoding/json` on the example documents. -/
def exampleJson : EncodingJson where
  decodeSaveRequest body :=
    if body = "\x7b\"key\":\"hero1\",\"data\":\x7b\"hp\":30\x7d\x7d" then .ok ⟨"hero1", hp30⟩
    else if body = "\x7b\"key\":\"hero1\",\"data\":\x7b\"hp\":31\x7d\x7d" then .ok ⟨"hero1", hp31⟩
    else if body = "\x7b\"key\":\"éé\",\"data\":\x7b\"hp\":30\x7d\x7d" then .ok ⟨"éé", hp30⟩
    else if body = "\x7b\"key\":\"hero1\"\x7d" then .ok ⟨"hero1", .null⟩
    else .error "unexpected input"
  Marshal v :=
    match v with
    | .null => .ok "null"
    | .obj [("hp", .num x)] =>
      if x = 30 then .ok "\x7b\"hp\":30\x7d"
      else if x = 31 then .ok "\x7b\"hp\":31\x7d"
      else .error "unexpected input"
    | _ => .error "unexpected input"
  Unmarshal bytes :=
    if bytes = "null" then .ok .null
    else if bytes = "\x7b\"hp\":30\x7d" then .ok hp30
    else if bytes = "\x7b\"hp\":31\x7d" then .ok hp31
    else .error "unexpected input"

/-- The answers of `http.Get` on the example URLs: the client refuses a URL without a
scheme before it opens a connection. -/
def exampleHttpGet (url : String) : FetchResult :=
  if url = "https://example.com/sheet.json" then .body "hello"
  else if url = "/foo" then .failed "Get \"/foo\": unsupported protocol scheme \"\""
  else .failed "unexpected input"

/-- The example collaborators over the map engine. -/
def exampleEnv : Env Store where
  json := exampleJson
  RedisClient := mapEngine
  httpGet := exampleHttpGet
  now := "2024-01-01T00:00:00Z"
  parseAuthority authority := authority == "example.com"

/-- The body `{"key":"hero1","data":{"hp":30}}`. -/
def heroBody30 : String := "\x7b\"key\":\"hero1\",\"data\":\x7b\"hp\":30\x7d\x7d"

/-- The body `{"key":"hero1","data":{"hp":31}}`. -/
def heroBody31 : String := "\x7b\"key\":\"hero1\",\"data\":\x7b\"hp\":31\x7d\x7d"

/-- The body `{"key":"éé","data":{"hp":30}}`: a key of two characters, four bytes. -/
def shortKeyBody : String := "\x7b\"key\":\"éé\",\"data\":\x7b\"hp\":30\x7d\x7d"

/-- The bytes `{"hp":30}`. -/
def hp30Bytes : String := "\x7b\"hp\":30\x7d"

/-- The bytes `{"hp":31}`. -/
def hp31Bytes : String := "\x7b\"hp\":31\x7d"

/-- A `POST /api/save` request with the given body. -/
def postSave (body : String) : Request :=
  { Method := "POST", Path := "/api/save", Body := body }

/-- A `GET /api/load?key=` request. -/
def getLoad (key : String) : Request :=
  { Method := "GET", Path := "/api/load", Query := [("key", key)] }

/-- A `DELETE /api/delete?key=` request. -/
def deleteKey (key : String) : Request :=
  { Method := "DELETE", Path := "/api/delete", Query := [("key", key)] }

/-- A `GET /api/character?url=` request. -/
def getCharacter (url : String) : Request :=
  { Method := "GET", Path := "/api/character", Query := [("url", url)] }

/-- A `HEAD /api/character?url=` request. -/
def headCharacter (url : String) : Request :=
  { Method := "HEAD", Path := "/api/character", Query := [("url", url)] }

/-! ## Predicates on replies -/

/-- Whether a body is one JSON object that has a field `error`. -/
def isErrorEnvelope (body : List Chunk) : Bool :=
  match body with
  | [.json (.obj fields)] => fields.any (fun p => p.1 == "error")
  | _ => false

/-- Whether a reply is one line of plain text, declared as `text/plain`. -/
def isPlainText (w : ResponseWriter) : Bool :=
  w.header "Content-Type" == some "text/plain; charset=utf-8" &&
  match w.Body with
  | [.text _] => true
  | _ => false

/-- Whether a body is one JSON value. -/
def isJsonBody (body : List Chunk) : Bool :=
  match body with
  | [.json _] => true
  | _ => false

/-- What the save, load and delete handlers answer: 200 with a JSON body (or the empty
body of an answered `OPTIONS` request), or one of the error statuses with a plain-text
body. -/
def PlainErrors {σ : Type} (o : Outcome σ) : Prop :=
  (o.w.code = 200 ∧ (o.w.Body = [] ∨ isJsonBody o.w.Body = true)) ∨
  (o.w.code ∈ [405, 400, 404, 500] ∧ isPlainText o.w = true ∧ isErrorEnvelope o.w.Body = false)

/-- The bare reply to an `OPTIONS` request: status 200, no body, no call to a
collaborator, the engine state as before, and the CORS headers: the origin echoed only
when it is in the allow-list, the three fixed headers always. -/
def BareOptionsReply {σ : Type} (r : Request) (db : σ) (o : Outcome σ) : Prop :=
  o.w.code = 200 ∧ o.w.Body = [] ∧ o.calls = [] ∧ o.db = db ∧
  o.w.header "Access-Control-Allow-Origin" =
    (if allowedOrigins r.Origin then some r.Origin else none) ∧
  o.w.header "Access-Control-Allow-Methods" = some "GET, POST, DELETE, OPTIONS" ∧
  o.w.header "Access-Control-Allow-Headers" = some "Content-Type" ∧
  o.w.header "Access-Control-Allow-Credentials" = some "true"

/-- What C12 asks of a handler on a request: status 405, no call to the engine or to
`http.Get`, the engine state as before. -/
def Refused {σ : Type} (db : σ) (o : Outcome σ) : Prop :=
  o.w.code = 405 ∧ o.calls = [] ∧ o.db = db

/-- A plain-text reply of `http.Error`: the status, the message and a newline as the
whole body, under `Content-Type: text/plain; charset=utf-8`. -/
def PlainReply {σ : Type} (o : Outcome σ) (status : Nat) (message : String) : Prop :=
  o.w.code = status ∧ o.w.Body = [.text (message ++ "\n")] ∧
  o.w.header "Content-Type" = some "text/plain; charset=utf-8"

/-- The status of every outcome of a save handler `h`, condition by condition, on a
request that is not `OPTIONS` and a fresh writer. -/
def SaveStatuses {σ : Type} (env : Env σ) (h : Handler σ) : Prop :=
  ∀ (w : ResponseWriter) (r : Request) (db : σ),
    w.Status = none → w.Body = [] → r.Method ≠ "OPTIONS" →
    (r.Method ≠ "POST" → PlainReply (h w r db) 405 "Method not allowed") ∧
    (r.Method = "POST" → ∀ err, env.json.decodeSaveRequest r.Body = .error err →
      PlainReply (h w r db) 400 ("Invalid JSON: " ++ err)) ∧
    (r.Method = "POST" → ∀ req, env.json.decodeSaveRequest r.Body = .ok req →
      (req.Key = "" → PlainReply (h w r db) 400 "Key cannot be empty") ∧
      (req.Key ≠ "" → len req.Key < 3 →
        PlainReply (h w r db) 400 "Key must be at least 3 characters") ∧
      (3 ≤ len req.Key → 50 < len req.Key →
        PlainReply (h w r db) 400 "Key must be 50 characters or less") ∧
      (3 ≤ len req.Key → len req.Key ≤ 50 →
        (∀ err, env.json.Marshal req.Data = .error err →
          PlainReply (h w r db) 500 ("Failed to serialize data: " ++ err)) ∧
        (∀ bytes, env.json.Marshal req.Data = .ok bytes →
          (∀ err, (env.RedisClient.Set db ("user_save:" ++ req.Key) bytes (30 * 24 * Hour)).1 =
              some err →
            PlainReply (h w r db) 500 ("Failed to save data: " ++ err)) ∧
          ((env.RedisClient.Set db ("user_save:" ++ req.Key) bytes (30 * 24 * Hour)).1 = none →
            (h w r db).w.code = 200 ∧
            (h w r db).w.Body =
              [.json (.obj [("status", .str "saved"), ("key", .str req.Key),
                ("savedAt", .str env.now)])]))))

/-- The status of every outcome of a load handler `h`, condition by condition, on a
request that is not `OPTIONS` and a fresh writer; the messages differ between the two
copies. -/
def LoadStatuses {σ : Type} (env : Env σ) (h : Handler σ) (missing notFound : String)
    (corrupt : String → String) : Prop :=
  ∀ (w : ResponseWriter) (r : Request) (db : σ),
    w.Status = none → w.Body = [] → r.Method ≠ "OPTIONS" →
    (r.Method ≠ "GET" → PlainReply (h w r db) 405 "Method not allowed") ∧
    (r.Method = "GET" →
      (r.queryGet "key" = "" → PlainReply (h w r db) 400 missing) ∧
      (r.queryGet "key" ≠ "" →
        (env.RedisClient.Get db ("user_save:" ++ r.queryGet "key") = .Nil →
          PlainReply (h w r db) 404 notFound) ∧
        (∀ err, env.RedisClient.Get db ("user_save:" ++ r.queryGet "key") = .err err →
          PlainReply (h w r db) 500 ("Failed to load data: " ++ err)) ∧
        (∀ bytes, env.RedisClient.Get db ("user_save:" ++ r.queryGet "key") = .val bytes →
          (∀ err, env.json.Unmarshal bytes = .error err →
            PlainReply (h w r db) 500 (corrupt err)) ∧
          (∀ data, env.json.Unmarshal bytes = .ok data →
            (h w r db).w.code = 200 ∧
            (h w r db).w.Body =
              [.json (.obj [("key", .str (r.queryGet "key")), ("data", data),
                ("loadedAt", .str env.now)])]))))

/-- The status of every outcome of a delete handler `h`, condition by condition, on a
request that is not `OPTIONS` and a fresh writer; `zeroIsNotFound` tells whether the
handler answers a count of zero removed keys 404, and `deleted` is the body of a 200. -/
def DeleteStatuses {σ : Type} (env : Env σ) (h : Handler σ) (missing failed : String)
    (zeroIsNotFound : Bool) (deleted : String → JSON) : Prop :=
  ∀ (w : ResponseWriter) (r : Request) (db : σ),
    w.Status = none → w.Body = [] → r.Method ≠ "OPTIONS" →
    (r.Method ≠ "DELETE" → PlainReply (h w r db) 405 "Method not allowed") ∧
    (r.Method = "DELETE" →
      (r.queryGet "key" = "" → PlainReply (h w r db) 400 missing) ∧
      (r.queryGet "key" ≠ "" →
        (∀ err, (env.RedisClient.Del db ("user_save:" ++ r.queryGet "key")).1 = .error err →
          PlainReply (h w r db) 500 (failed ++ err)) ∧
        (∀ count, (env.RedisClient.Del db ("user_save:" ++ r.queryGet "key")).1 = .ok count →
          (zeroIsNotFound = true → count = 0 → PlainReply (h w r db) 404 "Key not found") ∧
          ((zeroIsNotFound = false ∨ count ≠ 0) →
            (h w r db).w.code = 200 ∧
            (h w r db).w.Body = [.json (deleted (r.queryGet "key"))]))))

/-! ## encoding/json

The decoder and the encoder of the Go standard library as the handlers call them, on the
characters of the text.  A `JSON` term is used in two roles: as a *document*, the value a
text denotes (a number is the decimal written, the members of an object stand in the
order written, a name may repeat), and as a *Go value*, what `interface{}` holds after
decoding (a number is a `float64`, an object is a map, held as its members sorted by
name, each name once; negative zero is not told apart from zero).  `interfaceValue` takes
the first to the second.  Error messages are not those of the library. -/

mutual
/-- Equality of two `JSON` terms is decidable. -/
def JSON.decEq : (a b : JSON) → Decidable (a = b)
  | .null, .null => isTrue rfl
  | .bool x, .bool y =>
    if h : x = y then isTrue (by rw [h]) else isFalse (by intro e; cases e; exact h rfl)
  | .num x, .num y =>
    if h : x = y then isTrue (by rw [h]) else isFalse (by intro e; cases e; exact h rfl)
  | .str x, .str y =>
    if h : x = y then isTrue (by rw [h]) else isFalse (by intro e; cases e; exact h rfl)
  | .arr x, .arr y =>
    match JSON.decEqItems x y with
    | isTrue h => isTrue (by rw [h])
    | isFalse h => isFalse (by intro e; cases e; exact h rfl)
  | .obj x, .obj y =>
    match JSON.decEqFields x y with
    | isTrue h => isTrue (by rw [h])
    | isFalse h => isFalse (by intro e; cases e; exact h rfl)
  | .null, .bool _ => isFalse (by intro e; cases e)
  | .null, .num _ => isFalse (by intro e; cases e)
  | .null, .str _ => isFalse (by intro e; cases e)
  | .null, .arr _ => isFalse (by intro e; cases e)
  | .null, .obj _ => isFalse (by intro e; cases e)
  | .bool _, .null => isFalse (by intro e; cases e)
  | .bool _, .num _ => isFalse (by intro e; cases e)
  | .bool _, .str _ => isFalse (by intro e; cases e)
  | .bool _, .arr _ => isFalse (by intro e; cases e)
  | .bool _, .obj _ => isFalse (by intro e; cases e)
  | .num _, .null => isFalse (by intro e; cases e)
  | .num _, .bool _ => isFalse (by intro e; cases e)
  | .num _, .str _ => isFalse (by intro e; cases e)
  | .num _, .arr _ => isFalse (by intro e; cases e)
  | .num _, .obj _ => isFalse (by intro e; cases e)
  | .str _, .null => isFalse (by intro e; cases e)
  | .str _, .bool _ => isFalse (by intro e; cases e)
  | .str _, .num _ => isFalse (by intro e; cases e)
  | .str _, .arr _ => isFalse (by intro e; cases e)
  | .str _, .obj _ => isFalse (by intro e; cases e)
  | .arr _, .null => isFalse (by intro e; cases e)
  | .arr _, .bool _ => isFalse (by intro e; cases e)
  | .arr _, .num _ => isFalse (by intro e; cases e)
  | .arr _, .str _ => isFalse (by intro e; cases e)
  | .arr _, .obj _ => isFalse (by intro e; cases e)
  | .obj _, .null => isFalse (by intro e; cases e)
  | .obj _, .bool _ => isFalse (by intro e; cases e)
  | .obj _, .num _ => isFalse (by intro e; cases e)
  | .obj _, .str _ => isFalse (by intro e; cases e)
  | .obj _, .arr _ => isFalse (by intro e; cases e)
/-- Equality of two lists of `JSON` terms is decidable. -/
def JSON.decEqItems : (a b : List JSON) → Decidable (a = b)
  | [], [] => isTrue rfl
  | [], _ :: _ => isFalse (by intro e; cases e)
  | _ :: _, [] => isFalse (by intro e; cases e)
  | x :: xs, y :: ys =>
    match JSON.decEq x y, JSON.decEqItems xs ys with
    | isTrue h1, isTrue h2 => isTrue (by rw [h1, h2])
    | isFalse h1, _ => isFalse (by intro e; cases e; exact h1 rfl)
    | _, isFalse h2 => isFalse (by intro e; cases e; exact h2 rfl)
/-- Equality of two lists of members is decidable. -/
def JSON.decEqFields : (a b : List (String × JSON)) → Decidable (a = b)
  | [], [] => isTrue rfl
  | [], _ :: _ => isFalse (by intro e; cases e)
  | _ :: _, [] => isFalse (by intro e; cases e)
  | (k, x) :: xs, (l, y) :: ys =>
    if hk : k = l then
      match JSON.decEq x y, JSON.decEqFields xs ys with
      | isTrue h1, isTrue h2 => isTrue (by rw [hk, h1, h2])
      | isFalse h1, _ => isFalse (by intro e; cases e; exact h1 rfl)
      | _, isFalse h2 => isFalse (by intro e; cases e; exact h2 rfl)
    else isFalse (by intro e; cases e; exact hk rfl)
end

instance JSON.instDecidableEq : DecidableEq JSON := JSON.decEq

instance Chunk.instDecidableEq : DecidableEq Chunk
  | .text a, .text b =>
    if h : a = b then isTrue (by rw [h]) else isFalse (by intro e; cases e; exact h rfl)
  | .json a, .json b =>
    if h : a = b then isTrue (by rw [h]) else isFalse (by intro e; cases e; exact h rfl)
  | .text _, .json _ => isFalse (by intro e; cases e)
  | .json _, .text _ => isFalse (by intro e; cases e)

instance Except.instDecidableEqJSON : DecidableEq (Except String JSON)
  | .ok a, .ok b =>
    if h : a = b then isTrue (by rw [h]) else isFalse (by intro e; cases e; exact h rfl)
  | .error a, .error b =>
    if h : a = b then isTrue (by rw [h]) else isFalse (by intro e; cases e; exact h rfl)
  | .ok _, .error _ => isFalse (by intro e; cases e)
  | .error _, .ok _ => isFalse (by intro e; cases e)

namespace GoJson

/-! ### float64 -/

/-- Whether `2^e ≤ p / q`, for `q` positive. -/
def geTwoPow (p q : Nat) (e : Int) : Bool :=
  if 0 ≤ e then decide (q * 2 ^ e.toNat ≤ p) else decide (q ≤ p * 2 ^ (-e).toNat)

/-- The loop of `bitLength`. -/
def bitLengthLoop : Nat → Nat → Nat
  | 0, _ => 0
  | fuel + 1, n => if n = 0 then 0 else bitLengthLoop fuel (n / 2) + 1

/-- The number of binary digits of a number. -/
def bitLength (n : Nat) : Nat := bitLengthLoop n n

/-- The number `n × 2^s`. -/
def binary (n : Nat) (s : Int) : Rat :=
  if 0 ≤ s then ((n * 2 ^ s.toNat : Nat) : Rat) else mkRat n (2 ^ (-s).toNat)

/-- The float64 nearest to the positive number `p / q`, ties to the even significand, or
`none` when that is beyond the largest float64 (the result rounds to `2^1024`).  With
`2^e ≤ p / q < 2^(e+1)`, the unit in the last place is `2^s` for `s = e - 52`, and
`2^(-1074)` for a subnormal; `p / q` is rounded to a whole multiple `n` of it. -/
def roundFloat64 (p q : Nat) : Option Rat :=
  let e0 : Int := (bitLength p : Int) - (bitLength q : Int)
  let e : Int := if geTwoPow p q e0 then e0 else e0 - 1
  let s : Int := max (e - 52) (-1074)
  let a : Nat := if 0 ≤ s then p else p * 2 ^ (-s).toNat
  let b : Nat := if 0 ≤ s then q * 2 ^ s.toNat else q
  let n0 : Nat := a / b
  let r : Nat := a % b
  let n : Nat :=
    if 2 * r < b then n0 else if b < 2 * r then n0 + 1 else if n0 % 2 = 0 then n0 else n0 + 1
  if 0 ≤ s ∧ 2 ^ 1024 ≤ n * 2 ^ s.toNat then none else some (binary n s)

/-- The conversion of a decimal to `float64` (`strconv.ParseFloat(s, 64)`): the nearest
float64, ties to even; `none` is the range error of a number too large. A number too
small becomes zero. -/
def float64 (x : Rat) : Option Rat :=
  if x.num = 0 then some 0
  else
    match roundFloat64 x.num.natAbs x.den with
    | none => none
    | some y => some (if x.num < 0 then -y else y)

/-! ### The scanner and the decoder -/

/-- The function `isSpace` of the scanner. -/
def isSpace (c : Char) : Bool := c == ' ' || c == '\t' || c == '\r' || c == '\n'

/-- The text after its leading white space. -/
def skipSpace : List Char → List Char
  | [] => []
  | c :: cs => if isSpace c then skipSpace cs else c :: cs

/-- The value of a run of decimal digits. -/
def digitsValue (ds : List Char) : Nat :=
  ds.foldl (fun acc c => acc * 10 + (c.toNat - 48)) 0

/-- The number `m × 10^e`. -/
def decimal (m : Int) (e : Int) : Rat :=
  if 0 ≤ e then ((m * 10 ^ e.toNat : Int) : Rat) else mkRat m (10 ^ (-e).toNat)

/-- The integer part of a number: `0`, or a digit from 1 to 9 and the digits after it.
The result is the digits and the rest of the text. -/
def scanInt : List Char → Option (List Char × List Char)
  | [] => none
  | c :: cs =>
    if c = '0' then some (['0'], cs)
    else if isDigit c then some (c :: cs.takeWhile isDigit, cs.dropWhile isDigit)
    else none

/-- The fraction of a number, if there is one: a point and at least one digit. -/
def scanFrac : List Char → Option (List Char × List Char)
  | [] => some ([], [])
  | c :: cs =>
    if c = '.' then
      match cs with
      | [] => none
      | d :: ds =>
        if isDigit d then some (d :: ds.takeWhile isDigit, ds.dropWhile isDigit) else none
    else some ([], c :: cs)

/-- A run of at least one digit. -/
def scanDigits : List Char → Option (List Char × List Char)
  | [] => none
  | d :: ds =>
    if isDigit d then some (d :: ds.takeWhile isDigit, ds.dropWhile isDigit) else none

/-- The exponent of a number, if there is one: `e` or `E`, a sign or none, and at least
one digit. -/
def scanExp : List Char → Option (Int × List Char)
  | [] => some (0, [])
  | c :: cs =>
    if c = 'e' ∨ c = 'E' then
      match cs with
      | [] => none
      | s :: ds =>
        if s = '-' then (scanDigits ds).map (fun p => (-(digitsValue p.1 : Int), p.2))
        else if s = '+' then (scanDigits ds).map (fun p => ((digitsValue p.1 : Int), p.2))
        else (scanDigits (s :: ds)).map (fun p => ((digitsValue p.1 : Int), p.2))
    else some (0, c :: cs)

/-- A number after its sign, if it has one: the decimal it denotes (negative when `neg`)
and the rest of the text. -/
def scanUnsigned (neg : Bool) (cs : List Char) : Option (Rat × List Char) :=
  match scanInt cs with
  | none => none
  | some (i, r1) =>
    match scanFrac r1 with
    | none => none
    | some (f, r2) =>
      match scanExp r2 with
      | none => none
      | some (e, r3) =>
        some (decimal (if neg then -(digitsValue (i ++ f) : Int) else (digitsValue (i ++ f) : Int))
          (e - f.length), r3)

/-- A number literal: the decimal it denotes and the rest of the text. -/
def scanNumber : List Char → Option (Rat × List Char)
  | [] => none
  | c :: cs => if c = '-' then scanUnsigned true cs else scanUnsigned false (c :: cs)

/-- The value of a hexadecimal digit. -/
def hexVal (c : Char) : Option Nat :=
  if isDigit c then some (c.toNat - 48)
  else if 97 ≤ c.toNat ∧ c.toNat ≤ 102 then some (c.toNat - 87)
  else if 65 ≤ c.toNat ∧ c.toNat ≤ 70 then some (c.toNat - 55)
  else none

/-- The function `getu4` on the four characters after `\u`. -/
def hex4 (a b c d : Char) : Option Nat :=
  match hexVal a, hexVal b, hexVal c, hexVal d with
  | some a, some b, some c, some d => some (((a * 16 + b) * 16 + c) * 16 + d)
  | _, _, _, _ => none

/-- The character of a one-letter escape. -/
def unescape (c : Char) : Option Char :=
  if c = '"' then some '"'
  else if c = '\\' then some '\\'
  else if c = '/' then some '/'
  else if c = 'b' then some (Char.ofNat 8)
  else if c = 'f' then some (Char.ofNat 12)
  else if c = 'n' then some '\n'
  else if c = 'r' then some '\r'
  else if c = 't' then some '\t'
  else none

/-- The low surrogate `\uXXXX` at the head of a text. -/
def lowSurrogate : List Char → Option Nat
  | b :: u :: a2 :: b2 :: c2 :: d2 :: _ =>
    if b = '\\' ∧ u = 'u' then
      match hex4 a2 b2 c2 d2 with
      | some lo => if 0xDC00 ≤ lo ∧ lo < 0xE000 then some lo else none
      | none => none
    else none
  | _ => none

/-- One character of a string literal, which is not the closing quote (the scanner's
`stateInString` and the function `unquote`): the character denoted and the text after
it.  A character below U+0020 is refused; two `\uXXXX` escapes that form a surrogate pair
give one character, a surrogate without its partner gives U+FFFD. -/
def scanChar : List Char → Option (Char × List Char)
  | [] => none
  | c :: rest =>
    if c = '\\' then
      match rest with
      | [] => none
      | e :: rest1 =>
        if e = 'u' then
          match rest1 with
          | a :: b :: c :: d :: rest2 =>
            match hex4 a b c d with
            | none => none
            | some hi =>
              if 0xD800 ≤ hi ∧ hi < 0xDC00 then
                match lowSurrogate rest2 with
                | some lo =>
                  some (Char.ofNat (0x10000 + (hi - 0xD800) * 0x400 + (lo - 0xDC00)),
                    rest2.drop 6)
                | none => some (Char.ofNat 0xFFFD, rest2)
              else if 0xDC00 ≤ hi ∧ hi < 0xE000 then some (Char.ofNat 0xFFFD, rest2)
              else some (Char.ofNat hi, rest2)
          | _ => none
        else (unescape e).map (fun x => (x, rest1))
    else if c.toNat < 0x20 then none
    else some (c, rest)

/-- The loop of `scanString`; the first argument bounds the number of characters. -/
def scanStringLoop : Nat → List Char → Option (List Char × List Char)
  | 0, _ => none
  | _ + 1, [] => none
  | fuel + 1, c :: rest =>
    if c = '"' then some ([], rest)
    else
      match scanChar (c :: rest) with
      | none => none
      | some (x, rest1) => (scanStringLoop fuel rest1).map (fun p => (x :: p.1, p.2))

/-- A string literal after its opening quote: the characters it denotes and the text
after the closing quote. -/
def scanString (cs : List Char) : Option (List Char × List Char) :=
  scanStringLoop cs.length cs

/-- The text after a literal, when the text starts with it. -/
def stripLit (lit cs : List Char) : Option (List Char) :=
  if lit.isPrefixOf cs then some (cs.drop lit.length) else none

/-- What follows a value in an array or an object, after white space: a comma (`true`:
another value follows) or the closing bracket (`false`). -/
def separator (close : Char) (cs : List Char) : Option (Bool × List Char) :=
  match skipSpace cs with
  | [] => none
  | c :: rest => if c = ',' then some (true, rest) else if c = close then some (false, rest) else none

/-- The name of a member and its colon: white space, a string, white space, `:`. -/
def memberName (cs : List Char) : Option (String × List Char) :=
  match skipSpace cs with
  | [] => none
  | q :: rest =>
    if q = '"' then
      match scanString rest with
      | none => none
      | some (name, r1) =>
        match skipSpace r1 with
        | [] => none
        | c :: r2 => if c = ':' then some (String.mk name, r2) else none
    else none

mutual
/-- The scanner and the decoder's walk over one value: white space, then a literal, a
number, a string, an array or an object.  The result is the document and the text after
it.  The first argument bounds the recursion (the text is finite); `depth` is the number of
arrays and objects that may still be opened (`maxNestingDepth`). -/
def parseValue : Nat → Nat → List Char → Option (JSON × List Char)
  | 0, _, _ => none
  | fuel + 1, depth, cs =>
    match skipSpace cs with
    | [] => none
    | c :: rest =>
      if c = '"' then (scanString rest).map (fun p => (.str (String.mk p.1), p.2))
      else if c = '[' then
        if depth = 0 then none
        else
          match skipSpace rest with
          | [] => none
          | d :: rest1 =>
            if d = ']' then some (.arr [], rest1)
            else (parseElems fuel (depth - 1) (d :: rest1)).map (fun p => (.arr p.1, p.2))
      else if c = '{' then
        if depth = 0 then none
        else
          match skipSpace rest with
          | [] => none
          | d :: rest1 =>
            if d = '}' then some (.obj [], rest1)
            else (parseMembers fuel (depth - 1) (d :: rest1)).map (fun p => (.obj p.1, p.2))
      else if c = 'n' then (stripLit ['u', 'l', 'l'] rest).map (fun r => (.null, r))
      else if c = 't' then (stripLit ['r', 'u', 'e'] rest).map (fun r => (.bool true, r))
      else if c = 'f' then (stripLit ['a', 'l', 's', 'e'] rest).map (fun r => (.bool false, r))
      else (scanNumber (c :: rest)).map (fun p => (.num p.1, p.2))
/-- The elements of an array after `[` or a comma, up to and with the closing `]`. -/
def parseElems : Nat → Nat → List Char → Option (List JSON × List Char)
  | 0, _, _ => none
  | fuel + 1, depth, cs =>
    match parseValue fuel depth cs with
    | none => none
    | some (x, r1) =>
      match separator ']' r1 with
      | none => none
      | some (true, r2) => (parseElems fuel depth r2).map (fun p => (x :: p.1, p.2))
      | some (false, r2) => some ([x], r2)
/-- The members of an object after `{` or a comma, up to and with the closing `}`. -/
def parseMembers : Nat → Nat → List Char → Option (List (String × JSON) × List Char)
  | 0, _, _ => none
  | fuel + 1, depth, cs =>
    match memberName cs with
    | none => none
    | some (name, r1) =>
      match parseValue fuel depth r1 with
      | none => none
      | some (x, r2) =>
        match separator '}' r2 with
        | none => none
        | some (true, r3) => (parseMembers fuel depth r3).map (fun p => ((name, x) :: p.1, p.2))
        | some (false, r3) => some ([(name, x)], r3)
end

/-- The constant `maxNestingDepth` of the scanner. -/
def maxNestingDepth : Nat := 10000

/-- The first value of a text and the text after it, or `none` on a syntax error.  The
bound on the recursion is more than the number of values the text can hold. -/
def parseDocument (cs : List Char) : Option (JSON × List Char) :=
  parseValue (2 * cs.length + 2) maxNestingDepth cs

/-- The order of map keys in the encoder's output: that of the bytes of the UTF-8
encodings, which is the order of the code points. -/
def ltChars : List Char → List Char → Bool
  | _, [] => false
  | [], _ :: _ => true
  | a :: as, b :: bs => decide (a.toNat < b.toNat) || (a.toNat == b.toNat && ltChars as bs)

/-- The order of two map keys. -/
def keyLt (a b : String) : Bool := ltChars a.toList b.toList

/-- The assignment `m[k] = v` on a map held as its members sorted by key. -/
def putMember (k : String) (v : JSON) : List (String × JSON) → List (String × JSON)
  | [] => [(k, v)]
  | (k2, v2) :: rest =>
    if k = k2 then (k, v) :: rest
    else if keyLt k k2 then (k, v) :: (k2, v2) :: rest
    else (k2, v2) :: putMember k v rest

mutual
/-- The Go value the decoder stores in an `interface{}` for a document (the functions
`valueInterface`, `arrayInterface`, `objectInterface`, `literalInterface`): a number is
converted to `float64`, which fails on a number out of range; an object becomes a map. -/
def interfaceValue : JSON → Except String JSON
  | .null => .ok .null
  | .bool b => .ok (.bool b)
  | .num x =>
    match float64 x with
    | some y => .ok (.num y)
    | none => .error "json: cannot unmarshal number into Go value of type float64"
  | .str s => .ok (.str s)
  | .arr items =>
    match arrayInterface items with
    | .ok vs => .ok (.arr vs)
    | .error e => .error e
  | .obj fields =>
    match objectInterface fields [] with
    | .ok m => .ok (.obj m)
    | .error e => .error e
/-- The elements of an array, in order. -/
def arrayInterface : List JSON → Except String (List JSON)
  | [] => .ok []
  | x :: rest =>
    match interfaceValue x with
    | .error e => .error e
    | .ok v =>
      match arrayInterface rest with
      | .ok vs => .ok (v :: vs)
      | .error e => .error e
/-- The members of an object, assigned to the map `m` in the order written. -/
def objectInterface : List (String × JSON) → List (String × JSON) →
    Except String (List (String × JSON))
  | [], m => .ok m
  | (name, x) :: rest, m =>
    match interfaceValue x with
    | .error e => .error e
    | .ok v => objectInterface rest (putMember name v m)
end

/-- The fold of a character of a member name when it is compared with the name of a
struct field in lower-case ASCII letters: an upper-case ASCII letter, and the two
characters outside ASCII that `unicode.SimpleFold` relates to an ASCII letter (the Kelvin
sign to `k`, the long s to `s`). -/
def foldRune (c : Char) : Char :=
  if 65 ≤ c.toNat ∧ c.toNat ≤ 90 then Char.ofNat (c.toNat + 32)
  else if c.toNat = 0x212A then 'k'
  else if c.toNat = 0x17F then 's'
  else c

/-- Whether a member name selects the struct field tagged `field` (lower-case ASCII):
the names are equal, or equal under case folding. -/
def fieldMatches (name field : String) : Bool := name.toList.map foldRune == field.toList

/-- The members of an object decoded into a `SaveRequest`, in the order written: `key`
takes a string and keeps its value on `null`, `data` takes any value, a member of another
name is skipped. -/
def bindMembers : List (String × JSON) → SaveRequest → Except String SaveRequest
  | [], req => .ok req
  | (name, x) :: rest, req =>
    if fieldMatches name "key" then
      match x with
      | .str s => bindMembers rest { req with Key := s }
      | .null => bindMembers rest req
      | _ => .error "json: cannot unmarshal into Go struct field SaveRequest.key of type string"
    else if fieldMatches name "data" then
      match interfaceValue x with
      | .ok v => bindMembers rest { req with Data := v }
      | .error e => .error e
    else bindMembers rest req

/-- A document decoded into a `SaveRequest` that holds the zero value: `null` leaves it
as it is, an object sets its fields, another document is a type error. -/
def bindSaveRequest : JSON → Except String SaveRequest
  | .null => .ok ⟨"", .null⟩
  | .obj fields => bindMembers fields ⟨"", .null⟩
  | _ => .error "json: cannot unmarshal into Go value of type handlers.SaveRequest"

/-! ### The encoder -/

/-- The decimal digit of a number below ten. -/
def digitChar (n : Nat) : Char := Char.ofNat (48 + n)

/-- The loop of `natDigits`. -/
def natDigitsLoop : Nat → Nat → List Char → List Char
  | 0, _, acc => acc
  | fuel + 1, n, acc =>
    if n < 10 then digitChar n :: acc else natDigitsLoop fuel (n / 10) (digitChar (n % 10) :: acc)

/-- The decimal digits of a number. -/
def natDigits (n : Nat) : List Char := natDigitsLoop (n + 1) n []

/-- Whether `p / q < 10^t`, for `q` positive. -/
def ltTenPow (p q : Nat) (t : Int) : Bool :=
  if 0 ≤ t then decide (p < q * 10 ^ t.toNat) else decide (p * 10 ^ (-t).toNat < q)

/-- The loop of `decimalPoint`. -/
def decimalPointLoop (p q : Nat) : Nat → Int → Int
  | 0, t => t
  | fuel + 1, t => if ltTenPow p q t then t else decimalPointLoop p q fuel (t + 1)

/-- The position of the decimal point of the positive number `p / q`: the least `t` with
`p / q < 10^t` (a positive float64 lies between `10^(-324)` and `10^309`). -/
def decimalPoint (p q : Nat) : Int := decimalPointLoop p q 700 (-350)

/-- The loop of `stripZeros`. -/
def stripZerosLoop : Nat → Nat → Int → Nat × Int
  | 0, m, e => (m, e)
  | fuel + 1, m, e =>
    if m ≠ 0 ∧ m % 10 = 0 then stripZerosLoop fuel (m / 10) (e + 1) else (m, e)

/-- The decimal `m × 10^e` without the zeros at the end of `m`. -/
def stripZeros (m : Nat) (e : Int) : Nat × Int := stripZerosLoop 20 m e

/-- Whether the decimal `±m × 10^e` is read back as the float64 `x`. -/
def readsBack (x : Rat) (m : Nat) (e : Int) : Bool :=
  m ≠ 0 && float64 (decimal (if decide (x.num < 0) then -(m : Int) else (m : Int)) e) == some x

/-- The decimals of `n` significant digits next to `|x| = p / q`, below and above, and
the one of them `strconv` writes for the float64 `x`, if one of them is read back as `x`:
the nearer one, and on a tie the even one.  The point of `p / q` is at `dp`. -/
def shortestAt (x : Rat) (p q : Nat) (dp : Int) (n : Nat) : Option (Nat × Int) :=
  let k : Int := n - dp
  let a : Nat := if 0 ≤ k then p * 10 ^ k.toNat else p
  let b : Nat := if 0 ≤ k then q else q * 10 ^ (-k).toNat
  let lo := stripZeros (a / b) (-k)
  let hi := stripZeros (a / b + 1) (-k)
  let r := a % b
  let okLo := readsBack x lo.1 lo.2
  let okHi := readsBack x hi.1 hi.2
  if okLo ∧ okHi then
    (if 2 * r < b then some lo else if b < 2 * r then some hi
     else if (a / b) % 2 = 0 then some lo else some hi)
  else if okLo then some lo
  else if okHi then some hi
  else none

/-- The loop of `shortest`: `n` significant digits, then more. -/
def shortestLoop (x : Rat) (p q : Nat) (dp : Int) : Nat → Nat → Option (Nat × Int)
  | 0, _ => none
  | fuel + 1, n =>
    match shortestAt x p q dp n with
    | some r => some r
    | none => shortestLoop x p q dp fuel (n + 1)

/-- The shortest decimal `m × 10^e` that is read back as the float64 `x`, which is not
zero (`strconv.FormatFloat` with precision -1): `m` has no zero at its end and at most 17
digits.  The result is `none` when `x` is not a float64. -/
def shortest (x : Rat) : Option (Nat × Int) :=
  shortestLoop x x.num.natAbs x.den (decimalPoint x.num.natAbs x.den) 17 1

/-- A run of zeros. -/
def zeros (n : Nat) : List Char := List.replicate n '0'

/-- The format `'f'` of `strconv`: the digits `ds` with the decimal point at `dp`. -/
def layoutF (ds : List Char) (dp : Int) : List Char :=
  if dp ≤ 0 then '0' :: '.' :: (zeros (-dp).toNat ++ ds)
  else if (ds.length : Int) ≤ dp then ds ++ zeros (dp.toNat - ds.length)
  else ds.take dp.toNat ++ '.' :: ds.drop dp.toNat

/-- The format `'e'` of `strconv` as the encoder leaves it: a digit, the other digits
after a point, `e`, the sign of the exponent and its digits.  (`strconv` writes an
exponent of one digit with a zero in front, which the encoder removes.) -/
def layoutE (ds : List Char) (dp : Int) : List Char :=
  let x : Int := dp - 1
  let mantissa := match ds with
    | [] => []
    | [d] => [d]
    | d :: rest => d :: '.' :: rest
  mantissa ++ 'e' :: (if x < 0 then '-' else '+') :: natDigits x.natAbs

/-- The encoder's text of a `float64` (`floatEncoder`): the shortest digits that are read
back as the number, in the format `'e'` when the number is below `1e-6` or at least
`1e21`, and in the format `'f'` otherwise.  The result is `none` when `x` is not a
float64. -/
def formatNumber (x : Rat) : Option (List Char) :=
  if x.num = 0 then some ['0']
  else
    match shortest x with
    | none => none
    | some (m, e) =>
      let ds := natDigits m
      let dp : Int := ds.length + e
      let useE : Bool :=
        decide (|x| < (float64 (mkRat 1 1000000)).getD 0) || decide ((10 : Rat) ^ 21 ≤ |x|)
      let text := if useE then layoutE ds dp else layoutF ds dp
      some (if x.num < 0 then '-' :: text else text)

/-- A hexadecimal digit in lower case. -/
def hexDigit (n : Nat) : Char := if n < 10 then Char.ofNat (48 + n) else Char.ofNat (87 + n)

/-- The encoder's text of a character of a string (`appendString` with `escapeHTML`):
the quote and the backslash after a backslash, five control characters by their letter,
the other characters below U+0020 and `<`, `>`, `&` as `\u00XX`, U+2028 and U+2029 as
`\u2028` and `\u2029`, any other character as it is. -/
def escapeChar (c : Char) : List Char :=
  if c = '"' then ['\\', '"']
  else if c = '\\' then ['\\', '\\']
  else if c = '\n' then ['\\', 'n']
  else if c = '\r' then ['\\', 'r']
  else if c = '\t' then ['\\', 't']
  else if c.toNat = 8 then ['\\', 'b']
  else if c.toNat = 12 then ['\\', 'f']
  else if c.toNat < 0x20 ∨ c = '<' ∨ c = '>' ∨ c = '&' then
    ['\\', 'u', '0', '0', hexDigit (c.toNat / 16), hexDigit (c.toNat % 16)]
  else if c.toNat = 0x2028 then ['\\', 'u', '2', '0', '2', '8']
  else if c.toNat = 0x2029 then ['\\', 'u', '2', '0', '2', '9']
  else [c]

/-- The encoder's text of the characters of a string, and the closing quote. -/
def escapeString : List Char → List Char
  | [] => ['"']
  | c :: cs => escapeChar c ++ escapeString cs

/-- The encoder's text of a string, between quotes. -/
def printString (s : List Char) : List Char := '"' :: escapeString s

mutual
/-- The encoder's text of a Go value; the members of a map are written in the order of
their keys, in which the value holds them. -/
def printValue : JSON → Option (List Char)
  | .null => some ['n', 'u', 'l', 'l']
  | .bool b => some (if b then ['t', 'r', 'u', 'e'] else ['f', 'a', 'l', 's', 'e'])
  | .num x => formatNumber x
  | .str s => some (printString s.toList)
  | .arr items => (printElems items).map (fun t => '[' :: t)
  | .obj fields => (printMembers fields).map (fun t => '{' :: t)
/-- The elements of an array, with commas between them, and the closing `]`. -/
def printElems : List JSON → Option (List Char)
  | [] => some [']']
  | x :: rest =>
    match printValue x, printElems rest with
    | some t, some u => some (t ++ (if rest.isEmpty then u else ',' :: u))
    | _, _ => none
/-- The members of a map, with commas between them, and the closing `}`. -/
def printMembers : List (String × JSON) → Option (List Char)
  | [] => some ['}']
  | (k, x) :: rest =>
    match printValue x, printMembers rest with
    | some t, some u =>
      some (printString k.toList ++ ':' :: (t ++ (if rest.isEmpty then u else ',' :: u)))
    | _, _ => none
end

end GoJson

/-- The functions of `encoding/json` the handlers call, as the Go standard library
defines them.  The decoder reads the first value of the body and leaves the rest of the
body unread; `json.Unmarshal` accepts only white space after the value. -/
def goJson : EncodingJson where
  decodeSaveRequest body :=
    match GoJson.parseDocument body.toList with
    | none => .error "invalid character"
    | some (doc, _) => GoJson.bindSaveRequest doc
  Marshal v :=
    match GoJson.printValue v with
    | some text => .ok (String.mk text)
    | none => .error "json: unsupported value"
  Unmarshal bytes :=
    match GoJson.parseDocument bytes.toList with
    | none => .error "invalid character"
    | some (doc, rest) =>
      match GoJson.skipSpace rest with
      | [] => GoJson.interfaceValue doc
      | _ :: _ => .error "invalid character after top-level value"

/-- An environment with the `encoding/json` of the Go standard library and the map as the
engine. -/
def goEnv : Env Store where
  json := goJson
  RedisClient := mapEngine
  httpGet := exampleHttpGet
  now := "2024-01-01T00:00:00Z"
  parseAuthority authority := authority == "example.com"

/-! ### Go values

The predicates under which a `JSON` term stands for a Go value that the decoder can
produce and read again. -/

namespace GoJson

/-- The end of a number: the text that follows is empty or starts with a character that
cannot continue the number. -/
def NumEnd (rest : List Char) : Prop :=
  ∀ c, rest.head? = some c → isDigit c = false ∧ c ≠ '.' ∧ c ≠ 'e' ∧ c ≠ 'E'

/-- The members of a map in the order of their keys, each key once. -/
def SortedKeys (m : List (String × JSON)) : Prop :=
  m.Pairwise (fun a b => keyLt a.1 b.1 = true)

mutual
/-- A term in which every object holds its members in the order of their keys, each
key once: the form in which a Go value is held. -/
def Canon : JSON → Prop
  | .null => True
  | .bool _ => True
  | .num _ => True
  | .str _ => True
  | .arr items => CanonItems items
  | .obj fields => SortedKeys fields ∧ CanonFields fields
/-- Every element is in the form of a Go value. -/
def CanonItems : List JSON → Prop
  | [] => True
  | x :: rest => Canon x ∧ CanonItems rest
/-- Every member is in the form of a Go value. -/
def CanonFields : List (String × JSON) → Prop
  | [] => True
  | (_, x) :: rest => Canon x ∧ CanonFields rest
end

mutual
/-- A term whose arrays and objects are nested at most `depth` deep. -/
def Within : Nat → JSON → Prop
  | _, .null => True
  | _, .bool _ => True
  | _, .num _ => True
  | _, .str _ => True
  | depth, .arr items => 0 < depth ∧ WithinItems (depth - 1) items
  | depth, .obj fields => 0 < depth ∧ WithinFields (depth - 1) fields
/-- Every element is nested at most `depth` deep. -/
def WithinItems : Nat → List JSON → Prop
  | _, [] => True
  | depth, x :: rest => Within depth x ∧ WithinItems depth rest
/-- Every member is nested at most `depth` deep. -/
def WithinFields : Nat → List (String × JSON) → Prop
  | _, [] => True
  | depth, (_, x) :: rest => Within depth x ∧ WithinFields depth rest
end

mutual
/-- A term whose numbers are all `float64` values: each is the `float64` nearest to
itself. -/
def AllFloat64 : JSON → Prop
  | .null => True
  | .bool _ => True
  | .num x => float64 x = some x
  | .str _ => True
  | .arr items => AllFloat64Items items
  | .obj fields => AllFloat64Fields fields
/-- The numbers of every element are `float64` values. -/
def AllFloat64Items : List JSON → Prop
  | [] => True
  | x :: rest => AllFloat64 x ∧ AllFloat64Items rest
/-- The numbers of every member are `float64` values. -/
def AllFloat64Fields : List (String × JSON) → Prop
  | [] => True
  | (_, x) :: rest => AllFloat64 x ∧ AllFloat64Fields rest
end

end GoJson

/-- The body `{"key":"hero1","data":9007199254740993}`: the number `2^53 + 1`, which is
not a float64. -/
def heroBodyOdd : String := "\x7b\"key\":\"hero1\",\"data\":9007199254740993\x7d"

/-- The body `{"key":"hero1","data":{"gold":12345678901234567890}}`: a number of twenty
digits, which is not a float64. -/
def heroBodyGold : String :=
  "\x7b\"key\":\"hero1\",\"data\":\x7b\"gold\":12345678901234567890\x7d\x7d"

/-! ## Lemmas on the writer and the map -/

theorem len_empty : len "" = 0 := rfl

theorem ne_empty_of_len {k : String} (h : 3 ≤ len k) : k ≠ "" := by
  intro hk
  rw [hk, len_empty] at h
  omega

theorem Store.find_erase_self (s : Store) (key : String) : (s.erase key).find key = none := by
  induction s with
  | nil => rfl
  | cons p rest ih =>
    obtain ⟨k, e⟩ := p
    by_cases hk : k = key
    · simp [Store.erase, hk, ih]
    · simp [Store.erase, Store.find, hk, ih]

theorem Store.find_put_self (s : Store) (key : String) (e : Entry) :
    (s.put key e).find key = some e := by
  simp [Store.put, Store.find]

/-- The byte count of a list of characters is at least its length. -/
theorem utf8ByteSize_go_ge (cs : List Char) : cs.length ≤ String.utf8ByteSize.go cs := by
  induction cs with
  | nil => simp [String.utf8ByteSize.go]
  | cons c rest ih =>
    have hc : 0 < c.utf8Size := Char.utf8Size_pos c
    simp only [String.utf8ByteSize.go, List.length_cons]
    omega

/-- A string has at least as many bytes as characters. -/
theorem length_le_len (s : String) : s.length ≤ len s := by
  cases s with
  | mk cs => exact utf8ByteSize_go_ge cs

@[simp]
theorem ResponseWriter.status_set (w : ResponseWriter) (name value : String) :
    (w.set name value).Status = w.Status := by
  cases hs : w.Status <;> simp [ResponseWriter.set, hs]

@[simp]
theorem ResponseWriter.body_set (w : ResponseWriter) (name value : String) :
    (w.set name value).Body = w.Body := by
  cases hs : w.Status <;> simp [ResponseWriter.set, hs]

/-- A request that is not `OPTIONS` passes `EnableCORS` with the status line unwritten
and the body untouched. -/
theorem EnableCORS_pass (w : ResponseWriter) (r : Request) (h : r.Method ≠ "OPTIONS") :
    ∃ w1, EnableCORS w r = (w1, false) ∧ w1.Status = w.Status ∧ w1.Body = w.Body := by
  unfold EnableCORS
  simp only [if_neg h]
  refine ⟨_, rfl, ?_, ?_⟩
  · split <;> simp
  · split <;> simp

/-- After the CORS step the api save handler runs the text of `SaveCharacterData`. -/
theorem Api.save_eq {σ : Type} (env : Env σ) (w : ResponseWriter) (r : Request) (db : σ)
    (h : r.Method ≠ "OPTIONS") :
    ∃ w1, w1.Status = w.Status ∧ w1.Body = w.Body ∧
      Api.save.Handler env w r db = SaveCharacterData env w1 r db := by
  obtain ⟨w1, he, hs, hb⟩ := EnableCORS_pass w r h
  refine ⟨w1, hs, hb, ?_⟩
  unfold Api.save.Handler SaveCharacterData
  rw [he]

theorem code_httpError (w : ResponseWriter) (hs : w.Status = none) (msg : String) (c : Nat) :
    (httpError w msg c).code = c := by
  simp [httpError, ResponseWriter.set, ResponseWriter.WriteHeader, ResponseWriter.write,
    ResponseWriter.code, hs]

theorem body_httpError (w : ResponseWriter) (msg : String) (c : Nat) :
    (httpError w msg c).Body = w.Body ++ [.text (msg ++ "\n")] := by
  cases hs : w.Status <;>
    simp [httpError, ResponseWriter.set, ResponseWriter.WriteHeader, ResponseWriter.write, hs]

/-! ## encoding/json: a string is read back -/

namespace GoJson

theorem hexVal_hexDigit (i : Nat) (h : i < 16) : hexVal (hexDigit i) = some i := by
  interval_cases i <;> decide

theorem hex4_byte (n : Nat) (h : n < 256) :
    hex4 '0' '0' (hexDigit (n / 16)) (hexDigit (n % 16)) = some n := by
  have h1 := hexVal_hexDigit (n / 16) (by omega)
  have h2 := hexVal_hexDigit (n % 16) (by omega)
  have h0 : hexVal '0' = some 0 := by decide
  simp only [hex4, h0, h1, h2]
  congr 1
  omega

theorem char_of_toNat (c : Char) (n : Nat) (h : c.toNat = n) : Char.ofNat n = c := by
  rw [← h]
  exact Char.ofNat_toNat c

theorem scanChar_letter (e x : Char) (t : List Char) (he : e ≠ 'u')
    (hx : unescape e = some x) : scanChar ('\\' :: e :: t) = some (x, t) := by
  simp only [scanChar, he, hx, if_false, if_true, Option.map_some']

theorem scanChar_hex (a b c d : Char) (n : Nat) (t : List Char) (hn : hex4 a b c d = some n)
    (h : n < 0xD800) :
    scanChar ('\\' :: 'u' :: a :: b :: c :: d :: t) = some (Char.ofNat n, t) := by
  have e2 : ¬ (55296 ≤ n ∧ n < 56320) := by omega
  have e3 : ¬ (56320 ≤ n ∧ n < 57344) := by omega
  simp only [scanChar, hn, e2, e3, if_false, if_true]

theorem scanChar_raw (c : Char) (t : List Char) (h2 : c ≠ '\\') (h3 : ¬ c.toNat < 0x20) :
    scanChar (c :: t) = some (c, t) := by
  simp only [scanChar, h2, h3, if_false]

/-- The encoder's text of a character: it is not empty, does not start with a quote, and
the scanner reads it as that character. -/
theorem scanChar_escapeChar (c : Char) (t : List Char) :
    ∃ e es, escapeChar c = e :: es ∧ e ≠ '"' ∧ scanChar (e :: es ++ t) = some (c, t) := by
  unfold escapeChar
  by_cases h1 : c = '"'
  · subst h1
    exact ⟨_, _, rfl, by decide, scanChar_letter _ _ t (by decide) (by decide)⟩
  by_cases h2 : c = '\\'
  · subst h2
    exact ⟨_, _, rfl, by decide, scanChar_letter _ _ t (by decide) (by decide)⟩
  by_cases h3 : c = '\n'
  · subst h3
    exact ⟨_, _, rfl, by decide, scanChar_letter _ _ t (by decide) (by decide)⟩
  by_cases h4 : c = '\r'
  · subst h4
    exact ⟨_, _, rfl, by decide, scanChar_letter _ _ t (by decide) (by decide)⟩
  by_cases h5 : c = '\t'
  · subst h5
    exact ⟨_, _, rfl, by decide, scanChar_letter _ _ t (by decide) (by decide)⟩
  by_cases h6 : c.toNat = 8
  · have := char_of_toNat c 8 h6
    subst this
    exact ⟨_, _, rfl, by decide, scanChar_letter _ _ t (by decide) (by decide)⟩
  by_cases h7 : c.toNat = 12
  · have := char_of_toNat c 12 h7
    subst this
    exact ⟨_, _, rfl, by decide, scanChar_letter _ _ t (by decide) (by decide)⟩
  by_cases h8 : c.toNat < 0x20 ∨ c = '<' ∨ c = '>' ∨ c = '&'
  · have hn : c.toNat < 256 := by
      rcases h8 with h | h | h | h
      · omega
      · subst h; decide
      · subst h; decide
      · subst h; decide
    simp only [h1, h2, h3, h4, h5, h6, h7, h8, if_false, if_true]
    refine ⟨_, _, rfl, by decide, ?_⟩
    have := scanChar_hex _ _ _ _ c.toNat t (hex4_byte c.toNat hn) (by omega)
    rw [Char.ofNat_toNat] at this
    exact this
  by_cases h9 : c.toNat = 0x2028
  · have := char_of_toNat c 0x2028 h9
    subst this
    exact ⟨_, _, rfl, by decide, scanChar_hex _ _ _ _ 0x2028 t (by decide) (by decide)⟩
  by_cases h10 : c.toNat = 0x2029
  · have := char_of_toNat c 0x2029 h10
    subst this
    exact ⟨_, _, rfl, by decide, scanChar_hex _ _ _ _ 0x2029 t (by decide) (by decide)⟩
  simp only [h1, h2, h3, h4, h5, h6, h7, h8, h9, h10, if_false]
  exact ⟨_, _, rfl, h1, scanChar_raw c t h2 (fun h => h8 (Or.inl h))⟩

/-- With enough fuel the scanner reads the encoder's text of a string as that string. -/
theorem scanStringLoop_escapeString (s rest : List Char) :
    ∀ fuel, (escapeString s).length ≤ fuel →
      scanStringLoop fuel (escapeString s ++ rest) = some (s, rest) := by
  induction s with
  | nil =>
    intro fuel h
    cases fuel with
    | zero => simp [escapeString] at h
    | succ n => simp [escapeString, scanStringLoop]
  | cons c s ih =>
    intro fuel h
    obtain ⟨e, es, he, hq, hs⟩ := scanChar_escapeChar c (escapeString s ++ rest)
    rw [escapeString, he] at h
    rw [escapeString, he]
    cases fuel with
    | zero => simp at h
    | succ n =>
      have hn : (escapeString s).length ≤ n := by
        simp only [List.cons_append, List.length_cons, List.length_append] at h
        omega
      have hs2 : scanChar (e :: (es ++ (escapeString s ++ rest))) =
          some (c, escapeString s ++ rest) := by
        simpa using hs
      have e1 : (e :: es ++ escapeString s) ++ rest = e :: (es ++ (escapeString s ++ rest)) := by
        simp
      rw [e1, scanStringLoop]
      simp only [hq, if_false, hs2, ih n hn, Option.map_some']

/-- The scanner reads the encoder's text of a string as that string. -/
theorem scanString_escapeString (s rest : List Char) :
    scanString (escapeString s ++ rest) = some (s, rest) := by
  unfold scanString
  exact scanStringLoop_escapeString s rest _ (by simp)

end GoJson

/-! ## encoding/json: a number is read back -/

namespace GoJson

theorem isDigit_digitChar (k : Nat) (h : k < 10) : isDigit (digitChar k) = true := by
  interval_cases k <;> decide

theorem toNat_digitChar (k : Nat) (h : k < 10) : (digitChar k).toNat - 48 = k := by
  interval_cases k <;> decide

theorem digitChar_ne_zero (k : Nat) (h : k < 10) (h0 : k ≠ 0) : digitChar k ≠ '0' := by
  interval_cases k <;> first | exact absurd rfl h0 | decide

theorem natDigitsLoop_eq (n : Nat) :
    ∀ fuel acc, n < fuel → natDigitsLoop fuel n acc = natDigits n ++ acc := by
  induction n using Nat.strong_induction_on with
  | _ n ih =>
    intro fuel acc h
    cases fuel with
    | zero => omega
    | succ f =>
      by_cases h10 : n < 10
      · simp [natDigitsLoop, natDigits, h10]
      · have e1 := ih (n / 10) (by omega) f (digitChar (n % 10) :: acc) (by omega)
        have e2 := ih (n / 10) (by omega) n [digitChar (n % 10)] (by omega)
        simp only [natDigitsLoop, natDigits, h10, if_false, e1, e2]
        simp

theorem natDigits_small (n : Nat) (h : n < 10) : natDigits n = [digitChar n] := by
  simp [natDigits, natDigitsLoop, h]

theorem natDigits_step (n : Nat) (h : ¬ n < 10) :
    natDigits n = natDigits (n / 10) ++ [digitChar (n % 10)] := by
  have e2 := natDigitsLoop_eq (n / 10) n [digitChar (n % 10)] (by omega)
  simp only [natDigits, natDigitsLoop, h, if_false, e2]

theorem digitsValue_append (xs : List Char) (d : Char) :
    digitsValue (xs ++ [d]) = digitsValue xs * 10 + (d.toNat - 48) := by
  simp [digitsValue, List.foldl_append]

theorem digitsValue_natDigits (n : Nat) : digitsValue (natDigits n) = n := by
  induction n using Nat.strong_induction_on with
  | _ n ih =>
    by_cases h10 : n < 10
    · rw [natDigits_small n h10]
      simp [digitsValue, toNat_digitChar n h10]
    · rw [natDigits_step n h10, digitsValue_append, ih (n / 10) (by omega),
        toNat_digitChar (n % 10) (by omega)]
      omega

theorem natDigits_digits (n : Nat) : ∀ c ∈ natDigits n, isDigit c = true := by
  induction n using Nat.strong_induction_on with
  | _ n ih =>
    by_cases h10 : n < 10
    · rw [natDigits_small n h10]
      intro c hc
      simp only [List.mem_singleton] at hc
      rw [hc]
      exact isDigit_digitChar n h10
    · rw [natDigits_step n h10]
      intro c hc
      rw [List.mem_append] at hc
      rcases hc with hc | hc
      · exact ih (n / 10) (by omega) c hc
      · simp only [List.mem_singleton] at hc
        rw [hc]
        exact isDigit_digitChar _ (by omega)

/-- The digits of a positive number start with a digit that is not `0`. -/
theorem natDigits_head (n : Nat) (h : n ≠ 0) :
    ∃ c cs, natDigits n = c :: cs ∧ c ≠ '0' := by
  induction n using Nat.strong_induction_on with
  | _ n ih =>
    by_cases h10 : n < 10
    · exact ⟨_, _, natDigits_small n h10, digitChar_ne_zero n h10 h⟩
    · obtain ⟨c, cs, e, hc⟩ := ih (n / 10) (by omega) (by omega)
      exact ⟨c, cs ++ [digitChar (n % 10)], by rw [natDigits_step n h10, e]; rfl, hc⟩

theorem takeWhile_digits (ds rest : List Char) (hd : ∀ c ∈ ds, isDigit c = true)
    (hr : ∀ c, rest.head? = some c → isDigit c = false) :
    (ds ++ rest).takeWhile isDigit = ds ∧ (ds ++ rest).dropWhile isDigit = rest := by
  induction ds with
  | nil =>
    cases rest with
    | nil => simp
    | cons c r =>
      have := hr c rfl
      simp [List.takeWhile, List.dropWhile, this]
  | cons d ds ih =>
    have h1 := hd d (List.mem_cons_self _ _)
    have h2 := ih (fun c hc => hd c (List.mem_cons_of_mem _ hc))
    simp [List.takeWhile, List.dropWhile, h1, h2.1, h2.2]

end GoJson

namespace GoJson

theorem foldl_digits (ys : List Char) :
    ∀ a : Nat, ys.foldl (fun acc c => acc * 10 + (c.toNat - 48)) a =
      a * 10 ^ ys.length + digitsValue ys := by
  induction ys with
  | nil => intro a; simp [digitsValue]
  | cons y ys ih =>
    intro a
    simp only [List.foldl_cons, List.length_cons, digitsValue]
    rw [ih, ih (0 * 10 + (y.toNat - 48))]
    ring

theorem digitsValue_append_list (xs ys : List Char) :
    digitsValue (xs ++ ys) = digitsValue xs * 10 ^ ys.length + digitsValue ys := by
  unfold digitsValue
  rw [List.foldl_append, foldl_digits]
  rfl

theorem digitsValue_zeros (k : Nat) : digitsValue (zeros k) = 0 := by
  induction k with
  | zero => rfl
  | succ k ih =>
    have : zeros (k + 1) = zeros k ++ ['0'] := by
      simp [zeros, List.replicate_succ']
    rw [this, digitsValue_append, ih]
    rfl

theorem zeros_digits (k : Nat) : ∀ c ∈ zeros k, isDigit c = true := by
  intro c hc
  have := List.eq_of_mem_replicate hc
  rw [this]
  rfl

theorem scanInt_zero (rest : List Char) : scanInt ('0' :: rest) = some (['0'], rest) := by
  simp [scanInt]

theorem scanInt_digits (c : Char) (cs rest : List Char) (hc0 : c ≠ '0')
    (hc : isDigit c = true) (hd : ∀ x ∈ cs, isDigit x = true)
    (hr : ∀ x, rest.head? = some x → isDigit x = false) :
    scanInt (c :: cs ++ rest) = some (c :: cs, rest) := by
  have := takeWhile_digits cs rest hd hr
  simp [scanInt, hc0, hc, this.1, this.2]

theorem scanDigits_digits (d : Char) (ds rest : List Char) (hd : ∀ x ∈ d :: ds, isDigit x = true)
    (hr : ∀ x, rest.head? = some x → isDigit x = false) :
    scanDigits (d :: ds ++ rest) = some (d :: ds, rest) := by
  have := takeWhile_digits ds rest (fun x hx => hd x (List.mem_cons_of_mem _ hx)) hr
  have h1 := hd d (List.mem_cons_self _ _)
  simp [scanDigits, h1, this.1, this.2]

theorem scanFrac_none (rest : List Char) (h : ∀ x, rest.head? = some x → x ≠ '.') :
    scanFrac rest = some ([], rest) := by
  cases rest with
  | nil => rfl
  | cons c r =>
    have := h c rfl
    simp [scanFrac, this]

theorem scanFrac_digits (d : Char) (ds rest : List Char)
    (hd : ∀ x ∈ d :: ds, isDigit x = true)
    (hr : ∀ x, rest.head? = some x → isDigit x = false) :
    scanFrac ('.' :: d :: ds ++ rest) = some (d :: ds, rest) := by
  have := takeWhile_digits ds rest (fun x hx => hd x (List.mem_cons_of_mem _ hx)) hr
  have h1 := hd d (List.mem_cons_self _ _)
  simp [scanFrac, h1, this.1, this.2]

theorem scanExp_none (rest : List Char) (h : ∀ x, rest.head? = some x → x ≠ 'e' ∧ x ≠ 'E') :
    scanExp rest = some (0, rest) := by
  cases rest with
  | nil => rfl
  | cons c r =>
    have := h c rfl
    simp [scanExp, this.1, this.2]

theorem scanExp_exp (x : Int) (rest : List Char)
    (hr : ∀ c, rest.head? = some c → isDigit c = false) :
    scanExp ('e' :: (if x < 0 then '-' else '+') :: natDigits x.natAbs ++ rest) =
      some (x, rest) := by
  have hd := natDigits_digits x.natAbs
  have hv := digitsValue_natDigits x.natAbs
  cases hn : natDigits x.natAbs with
  | nil =>
    by_cases h0 : x.natAbs = 0
    · rw [natDigits_small _ (by omega)] at hn
      cases hn
    · obtain ⟨c, cs, e, _⟩ := natDigits_head _ h0
      rw [e] at hn
      cases hn
  | cons d ds =>
    rw [hn] at hd hv
    have hs := scanDigits_digits d ds rest hd hr
    rw [List.cons_append] at hs
    by_cases hx : x < 0
    · have e1 : ¬ ('-' = '+') := by decide
      simp only [scanExp, hx, if_true, true_or, List.cons_append, hs, Option.map_some', hv]
      have : -((x.natAbs : Nat) : Int) = x := by omega
      rw [this]
    · have e1 : ¬ ('+' = '-') := by decide
      simp only [scanExp, hx, if_false, if_true, true_or, e1, List.cons_append, hs,
        Option.map_some', hv]
      have : ((x.natAbs : Nat) : Int) = x := by omega
      rw [this]

end GoJson

namespace GoJson

theorem decimal_shift (neg : Bool) (m j : Nat) :
    decimal (if neg then -((m * 10 ^ j : Nat) : Int) else ((m * 10 ^ j : Nat) : Int)) 0 =
      decimal (if neg then -(m : Int) else (m : Int)) j := by
  cases neg <;> simp [decimal]

theorem scanUnsigned_parts (neg : Bool) (t i f r1 r2 r3 : List Char) (e : Int)
    (hi : scanInt t = some (i, r1)) (hf : scanFrac r1 = some (f, r2))
    (he : scanExp r2 = some (e, r3)) :
    scanUnsigned neg t =
      some (decimal (if neg then -(digitsValue (i ++ f) : Int) else (digitsValue (i ++ f) : Int))
        (e - f.length), r3) := by
  simp only [scanUnsigned, hi, hf, he]

theorem digitsValue_zero_cons (xs : List Char) : digitsValue ('0' :: xs) = digitsValue xs := by
  simp [digitsValue]

theorem digitsValue_zeros_append (k : Nat) (xs : List Char) :
    digitsValue (zeros k ++ xs) = digitsValue xs := by
  rw [digitsValue_append_list, digitsValue_zeros]
  simp

theorem digitsValue_append_zeros (xs : List Char) (j : Nat) :
    digitsValue (xs ++ zeros j) = digitsValue xs * 10 ^ j := by
  rw [digitsValue_append_list, digitsValue_zeros]
  simp [zeros]

/-- The scanner reads the digits laid out in the format `'f'` as the decimal they
denote. -/
theorem scanUnsigned_layoutF (neg : Bool) (c : Char) (cs rest : List Char) (dp : Int)
    (hc0 : c ≠ '0') (hd : ∀ x ∈ c :: cs, isDigit x = true) (hr : NumEnd rest) :
    scanUnsigned neg (layoutF (c :: cs) dp ++ rest) =
      some (decimal (if neg then -(digitsValue (c :: cs) : Int) else (digitsValue (c :: cs) : Int))
        (dp - ((c :: cs).length : Nat)), rest) := by
  have hrd : ∀ x, rest.head? = some x → isDigit x = false := fun x hx => (hr x hx).1
  have hrp : ∀ x, rest.head? = some x → x ≠ '.' := fun x hx => (hr x hx).2.1
  have hre : ∀ x, rest.head? = some x → x ≠ 'e' ∧ x ≠ 'E' := fun x hx => (hr x hx).2.2
  have hcd : isDigit c = true := hd c (List.mem_cons_self _ _)
  have hcsd : ∀ x ∈ cs, isDigit x = true := fun x hx => hd x (List.mem_cons_of_mem _ hx)
  unfold layoutF
  by_cases h1 : dp ≤ 0
  · simp only [h1, if_true]
    obtain ⟨f, fs, hfs⟩ : ∃ f fs, zeros (-dp).toNat ++ c :: cs = f :: fs := by
      cases hz : zeros (-dp).toNat with
      | nil => exact ⟨c, cs, rfl⟩
      | cons z zs => exact ⟨z, zs ++ c :: cs, rfl⟩
    have hfd : ∀ x ∈ f :: fs, isDigit x = true := by
      rw [← hfs]
      intro x hx
      rw [List.mem_append] at hx
      rcases hx with hx | hx
      · exact zeros_digits _ x hx
      · exact hd x hx
    have hi := scanInt_zero ('.' :: f :: fs ++ rest)
    have hf := scanFrac_digits f fs rest hfd hrd
    have he := scanExp_none rest hre
    have := scanUnsigned_parts neg _ _ _ _ _ _ _ hi hf he
    rw [hfs]
    rw [List.cons_append, this, ← hfs, List.cons_append, List.nil_append, digitsValue_zero_cons,
      digitsValue_zeros_append]
    congr 3
    simp only [List.length_append, zeros, List.length_replicate, List.length_cons]
    push_cast
    rw [Int.toNat_of_nonneg (by omega)]
    omega
  · by_cases h2 : (((c :: cs).length : Nat) : Int) ≤ dp
    · simp only [h1, h2, if_false, if_true]
      have hzd : ∀ x ∈ cs ++ zeros (dp.toNat - (c :: cs).length), isDigit x = true := by
        intro x hx
        rw [List.mem_append] at hx
        rcases hx with hx | hx
        · exact hcsd x hx
        · exact zeros_digits _ x hx
      have hi := scanInt_digits c _ rest hc0 hcd hzd hrd
      have hf := scanFrac_none rest hrp
      have he := scanExp_none rest hre
      have := scanUnsigned_parts neg _ _ _ _ _ _ _ hi hf he
      rw [List.cons_append] at this ⊢
      rw [List.cons_append, this, List.append_nil, ← List.cons_append, digitsValue_append_zeros]
      have e := decimal_shift neg (digitsValue (c :: cs)) (dp.toNat - (c :: cs).length)
      simp only [List.length_nil, Nat.cast_zero, sub_zero]
      rw [e]
      congr 3
      have : (dp.toNat : Int) = dp := Int.toNat_of_nonneg (by omega)
      omega
    · simp only [h1, h2, if_false]
      have hpos : 0 < dp.toNat := by omega
      have hlt : dp.toNat < (c :: cs).length := by
        have : (dp.toNat : Int) = dp := Int.toNat_of_nonneg (by omega)
        omega
      obtain ⟨n, hn⟩ : ∃ n, dp.toNat = n + 1 := ⟨dp.toNat - 1, by omega⟩
      have hlen : n < cs.length := by
        simp only [List.length_cons] at hlt
        omega
      obtain ⟨g, gs, hg⟩ : ∃ g gs, cs.drop n = g :: gs := by
        cases hdr : cs.drop n with
        | nil =>
          have := List.length_drop n cs
          rw [hdr] at this
          simp at this
          omega
        | cons g gs => exact ⟨g, gs, rfl⟩
      have htd : ∀ x ∈ cs.take n, isDigit x = true :=
        fun x hx => hcsd x (List.mem_of_mem_take hx)
      have hgd : ∀ x ∈ g :: gs, isDigit x = true := by
        rw [← hg]
        exact fun x hx => hcsd x (List.mem_of_mem_drop hx)
      have hdot : ∀ x, ('.' :: g :: gs ++ rest).head? = some x → isDigit x = false := by
        intro x hx
        simp only [List.cons_append, List.head?_cons, Option.some.injEq] at hx
        rw [← hx]
        rfl
      have hi := scanInt_digits c (cs.take n) ('.' :: g :: gs ++ rest) hc0 hcd htd hdot
      have hf := scanFrac_digits g gs rest hgd hrd
      have he := scanExp_none rest hre
      have := scanUnsigned_parts neg _ _ _ _ _ _ _ hi hf he
      rw [hn, List.take_succ_cons, List.drop_succ_cons, hg]
      have e1 : (c :: List.take n cs ++ '.' :: g :: gs) ++ rest =
          c :: List.take n cs ++ ('.' :: g :: gs ++ rest) := by simp
      rw [e1, this, ← hg]
      have e2 : c :: List.take n cs ++ List.drop n cs = c :: cs := by
        rw [List.cons_append, List.take_append_drop]
      rw [e2]
      congr 3
      have : (dp.toNat : Int) = dp := Int.toNat_of_nonneg (by omega)
      simp only [List.length_drop, List.length_cons]
      omega

end GoJson

namespace GoJson

/-- The scanner reads the digits laid out in the format `'e'` as the decimal they
denote. -/
theorem scanUnsigned_layoutE (neg : Bool) (c : Char) (cs rest : List Char) (dp : Int)
    (hc0 : c ≠ '0') (hd : ∀ x ∈ c :: cs, isDigit x = true)
    (hr : ∀ x, rest.head? = some x → isDigit x = false) :
    scanUnsigned neg (layoutE (c :: cs) dp ++ rest) =
      some (decimal (if neg then -(digitsValue (c :: cs) : Int) else (digitsValue (c :: cs) : Int))
        (dp - ((c :: cs).length : Nat)), rest) := by
  have hcd : isDigit c = true := hd c (List.mem_cons_self _ _)
  have he := scanExp_exp (dp - 1) rest hr
  have hexp : ∀ x, ('e' :: (if dp - 1 < 0 then '-' else '+') :: natDigits (dp - 1).natAbs ++
      rest).head? = some x → isDigit x = false ∧ x ≠ '.' := by
    intro x hx
    simp only [List.cons_append, List.head?_cons, Option.some.injEq] at hx
    rw [← hx]
    exact ⟨rfl, by decide⟩
  cases cs with
  | nil =>
    have hi := scanInt_digits c [] _ hc0 hcd (fun x hx => by cases hx) (fun x hx => (hexp x hx).1)
    have hf := scanFrac_none _ (fun x hx => (hexp x hx).2)
    have := scanUnsigned_parts neg _ _ _ _ _ _ _ hi hf he
    simp only [layoutE, List.cons_append, List.nil_append] at this ⊢
    rw [this]
    simp
  | cons g gs =>
    have hgd : ∀ x ∈ g :: gs, isDigit x = true := fun x hx => hd x (List.mem_cons_of_mem _ hx)
    have hdot : ∀ x, ('.' :: g :: gs ++ ('e' :: (if dp - 1 < 0 then '-' else '+') ::
        natDigits (dp - 1).natAbs ++ rest)).head? = some x → isDigit x = false := by
      intro x hx
      simp only [List.cons_append, List.head?_cons, Option.some.injEq] at hx
      rw [← hx]
      rfl
    have hi := scanInt_digits c [] _ hc0 hcd (fun x hx => by cases hx) hdot
    have hf := scanFrac_digits g gs _ hgd (fun x hx => (hexp x hx).1)
    have := scanUnsigned_parts neg _ _ _ _ _ _ _ hi hf he
    simp only [layoutE, List.cons_append, List.nil_append, List.append_assoc] at this ⊢
    rw [this]
    congr 3
    simp only [List.length_cons]
    push_cast
    omega

theorem layoutF_head (c : Char) (cs : List Char) (dp : Int) (hcd : isDigit c = true) :
    ∃ a t, layoutF (c :: cs) dp = a :: t ∧ isDigit a = true := by
  unfold layoutF
  by_cases h1 : dp ≤ 0
  · simp only [h1, if_true]
    exact ⟨_, _, rfl, rfl⟩
  · by_cases h2 : (((c :: cs).length : Nat) : Int) ≤ dp
    · simp only [h1, h2, if_false, if_true, List.cons_append]
      exact ⟨_, _, rfl, hcd⟩
    · obtain ⟨n, hn⟩ : ∃ n, dp.toNat = n + 1 := ⟨dp.toNat - 1, by omega⟩
      simp only [h1, h2, if_false, hn, List.take_succ_cons, List.cons_append]
      exact ⟨_, _, rfl, hcd⟩

theorem layoutE_head (c : Char) (cs : List Char) (dp : Int) (hcd : isDigit c = true) :
    ∃ a t, layoutE (c :: cs) dp = a :: t ∧ isDigit a = true := by
  cases cs with
  | nil =>
    simp only [layoutE, List.cons_append, List.nil_append]
    exact ⟨_, _, rfl, hcd⟩
  | cons g gs =>
    simp only [layoutE, List.cons_append]
    exact ⟨_, _, rfl, hcd⟩

theorem shortestAt_sound (x : Rat) (p q : Nat) (dp : Int) (n : Nat) (r : Nat × Int)
    (h : shortestAt x p q dp n = some r) : readsBack x r.1 r.2 = true := by
  unfold shortestAt at h
  simp only at h
  split_ifs at h
  all_goals (cases h; simp_all)

theorem shortestLoop_sound (x : Rat) (p q : Nat) (dp : Int) (r : Nat × Int) :
    ∀ fuel n, shortestLoop x p q dp fuel n = some r → readsBack x r.1 r.2 = true := by
  intro fuel
  induction fuel with
  | zero => intro n h; cases h
  | succ f ih =>
    intro n h
    rw [shortestLoop] at h
    cases hs : shortestAt x p q dp n with
    | none =>
      rw [hs] at h
      exact ih _ h
    | some r2 =>
      rw [hs] at h
      cases h
      exact shortestAt_sound x p q dp n r hs

/-- The decimal `shortest` finds for `x` is read back as `x`. -/
theorem shortest_sound (x : Rat) (m : Nat) (e : Int) (h : shortest x = some (m, e)) :
    m ≠ 0 ∧
    float64 (decimal (if x.num < 0 then -(m : Int) else (m : Int)) e) = some x := by
  have := shortestLoop_sound x _ _ _ _ _ _ h
  simp only [readsBack, Bool.and_eq_true, bne_iff_ne, ne_eq, beq_iff_eq, decide_eq_true_eq] at this
  exact ⟨by simpa using this.1, this.2⟩

/-- The scanner reads the encoder's text of a number as a decimal that converts to
that number; the text starts with a minus sign or a digit. -/
theorem scanNumber_formatNumber (x : Rat) (t rest : List Char) (h : formatNumber x = some t)
    (hr : NumEnd rest) :
    ∃ c a u, scanNumber (t ++ rest) = some (c, rest) ∧ float64 c = some x ∧ t = a :: u ∧
      (a = '-' ∨ isDigit a = true) := by
  have hrd : ∀ x, rest.head? = some x → isDigit x = false := fun x hx => (hr x hx).1
  unfold formatNumber at h
  by_cases h0 : x.num = 0
  · simp only [h0, if_true, Option.some.injEq] at h
    subst h
    have hi := scanInt_zero rest
    have hf := scanFrac_none rest (fun x hx => (hr x hx).2.1)
    have he := scanExp_none rest (fun x hx => (hr x hx).2.2)
    have := scanUnsigned_parts false _ _ _ _ _ _ _ hi hf he
    have e1 : ¬ ('0' = '-') := by decide
    have hs : scanNumber (['0'] ++ rest) = some (decimal 0 0, rest) := by
      simp only [List.cons_append, List.nil_append, scanNumber, e1, if_false]
      exact this
    have hx : x = 0 := Rat.num_eq_zero.mp h0
    refine ⟨_, '0', [], hs, ?_, rfl, Or.inr rfl⟩
    rw [hx]
    decide
  · simp only [h0, if_false] at h
    cases hs : shortest x with
    | none => rw [hs] at h; cases h
    | some r =>
      obtain ⟨m, e⟩ := r
      rw [hs] at h
      simp only [Option.some.injEq] at h
      obtain ⟨hm, hf⟩ := shortest_sound x m e hs
      obtain ⟨c, cs, hds, hc0⟩ := natDigits_head m hm
      have hd := natDigits_digits m
      have hv := digitsValue_natDigits m
      rw [hds] at hd hv h
      have hcd : isDigit c = true := hd c (List.mem_cons_self _ _)
      have hE := scanUnsigned_layoutE (decide (x.num < 0)) c cs rest
        (((c :: cs).length : Nat) + e) hc0 hd hrd
      have hF := scanUnsigned_layoutF (decide (x.num < 0)) c cs rest
        (((c :: cs).length : Nat) + e) hc0 hd hr
      rw [hv, add_sub_cancel_left] at hE hF
      obtain ⟨a1, u1, hh1, hd1⟩ := layoutE_head c cs (((c :: cs).length : Nat) + e) hcd
      obtain ⟨a2, u2, hh2, hd2⟩ := layoutF_head c cs (((c :: cs).length : Nat) + e) hcd
      have hneg1 : a1 ≠ '-' := by
        intro hc; rw [hc] at hd1; exact absurd hd1 (by decide)
      have hneg2 : a2 ≠ '-' := by
        intro hc; rw [hc] at hd2; exact absurd hd2 (by decide)
      by_cases hneg : x.num < 0
      · simp only [hneg, if_true, decide_True] at h hE hF hf
        split_ifs at h with hu
        · subst h
          exact ⟨_, '-', _, by simp only [List.cons_append, scanNumber, if_true]; exact hE, hf,
            rfl, Or.inl rfl⟩
        · subst h
          exact ⟨_, '-', _, by simp only [List.cons_append, scanNumber, if_true]; exact hF, hf,
            rfl, Or.inl rfl⟩
      · simp only [hneg, if_false, decide_False] at h hE hF hf
        split_ifs at h with hu
        · subst h
          refine ⟨_, a1, u1, ?_, hf, hh1, Or.inr hd1⟩
          rw [hh1] at hE ⊢
          simp only [List.cons_append, scanNumber, hneg1, if_false] at hE ⊢
          exact hE
        · subst h
          refine ⟨_, a2, u2, ?_, hf, hh2, Or.inr hd2⟩
          rw [hh2] at hF ⊢
          simp only [List.cons_append, scanNumber, hneg2, if_false] at hF ⊢
          exact hF

end GoJson

/-! ## encoding/json: the order of map keys -/

namespace GoJson

theorem char_eq_of_toNat (a b : Char) (h : a.toNat = b.toNat) : a = b := by
  rw [← char_of_toNat a a.toNat rfl, h]
  exact char_of_toNat b b.toNat rfl

theorem ltChars_irrefl (a : List Char) : ltChars a a = false := by
  induction a with
  | nil => rfl
  | cons x xs ih => simp [ltChars, ih]

theorem ltChars_trans : ∀ a b c : List Char,
    ltChars a b = true → ltChars b c = true → ltChars a c = true := by
  intro a
  induction a with
  | nil =>
    intro b c h1 h2
    cases b with
    | nil => simp [ltChars] at h1
    | cons y ys =>
      cases c with
      | nil => simp [ltChars] at h2
      | cons z zs => rfl
  | cons x xs ih =>
    intro b c h1 h2
    cases b with
    | nil => simp [ltChars] at h1
    | cons y ys =>
      cases c with
      | nil => simp [ltChars] at h2
      | cons z zs =>
        simp only [ltChars, Bool.or_eq_true, decide_eq_true_eq, Bool.and_eq_true,
          beq_iff_eq] at h1 h2 ⊢
        rcases h1 with h1 | ⟨e1, l1⟩
        · rcases h2 with h2 | ⟨e2, _⟩
          · exact Or.inl (by omega)
          · exact Or.inl (by omega)
        · rcases h2 with h2 | ⟨e2, l2⟩
          · exact Or.inl (by omega)
          · exact Or.inr ⟨by omega, ih ys zs l1 l2⟩

theorem ltChars_total : ∀ a b : List Char,
    ltChars a b = false → ltChars b a = false → a = b := by
  intro a
  induction a with
  | nil =>
    intro b h1 h2
    cases b with
    | nil => rfl
    | cons y ys => simp [ltChars] at h1
  | cons x xs ih =>
    intro b h1 h2
    cases b with
    | nil => simp [ltChars] at h2
    | cons y ys =>
      simp only [ltChars, Bool.or_eq_false_iff, decide_eq_false_iff_not, Bool.and_eq_false_imp,
        beq_iff_eq] at h1 h2
      have e : x.toNat = y.toNat := by omega
      have := ih ys (h1.2 e) (h2.2 e.symm)
      rw [char_eq_of_toNat x y e, this]

theorem keyLt_irrefl (a : String) : keyLt a a = false := ltChars_irrefl _

theorem keyLt_trans {a b c : String} (h1 : keyLt a b = true) (h2 : keyLt b c = true) :
    keyLt a c = true := ltChars_trans _ _ _ h1 h2

theorem keyLt_total {a b : String} (h1 : keyLt a b = false) (h2 : a ≠ b) :
    keyLt b a = true := by
  by_contra h
  have h3 : keyLt b a = false := by simpa using h
  have := ltChars_total _ _ h1 h3
  exact h2 (String.ext this)

theorem keyLt_ne {a b : String} (h : keyLt a b = true) : a ≠ b := by
  intro e
  rw [e, keyLt_irrefl] at h
  cases h

theorem keyLt_asymm {a b : String} (h : keyLt a b = true) : keyLt b a = false := by
  cases hb : keyLt b a with
  | false => rfl
  | true =>
    have := keyLt_trans h hb
    rw [keyLt_irrefl] at this
    cases this

/-- An assignment to a key after all the keys of the map adds the member at the end. -/
theorem putMember_last (k : String) (v : JSON) (m : List (String × JSON))
    (h : SortedKeys (m ++ [(k, v)])) : putMember k v m = m ++ [(k, v)] := by
  induction m with
  | nil => rfl
  | cons p rest ih =>
    obtain ⟨k2, v2⟩ := p
    unfold SortedKeys at h ih
    rw [List.cons_append, List.pairwise_cons] at h
    have hlt : keyLt k2 k = true := h.1 (k, v) (by simp)
    have h1 : ¬ k = k2 := fun e => keyLt_ne hlt e.symm
    have h2 : keyLt k k2 = false := keyLt_asymm hlt
    simp [putMember, h1, h2, ih h.2]

/-- The keys of a map after an assignment. -/
theorem mem_putMember (k : String) (v : JSON) (m : List (String × JSON)) (p : String × JSON)
    (h : p ∈ putMember k v m) : p = (k, v) ∨ p ∈ m := by
  induction m with
  | nil =>
    simp only [putMember, List.mem_singleton] at h
    exact Or.inl h
  | cons q rest ih =>
    obtain ⟨k2, v2⟩ := q
    unfold putMember at h
    split_ifs at h with h1 h2
    · rcases List.mem_cons.mp h with h | h
      · exact Or.inl h
      · exact Or.inr (List.mem_cons_of_mem _ h)
    · rcases List.mem_cons.mp h with h | h
      · exact Or.inl h
      · exact Or.inr h
    · rcases List.mem_cons.mp h with h | h
      · exact Or.inr (by rw [h]; exact List.mem_cons_self _ _)
      · rcases ih h with h | h
        · exact Or.inl h
        · exact Or.inr (List.mem_cons_of_mem _ h)

/-- An assignment keeps the members of a map in the order of their keys. -/
theorem sortedKeys_putMember (k : String) (v : JSON) (m : List (String × JSON))
    (h : SortedKeys m) : SortedKeys (putMember k v m) := by
  induction m with
  | nil => simp [putMember, SortedKeys]
  | cons q rest ih =>
    obtain ⟨k2, v2⟩ := q
    unfold SortedKeys at h ih ⊢
    rw [List.pairwise_cons] at h
    unfold putMember
    split_ifs with h1 h2
    · rw [List.pairwise_cons]
      refine ⟨?_, h.2⟩
      intro p hp
      rw [h1]
      exact h.1 p hp
    · rw [List.pairwise_cons, List.pairwise_cons]
      refine ⟨?_, h.1, h.2⟩
      intro p hp
      rcases List.mem_cons.mp hp with hp | hp
      · rw [hp]; exact h2
      · exact keyLt_trans h2 (h.1 p hp)
    · rw [List.pairwise_cons]
      refine ⟨?_, ih h.2⟩
      intro p hp
      rcases mem_putMember k v rest p hp with hp | hp
      · rw [hp]
        exact keyLt_total (by simpa using h2) h1
      · exact h.1 p hp

end GoJson

/-! ## encoding/json: a value is read back -/

namespace GoJson

theorem skipSpace_cons (a : Char) (u : List Char) (h : isSpace a = false) :
    skipSpace (a :: u) = a :: u := by
  simp [skipSpace, h]

theorem string_mk_toList (s : String) : String.mk s.toList = s := rfl

/-- A character that starts a number starts no other value and ends none. -/
theorem numStart_ne (a : Char) (h : a = '-' ∨ isDigit a = true) :
    isSpace a = false ∧ a ≠ '"' ∧ a ≠ '[' ∧ a ≠ '{' ∧ a ≠ 'n' ∧ a ≠ 't' ∧ a ≠ 'f' ∧
      a ≠ ']' := by
  rcases h with h | h
  · subst h
    decide
  · refine ⟨?_, ?_, ?_, ?_, ?_, ?_, ?_, ?_⟩
    · cases hs : isSpace a with
      | false => rfl
      | true =>
        simp only [isSpace, Bool.or_eq_true, beq_iff_eq] at hs
        rcases hs with ((hs | hs) | hs) | hs <;> (subst hs; exact absurd h (by decide))
    all_goals (intro e; subst e; exact absurd h (by decide))

theorem parseValue_string (fuel d : Nat) (s rest : List Char) :
    parseValue (fuel + 1) d (printString s ++ rest) = some (.str (String.mk s), rest) := by
  have e : isSpace '"' = false := by decide
  simp only [printString, List.cons_append, parseValue, skipSpace_cons _ _ e, if_true,
    scanString_escapeString, Option.map_some']

theorem parseValue_null (fuel d : Nat) (rest : List Char) :
    parseValue (fuel + 1) d (['n', 'u', 'l', 'l'] ++ rest) = some (.null, rest) := by
  have e : isSpace 'n' = false := by decide
  have e1 : ¬ ('n' = '"') := by decide
  have e2 : ¬ ('n' = '[') := by decide
  have e3 : ¬ ('n' = '{') := by decide
  simp [parseValue, skipSpace_cons _ _ e, e1, e2, e3, stripLit]

theorem parseValue_true (fuel d : Nat) (rest : List Char) :
    parseValue (fuel + 1) d (['t', 'r', 'u', 'e'] ++ rest) = some (.bool true, rest) := by
  have e : isSpace 't' = false := by decide
  have e1 : ¬ ('t' = '"') := by decide
  have e2 : ¬ ('t' = '[') := by decide
  have e3 : ¬ ('t' = '{') := by decide
  have e4 : ¬ ('t' = 'n') := by decide
  simp [parseValue, skipSpace_cons _ _ e, e1, e2, e3, e4, stripLit]

theorem parseValue_false (fuel d : Nat) (rest : List Char) :
    parseValue (fuel + 1) d (['f', 'a', 'l', 's', 'e'] ++ rest) = some (.bool false, rest) := by
  have e : isSpace 'f' = false := by decide
  have e1 : ¬ ('f' = '"') := by decide
  have e2 : ¬ ('f' = '[') := by decide
  have e3 : ¬ ('f' = '{') := by decide
  have e4 : ¬ ('f' = 'n') := by decide
  have e5 : ¬ ('f' = 't') := by decide
  simp [parseValue, skipSpace_cons _ _ e, e1, e2, e3, e4, e5, stripLit]

theorem parseValue_number (fuel d : Nat) (x : Rat) (t rest : List Char)
    (h : formatNumber x = some t) (hr : NumEnd rest) :
    ∃ c, parseValue (fuel + 1) d (t ++ rest) = some (.num c, rest) ∧ float64 c = some x := by
  obtain ⟨c, a, u, hs, hf, ht, ha⟩ := scanNumber_formatNumber x t rest h hr
  obtain ⟨n0, n1, n2, n3, n4, n5, n6, _⟩ := numStart_ne a ha
  refine ⟨c, ?_, hf⟩
  rw [ht] at hs ⊢
  rw [List.cons_append] at hs ⊢
  simp only [parseValue, skipSpace_cons _ _ n0, n1, n2, n3, n4, n5, n6, if_false, hs,
    Option.map_some']

theorem parseValue_empty_array (fuel d : Nat) (rest : List Char) (hd : 0 < d) :
    parseValue (fuel + 1) d ('[' :: ']' :: rest) = some (.arr [], rest) := by
  have e : isSpace '[' = false := by decide
  have e0 : isSpace ']' = false := by decide
  have e1 : ¬ ('[' = '"') := by decide
  have e2 : ¬ d = 0 := by omega
  simp only [parseValue, skipSpace_cons _ _ e, skipSpace_cons _ _ e0, e1, e2, if_false, if_true]

theorem parseValue_array (fuel d : Nat) (a : Char) (u : List Char) (hd : 0 < d)
    (hs : isSpace a = false) (ha : a ≠ ']') :
    parseValue (fuel + 1) d ('[' :: a :: u) =
      (parseElems fuel (d - 1) (a :: u)).map (fun p => (.arr p.1, p.2)) := by
  have e : isSpace '[' = false := by decide
  have e1 : ¬ ('[' = '"') := by decide
  have e2 : ¬ d = 0 := by omega
  simp only [parseValue, skipSpace_cons _ _ e, skipSpace_cons _ _ hs, e1, e2, ha, if_false,
    if_true]

theorem parseValue_empty_object (fuel d : Nat) (rest : List Char) (hd : 0 < d) :
    parseValue (fuel + 1) d ('{' :: '}' :: rest) = some (.obj [], rest) := by
  have e : isSpace '{' = false := by decide
  have e0 : isSpace '}' = false := by decide
  have e1 : ¬ ('{' = '"') := by decide
  have e3 : ¬ ('{' = '[') := by decide
  have e2 : ¬ d = 0 := by omega
  simp only [parseValue, skipSpace_cons _ _ e, skipSpace_cons _ _ e0, e1, e2, e3, if_false,
    if_true]

theorem parseValue_object (fuel d : Nat) (u : List Char) (hd : 0 < d) :
    parseValue (fuel + 1) d ('{' :: '"' :: u) =
      (parseMembers fuel (d - 1) ('"' :: u)).map (fun p => (.obj p.1, p.2)) := by
  have e : isSpace '{' = false := by decide
  have e0 : isSpace '"' = false := by decide
  have e1 : ¬ ('{' = '"') := by decide
  have e3 : ¬ ('{' = '[') := by decide
  have e4 : ¬ ('"' = '}') := by decide
  have e2 : ¬ d = 0 := by omega
  simp only [parseValue, skipSpace_cons _ _ e, skipSpace_cons _ _ e0, e1, e2, e3, e4, if_false,
    if_true]

theorem separator_comma (close : Char) (r : List Char) :
    separator close (',' :: r) = some (true, r) := by
  have e : isSpace ',' = false := by decide
  simp only [separator, skipSpace_cons _ _ e, if_true]

theorem separator_close (close : Char) (r : List Char) (h1 : isSpace close = false)
    (h2 : close ≠ ',') : separator close (close :: r) = some (false, r) := by
  simp only [separator, skipSpace_cons _ _ h1, h2, if_false, if_true]

theorem memberName_print (k : String) (r : List Char) :
    memberName (printString k.toList ++ ':' :: r) = some (k, r) := by
  have e : isSpace '"' = false := by decide
  have e1 : isSpace ':' = false := by decide
  simp only [printString, List.cons_append, memberName, skipSpace_cons _ _ e, if_true,
    scanString_escapeString, skipSpace_cons _ _ e1, string_mk_toList]

/-- The text of a value starts with a character that is not white space and not `]`. -/
theorem printValue_head (v : JSON) (t : List Char) (h : printValue v = some t) :
    ∃ a u, t = a :: u ∧ isSpace a = false ∧ a ≠ ']' := by
  cases v with
  | null =>
    simp only [printValue, Option.some.injEq] at h
    exact ⟨_, _, h.symm, by decide, by decide⟩
  | bool b =>
    cases b <;> simp only [printValue, Option.some.injEq] at h <;>
      exact ⟨_, _, h.symm, by decide, by decide⟩
  | num x =>
    simp only [printValue] at h
    obtain ⟨c, a, u, _, _, ht, ha⟩ := scanNumber_formatNumber x t [] h
      (fun c hc => by cases hc)
    have := numStart_ne a ha
    exact ⟨a, u, ht, this.1, this.2.2.2.2.2.2.2⟩
  | str s =>
    simp only [printValue, printString, Option.some.injEq] at h
    exact ⟨_, _, h.symm, by decide, by decide⟩
  | arr items =>
    simp only [printValue, Option.map_eq_some'] at h
    obtain ⟨u, _, hu⟩ := h
    exact ⟨_, _, hu.symm, by decide, by decide⟩
  | obj fields =>
    simp only [printValue, Option.map_eq_some'] at h
    obtain ⟨u, _, hu⟩ := h
    exact ⟨_, _, hu.symm, by decide, by decide⟩

end GoJson

namespace GoJson

theorem printElems_cons (x : JSON) (xs : List JSON) (t : List Char)
    (h : printElems (x :: xs) = some t) :
    ∃ tx u, printValue x = some tx ∧ printElems xs = some u ∧
      t = tx ++ (if xs.isEmpty then u else ',' :: u) := by
  rw [printElems] at h
  cases h1 : printValue x with
  | none => simp [h1] at h
  | some tx =>
    cases h2 : printElems xs with
    | none => simp [h1, h2] at h
    | some u =>
      simp only [h1, h2, Option.some.injEq] at h
      exact ⟨tx, u, rfl, rfl, h.symm⟩

theorem printMembers_cons (k : String) (x : JSON) (xs : List (String × JSON)) (t : List Char)
    (h : printMembers ((k, x) :: xs) = some t) :
    ∃ tx u, printValue x = some tx ∧ printMembers xs = some u ∧
      t = printString k.toList ++ ':' :: (tx ++ (if xs.isEmpty then u else ',' :: u)) := by
  rw [printMembers] at h
  cases h1 : printValue x with
  | none => simp [h1] at h
  | some tx =>
    cases h2 : printMembers xs with
    | none => simp [h1, h2] at h
    | some u =>
      simp only [h1, h2, Option.some.injEq] at h
      exact ⟨tx, u, rfl, rfl, h.symm⟩

theorem numEnd_cons (c : Char) (r : List Char) (h : c = ',' ∨ c = ']' ∨ c = '}') :
    NumEnd (c :: r) := by
  intro x hx
  simp only [List.head?_cons, Option.some.injEq] at hx
  subst hx
  rcases h with h | h | h <;> (subst h; decide)

mutual
/-- The decoder reads the encoder's text of a Go value as a document that denotes that
value. -/
theorem parse_printValue : ∀ (v : JSON) (t : List Char), printValue v = some t → Canon v →
    ∀ (d : Nat), Within d v → ∀ (fuel : Nat), t.length < fuel → ∀ (rest : List Char),
    NumEnd rest →
    ∃ doc, parseValue fuel d (t ++ rest) = some (doc, rest) ∧ interfaceValue doc = .ok v
  | .null, t, h, _, d, _, fuel, hf, rest, _ => by
    simp only [printValue, Option.some.injEq] at h
    subst h
    obtain ⟨f, rfl⟩ : ∃ f, fuel = f + 1 := ⟨fuel - 1, by omega⟩
    exact ⟨.null, parseValue_null f d rest, rfl⟩
  | .bool b, t, h, _, d, _, fuel, hf, rest, _ => by
    simp only [printValue, Option.some.injEq] at h
    subst h
    obtain ⟨f, rfl⟩ : ∃ f, fuel = f + 1 := ⟨fuel - 1, by omega⟩
    cases b
    · exact ⟨.bool false, parseValue_false f d rest, rfl⟩
    · exact ⟨.bool true, parseValue_true f d rest, rfl⟩
  | .num x, t, h, _, d, _, fuel, hf, rest, hr => by
    simp only [printValue] at h
    obtain ⟨f, rfl⟩ : ∃ f, fuel = f + 1 := ⟨fuel - 1, by omega⟩
    obtain ⟨c, hp, hc⟩ := parseValue_number f d x t rest h hr
    exact ⟨.num c, hp, by simp only [interfaceValue, hc]⟩
  | .str s, t, h, _, d, _, fuel, hf, rest, _ => by
    simp only [printValue, Option.some.injEq] at h
    subst h
    obtain ⟨f, rfl⟩ : ∃ f, fuel = f + 1 := ⟨fuel - 1, by omega⟩
    exact ⟨.str s, parseValue_string f d s.toList rest, rfl⟩
  | .arr items, t, h, hc, d, hw, fuel, hf, rest, _ => by
    simp only [printValue, Option.map_eq_some'] at h
    obtain ⟨u, hu, ht⟩ := h
    subst ht
    obtain ⟨f, rfl⟩ : ∃ f, fuel = f + 1 := ⟨fuel - 1, by omega⟩
    simp only [Within] at hw
    simp only [Canon] at hc
    cases items with
    | nil =>
      simp only [printElems, Option.some.injEq] at hu
      subst hu
      exact ⟨.arr [], parseValue_empty_array f d rest hw.1, rfl⟩
    | cons x xs =>
      obtain ⟨docs, hp, hi⟩ := parse_printElems (x :: xs) u hu (by simp) hc (d - 1) hw.2 f
        (by simp only [List.length_cons] at hf; omega) rest
      obtain ⟨tx, u2, hx, _, hu2⟩ := printElems_cons x xs u hu
      obtain ⟨a, w, hta, hs, ha⟩ := printValue_head x tx hx
      have hau : ∃ w2, u = a :: w2 := ⟨_, by rw [hu2, hta]; rfl⟩
      obtain ⟨w2, hw2⟩ := hau
      subst hw2
      refine ⟨.arr docs, ?_, ?_⟩
      · rw [List.cons_append, List.cons_append, parseValue_array f d a _ hw.1 hs ha]
        rw [List.cons_append] at hp
        rw [hp]
        rfl
      · simp only [interfaceValue, hi]
  | .obj fields, t, h, hc, d, hw, fuel, hf, rest, _ => by
    simp only [printValue, Option.map_eq_some'] at h
    obtain ⟨u, hu, ht⟩ := h
    subst ht
    obtain ⟨f, rfl⟩ : ∃ f, fuel = f + 1 := ⟨fuel - 1, by omega⟩
    simp only [Within] at hw
    simp only [Canon] at hc
    cases fields with
    | nil =>
      simp only [printMembers, Option.some.injEq] at hu
      subst hu
      exact ⟨.obj [], parseValue_empty_object f d rest hw.1, rfl⟩
    | cons p ps =>
      obtain ⟨k, x⟩ := p
      obtain ⟨docs, hp, hi⟩ := parse_printMembers ((k, x) :: ps) u hu (by simp) hc.2 (d - 1)
        hw.2 f (by simp only [List.length_cons] at hf; omega) rest
      obtain ⟨tx, u2, hx, _, hu2⟩ := printMembers_cons k x ps u hu
      have hau : ∃ w2, u = '"' :: w2 := ⟨_, by rw [hu2, printString]; rfl⟩
      obtain ⟨w2, hw2⟩ := hau
      subst hw2
      refine ⟨.obj docs, ?_, ?_⟩
      · rw [List.cons_append, List.cons_append, parseValue_object f d _ hw.1]
        rw [List.cons_append] at hp
        rw [hp]
        rfl
      · have := hi [] (by simpa using hc.1)
        simp only [interfaceValue, this, List.nil_append]
/-- The decoder reads the encoder's text of the elements of an array as documents that
denote these elements. -/
theorem parse_printElems : ∀ (items : List JSON) (t : List Char), printElems items = some t →
    items ≠ [] → CanonItems items → ∀ (d : Nat), WithinItems d items →
    ∀ (fuel : Nat), t.length < fuel → ∀ (rest : List Char),
    ∃ docs, parseElems fuel d (t ++ rest) = some (docs, rest) ∧
      arrayInterface docs = .ok items
  | [], _, _, hne, _, _, _, _, _, _ => absurd rfl hne
  | x :: xs, t, h, _, hc, d, hw, fuel, hf, rest => by
    obtain ⟨tx, u, hx, hu, ht⟩ := printElems_cons x xs t h
    subst ht
    obtain ⟨f, rfl⟩ : ∃ f, fuel = f + 1 := ⟨fuel - 1, by omega⟩
    simp only [WithinItems] at hw
    simp only [CanonItems] at hc
    cases xs with
    | nil =>
      simp only [printElems, Option.some.injEq] at hu
      subst hu
      simp only [List.isEmpty_nil, if_true, List.length_append, List.length_singleton] at hf
      obtain ⟨doc, hp, hi⟩ := parse_printValue x tx hx hc.1 d hw.1 f (by omega) (']' :: rest)
        (numEnd_cons _ _ (Or.inr (Or.inl rfl)))
      refine ⟨[doc], ?_, ?_⟩
      · simp only [List.isEmpty_nil, if_true, List.append_assoc, List.singleton_append,
          parseElems, hp, separator_close ']' rest (by decide) (by decide)]
      · simp only [arrayInterface, hi]
    | cons y ys =>
      simp only [List.isEmpty_cons, Bool.false_eq_true, if_false, List.length_append,
        List.length_cons] at hf
      obtain ⟨doc, hp, hi⟩ := parse_printValue x tx hx hc.1 d hw.1 f (by omega)
        (',' :: (u ++ rest)) (numEnd_cons _ _ (Or.inl rfl))
      obtain ⟨docs, hp2, hi2⟩ := parse_printElems (y :: ys) u hu (by simp) hc.2 d hw.2 f
        (by omega) rest
      refine ⟨doc :: docs, ?_, ?_⟩
      · simp only [List.isEmpty_cons, Bool.false_eq_true, if_false, List.append_assoc,
          List.cons_append, parseElems, hp, separator_comma, hp2, Option.map_some']
      · simp only [arrayInterface, hi, hi2]
/-- The decoder reads the encoder's text of the members of a map as documents that
denote these members, and assigns them to the map in their order. -/
theorem parse_printMembers : ∀ (fields : List (String × JSON)) (t : List Char),
    printMembers fields = some t → fields ≠ [] → CanonFields fields →
    ∀ (d : Nat), WithinFields d fields → ∀ (fuel : Nat), t.length < fuel →
    ∀ (rest : List Char),
    ∃ docs, parseMembers fuel d (t ++ rest) = some (docs, rest) ∧
      ∀ m, SortedKeys (m ++ fields) → objectInterface docs m = .ok (m ++ fields)
  | [], _, _, hne, _, _, _, _, _, _ => absurd rfl hne
  | (k, x) :: xs, t, h, _, hc, d, hw, fuel, hf, rest => by
    obtain ⟨tx, u, hx, hu, ht⟩ := printMembers_cons k x xs t h
    subst ht
    obtain ⟨f, rfl⟩ : ∃ f, fuel = f + 1 := ⟨fuel - 1, by omega⟩
    simp only [WithinFields] at hw
    simp only [CanonFields] at hc
    have hput : ∀ m, SortedKeys (m ++ (k, x) :: xs) → putMember k x m = m ++ [(k, x)] := by
      intro m hm
      apply putMember_last
      have e : m ++ (k, x) :: xs = (m ++ [(k, x)]) ++ xs := by simp
      unfold SortedKeys at hm ⊢
      rw [e] at hm
      exact (List.pairwise_append.mp hm).1
    cases xs with
    | nil =>
      simp only [printMembers, Option.some.injEq] at hu
      subst hu
      simp only [List.isEmpty_nil, if_true, List.length_append, List.length_singleton,
        List.length_cons] at hf
      obtain ⟨doc, hp, hi⟩ := parse_printValue x tx hx hc.1 d hw.1 f (by omega)
        ('}' :: rest) (numEnd_cons _ _ (Or.inr (Or.inr rfl)))
      refine ⟨[(k, doc)], ?_, ?_⟩
      · have e : (printString k.toList ++ ':' :: (tx ++ if ([] : List (String × JSON)).isEmpty
            = true then ['}'] else ',' :: ['}'])) ++ rest =
            printString k.toList ++ ':' :: (tx ++ '}' :: rest) := by simp
        rw [e, parseMembers]
        simp only [memberName_print, hp, separator_close '}' rest (by decide) (by decide)]
      · intro m hm
        simp only [objectInterface, hi, hput m hm]
    | cons y ys =>
      simp only [List.isEmpty_cons, Bool.false_eq_true, if_false, List.length_append,
        List.length_cons] at hf
      obtain ⟨doc, hp, hi⟩ := parse_printValue x tx hx hc.1 d hw.1 f (by omega)
        (',' :: (u ++ rest)) (numEnd_cons _ _ (Or.inl rfl))
      obtain ⟨docs, hp2, hi2⟩ := parse_printMembers (y :: ys) u hu (by simp) hc.2 d hw.2 f
        (by omega) rest
      refine ⟨(k, doc) :: docs, ?_, ?_⟩
      · have e : (printString k.toList ++ ':' :: (tx ++ if (y :: ys).isEmpty = true then u
            else ',' :: u)) ++ rest =
            printString k.toList ++ ':' :: (tx ++ ',' :: (u ++ rest)) := by simp
        rw [e, parseMembers]
        simp only [memberName_print, hp, separator_comma, hp2, Option.map_some']
      · intro m hm
        have e : m ++ (k, x) :: y :: ys = (m ++ [(k, x)]) ++ y :: ys := by simp
        simp only [objectInterface, hi, hput m hm]
        rw [hi2 (m ++ [(k, x)]) (by rw [← e]; exact hm), e]
end

end GoJson

/-! ## encoding/json: what the decoder produces -/

namespace GoJson

theorem canonFields_putMember (k : String) (v : JSON) (m : List (String × JSON))
    (hv : Canon v) (hm : CanonFields m) : CanonFields (putMember k v m) := by
  induction m with
  | nil => exact ⟨hv, trivial⟩
  | cons p rest ih =>
    obtain ⟨k2, v2⟩ := p
    simp only [CanonFields] at hm
    unfold putMember
    split_ifs
    · exact ⟨hv, hm.2⟩
    · exact ⟨hv, hm.1, hm.2⟩
    · exact ⟨hm.1, ih hm.2⟩

theorem withinFields_putMember (d : Nat) (k : String) (v : JSON) (m : List (String × JSON))
    (hv : Within d v) (hm : WithinFields d m) : WithinFields d (putMember k v m) := by
  induction m with
  | nil => exact ⟨hv, trivial⟩
  | cons p rest ih =>
    obtain ⟨k2, v2⟩ := p
    simp only [WithinFields] at hm
    unfold putMember
    split_ifs
    · exact ⟨hv, hm.2⟩
    · exact ⟨hv, hm.1, hm.2⟩
    · exact ⟨hm.1, ih hm.2⟩

mutual
/-- The Go value of a document is in the form of a Go value, and nested no deeper than
the document. -/
theorem interfaceValue_canon : ∀ (doc v : JSON), interfaceValue doc = .ok v →
    Canon v ∧ ∀ d, Within d doc → Within d v
  | .null, v, h => by
    simp only [interfaceValue, Except.ok.injEq] at h
    subst h
    exact ⟨trivial, fun _ _ => trivial⟩
  | .bool b, v, h => by
    simp only [interfaceValue, Except.ok.injEq] at h
    subst h
    exact ⟨trivial, fun _ _ => trivial⟩
  | .num x, v, h => by
    simp only [interfaceValue] at h
    cases hf : float64 x with
    | none => rw [hf] at h; cases h
    | some y =>
      rw [hf] at h
      simp only [Except.ok.injEq] at h
      subst h
      exact ⟨trivial, fun _ _ => trivial⟩
  | .str s, v, h => by
    simp only [interfaceValue, Except.ok.injEq] at h
    subst h
    exact ⟨trivial, fun _ _ => trivial⟩
  | .arr items, v, h => by
    simp only [interfaceValue] at h
    cases ha : arrayInterface items with
    | error e => rw [ha] at h; cases h
    | ok vs =>
      rw [ha] at h
      simp only [Except.ok.injEq] at h
      subst h
      have := arrayInterface_canon items vs ha
      refine ⟨by simp only [Canon]; exact this.1, ?_⟩
      intro d hd
      simp only [Within] at hd ⊢
      exact ⟨hd.1, this.2 _ hd.2⟩
  | .obj fields, v, h => by
    simp only [interfaceValue] at h
    cases ha : objectInterface fields [] with
    | error e => rw [ha] at h; cases h
    | ok m =>
      rw [ha] at h
      simp only [Except.ok.injEq] at h
      subst h
      have := objectInterface_canon fields [] m ha (by simp [SortedKeys]) trivial
      refine ⟨by simp only [Canon]; exact this.1, ?_⟩
      intro d hd
      simp only [Within] at hd ⊢
      exact ⟨hd.1, this.2 _ hd.2 trivial⟩
/-- The Go values of the elements of an array. -/
theorem arrayInterface_canon : ∀ (docs vs : List JSON), arrayInterface docs = .ok vs →
    CanonItems vs ∧ ∀ d, WithinItems d docs → WithinItems d vs
  | [], vs, h => by
    simp only [arrayInterface, Except.ok.injEq] at h
    subst h
    exact ⟨trivial, fun _ _ => trivial⟩
  | x :: rest, vs, h => by
    simp only [arrayInterface] at h
    cases hx : interfaceValue x with
    | error e => rw [hx] at h; cases h
    | ok v =>
      cases hr : arrayInterface rest with
      | error e => rw [hx, hr] at h; cases h
      | ok ws =>
        rw [hx, hr] at h
        simp only [Except.ok.injEq] at h
        subst h
        have h1 := interfaceValue_canon x v hx
        have h2 := arrayInterface_canon rest ws hr
        refine ⟨⟨h1.1, h2.1⟩, ?_⟩
        intro d hd
        simp only [WithinItems] at hd ⊢
        exact ⟨h1.2 d hd.1, h2.2 d hd.2⟩
/-- The map after the members of an object are assigned to it. -/
theorem objectInterface_canon : ∀ (docs m m2 : List (String × JSON)),
    objectInterface docs m = .ok m2 → SortedKeys m → CanonFields m →
    (SortedKeys m2 ∧ CanonFields m2) ∧
      ∀ d, WithinFields d docs → WithinFields d m → WithinFields d m2
  | [], m, m2, h, hs, hc => by
    simp only [objectInterface, Except.ok.injEq] at h
    subst h
    exact ⟨⟨hs, hc⟩, fun _ _ hm => hm⟩
  | (k, x) :: rest, m, m2, h, hs, hc => by
    simp only [objectInterface] at h
    cases hx : interfaceValue x with
    | error e => rw [hx] at h; cases h
    | ok v =>
      rw [hx] at h
      simp only at h
      have h1 := interfaceValue_canon x v hx
      have h2 := objectInterface_canon rest (putMember k v m) m2 h
        (sortedKeys_putMember k v m hs) (canonFields_putMember k v m h1.1 hc)
      refine ⟨h2.1, ?_⟩
      intro d hd hm
      simp only [WithinFields] at hd
      exact h2.2 d hd.2 (withinFields_putMember d k v m (h1.2 d hd.1) hm)
end

mutual
/-- A term nested at most `d` deep is nested at most `d + 1` deep. -/
theorem within_succ : ∀ (v : JSON) (d : Nat), Within d v → Within (d + 1) v
  | .null, _, _ => trivial
  | .bool _, _, _ => trivial
  | .num _, _, _ => trivial
  | .str _, _, _ => trivial
  | .arr items, d, h => by
    simp only [Within] at h ⊢
    obtain ⟨e, rfl⟩ : ∃ e, d = e + 1 := ⟨d - 1, by omega⟩
    exact ⟨by omega, withinItems_succ items e h.2⟩
  | .obj fields, d, h => by
    simp only [Within] at h ⊢
    obtain ⟨e, rfl⟩ : ∃ e, d = e + 1 := ⟨d - 1, by omega⟩
    exact ⟨by omega, withinFields_succ fields e h.2⟩
/-- The elements of an array nested at most `d` deep. -/
theorem withinItems_succ : ∀ (items : List JSON) (d : Nat),
    WithinItems d items → WithinItems (d + 1) items
  | [], _, _ => trivial
  | x :: rest, d, h => by
    simp only [WithinItems] at h ⊢
    exact ⟨within_succ x d h.1, withinItems_succ rest d h.2⟩
/-- The members of a map nested at most `d` deep. -/
theorem withinFields_succ : ∀ (fields : List (String × JSON)) (d : Nat),
    WithinFields d fields → WithinFields (d + 1) fields
  | [], _, _ => trivial
  | (_, x) :: rest, d, h => by
    simp only [WithinFields] at h ⊢
    exact ⟨within_succ x d h.1, withinFields_succ rest d h.2⟩
end

mutual
/-- A document in the form of a Go value whose numbers are `float64` values is its own
Go value. -/
theorem interfaceValue_self : ∀ (d : JSON), Canon d → AllFloat64 d → interfaceValue d = .ok d
  | .null, _, _ => rfl
  | .bool _, _, _ => rfl
  | .num x, _, hf => by
    simp only [AllFloat64] at hf
    simp only [interfaceValue, hf]
  | .str _, _, _ => rfl
  | .arr items, hc, hf => by
    simp only [Canon] at hc
    simp only [AllFloat64] at hf
    simp only [interfaceValue, arrayInterface_self items hc hf]
  | .obj fields, hc, hf => by
    simp only [Canon] at hc
    simp only [AllFloat64] at hf
    have := objectInterface_self fields [] hc.2 hf (by simpa using hc.1)
    simp only [interfaceValue, this, List.nil_append]
/-- The elements of an array that are their own Go values. -/
theorem arrayInterface_self : ∀ (items : List JSON), CanonItems items → AllFloat64Items items →
    arrayInterface items = .ok items
  | [], _, _ => rfl
  | x :: rest, hc, hf => by
    simp only [CanonItems] at hc
    simp only [AllFloat64Items] at hf
    simp only [arrayInterface, interfaceValue_self x hc.1 hf.1, arrayInterface_self rest hc.2 hf.2]
/-- The members of a map that are their own Go values, assigned in the order of their
keys. -/
theorem objectInterface_self : ∀ (fields m : List (String × JSON)), CanonFields fields →
    AllFloat64Fields fields → SortedKeys (m ++ fields) →
    objectInterface fields m = .ok (m ++ fields)
  | [], m, _, _, _ => by simp only [objectInterface, List.append_nil]
  | (k, x) :: rest, m, hc, hf, hs => by
    simp only [CanonFields] at hc
    simp only [AllFloat64Fields] at hf
    have e : m ++ (k, x) :: rest = (m ++ [(k, x)]) ++ rest := by simp
    have hput : putMember k x m = m ++ [(k, x)] := by
      apply putMember_last
      unfold SortedKeys at hs ⊢
      rw [e] at hs
      exact (List.pairwise_append.mp hs).1
    simp only [objectInterface, interfaceValue_self x hc.1 hf.1, hput]
    rw [objectInterface_self rest (m ++ [(k, x)]) hc.2 hf.2 (by rw [← e]; exact hs), e]
end

end GoJson

namespace GoJson

/-- A document the decoder reads is nested no deeper than `depth`. -/
theorem parse_within : ∀ fuel : Nat,
    (∀ d cs doc r, parseValue fuel d cs = some (doc, r) → Within d doc) ∧
    (∀ d cs docs r, parseElems fuel d cs = some (docs, r) → WithinItems d docs) ∧
    (∀ d cs docs r, parseMembers fuel d cs = some (docs, r) → WithinFields d docs) := by
  intro fuel
  induction fuel with
  | zero =>
    refine ⟨?_, ?_, ?_⟩ <;> (intro d cs doc r h; simp [parseValue, parseElems, parseMembers] at h)
  | succ f ih =>
    obtain ⟨ihv, ihe, ihm⟩ := ih
    refine ⟨?_, ?_, ?_⟩
    · intro d cs doc r h
      rw [parseValue] at h
      split at h
      · cases h
      · next _ c rest _ =>
        have scalar : ∀ {α : Type} (o : Option α) (g : α → JSON × List Char),
            (∀ a, Within d (g a).1) → Option.map g o = some (doc, r) → Within d doc := by
          intro α o g hg ho
          simp only [Option.map_eq_some'] at ho
          obtain ⟨a, _, he⟩ := ho
          have := hg a
          rw [he] at this
          exact this
        by_cases h1 : c = '"'
        · simp only [h1, if_true] at h
          exact scalar _ _ (by intro a; exact trivial) h
        by_cases h2 : c = '['
        · subst h2
          have e1 : ¬ ('[' = '"') := by decide
          simp only [e1, if_true, if_false] at h
          by_cases h0 : d = 0
          · simp only [h0, if_true] at h
            cases h
          · simp only [h0, if_false] at h
            split at h
            · cases h
            · next _ c1 rest1 _ =>
              by_cases h9 : c1 = ']'
              · simp only [h9, if_true, Option.some.injEq, Prod.mk.injEq] at h
                rw [← h.1]
                exact ⟨by omega, trivial⟩
              · simp only [h9, if_false, Option.map_eq_some'] at h
                obtain ⟨p, hp, he⟩ := h
                cases he
                exact ⟨by omega, ihe _ _ _ _ hp⟩
        by_cases h3 : c = '{'
        · subst h3
          have e1 : ¬ ('{' = '"') := by decide
          have e2 : ¬ ('{' = '[') := by decide
          simp only [e1, e2, if_true, if_false] at h
          by_cases h0 : d = 0
          · simp only [h0, if_true] at h
            cases h
          · simp only [h0, if_false] at h
            split at h
            · cases h
            · next _ c1 rest1 _ =>
              by_cases h9 : c1 = '}'
              · simp only [h9, if_true, Option.some.injEq, Prod.mk.injEq] at h
                rw [← h.1]
                exact ⟨by omega, trivial⟩
              · simp only [h9, if_false, Option.map_eq_some'] at h
                obtain ⟨p, hp, he⟩ := h
                cases he
                exact ⟨by omega, ihm _ _ _ _ hp⟩
        simp only [h1, h2, h3, if_false] at h
        split_ifs at h
        all_goals exact scalar _ _ (by intro a; exact trivial) h
    · intro d cs docs r h
      rw [parseElems] at h
      split at h
      · cases h
      · next x r1 hx =>
        split at h
        · cases h
        · simp only [Option.map_eq_some'] at h
          obtain ⟨p, hp, he⟩ := h
          cases he
          exact ⟨ihv _ _ _ _ hx, ihe _ _ _ _ hp⟩
        · cases h
          exact ⟨ihv _ _ _ _ hx, trivial⟩
    · intro d cs docs r h
      rw [parseMembers] at h
      split at h
      · cases h
      · split at h
        · cases h
        · next x r2 hx =>
          split at h
          · cases h
          · simp only [Option.map_eq_some'] at h
            obtain ⟨p, hp, he⟩ := h
            cases he
            exact ⟨ihv _ _ _ _ hx, ihm _ _ _ _ hp⟩
          · cases h
            exact ⟨ihv _ _ _ _ hx, trivial⟩

end GoJson

/-! ## encoding/json: `Unmarshal` after `Marshal` -/

/-- `json.Unmarshal` reads the bytes `json.Marshal` writes for a Go value as that
value. -/
theorem goJson_roundtrip (v : JSON) (bytes : String) (hc : GoJson.Canon v)
    (hw : GoJson.Within GoJson.maxNestingDepth v) (h : goJson.Marshal v = .ok bytes) :
    goJson.Unmarshal bytes = .ok v := by
  simp only [goJson] at h ⊢
  cases hp : GoJson.printValue v with
  | none => rw [hp] at h; cases h
  | some t =>
    rw [hp] at h
    simp only [Except.ok.injEq] at h
    subst h
    obtain ⟨doc, hd, hi⟩ := GoJson.parse_printValue v t hp hc _ hw (2 * t.length + 2)
      (by omega) [] (fun c hc => by cases hc)
    rw [List.append_nil] at hd
    have e : (String.mk t).toList = t := rfl
    simp only [GoJson.parseDocument, e, hd, GoJson.skipSpace, hi]

/-- The decoder on a body `{"key": k, "data": d}`: the request holds `k` and the Go value
of `d`, which is in the form of a Go value and nested within what `json.Unmarshal`
accepts; when `d` has no Go value (a number out of the range of `float64`) the decoder
fails. -/
theorem decode_key_data (body : String) (k : String) (d : JSON) (rest : List Char)
    (h : GoJson.parseDocument body.toList = some (.obj [("key", .str k), ("data", d)], rest)) :
    (∀ v, GoJson.interfaceValue d = .ok v →
      goJson.decodeSaveRequest body = .ok ⟨k, v⟩ ∧ GoJson.Canon v ∧
        GoJson.Within GoJson.maxNestingDepth v) ∧
    (∀ e, GoJson.interfaceValue d = .error e → goJson.decodeSaveRequest body = .error e) := by
  have hw := (GoJson.parse_within _).1 _ _ _ _ h
  simp only [GoJson.Within, GoJson.WithinFields] at hw
  have m1 : GoJson.fieldMatches "key" "key" = true := by decide
  have m2 : GoJson.fieldMatches "data" "key" = false := by decide
  have m3 : GoJson.fieldMatches "data" "data" = true := by decide
  have e0 : goJson.decodeSaveRequest body =
      GoJson.bindSaveRequest (.obj [("key", .str k), ("data", d)]) := by
    show (match GoJson.parseDocument body.toList with
      | none => Except.error "invalid character"
      | some (doc, _) => GoJson.bindSaveRequest doc) = _
    rw [h]
  rw [e0]
  constructor
  · intro v hv
    have hcv := GoJson.interfaceValue_canon d v hv
    refine ⟨?_, hcv.1, ?_⟩
    · simp [GoJson.bindSaveRequest, GoJson.bindMembers, m1, m2, m3, hv]
    · have := GoJson.within_succ v _ (hcv.2 _ hw.2.2.1)
      have e : GoJson.maxNestingDepth - 1 + 1 = GoJson.maxNestingDepth := by decide
      rw [e] at this
      exact this
  · intro e he
    simp [GoJson.bindSaveRequest, GoJson.bindMembers, m1, m2, m3, he]

/-! ## encoding/json: the model on known inputs -/

/-- The conversion to `float64` on known decimals: `2^53 + 1` lies between two float64
and goes to the even one, as does `2^53 + 3`; `0.1` goes to `3602879701896397 / 2^55`;
the largest float64 is `(2^53 - 1) × 2^971`; `1e309` is out of range; `1e-400` and
`2e-324` become zero and `3e-324` the smallest float64, `2^(-1074)`. -/
theorem float64_examples :
    GoJson.float64 9007199254740993 = some 9007199254740992 ∧
    GoJson.float64 9007199254740995 = some 9007199254740996 ∧
    GoJson.float64 (-9007199254740993) = some (-9007199254740992) ∧
    GoJson.float64 (GoJson.decimal 1 (-1)) = some (GoJson.binary 3602879701896397 (-55)) ∧
    GoJson.float64 (GoJson.decimal 17976931348623157 292) =
      some (GoJson.binary (2 ^ 53 - 1) 971) ∧
    GoJson.float64 (GoJson.decimal 17976931348623159 292) = none ∧
    GoJson.float64 (GoJson.decimal 1 309) = none ∧
    GoJson.float64 (GoJson.decimal 1 (-400)) = some 0 ∧
    GoJson.float64 (GoJson.decimal 2 (-324)) = some 0 ∧
    GoJson.float64 (GoJson.decimal 3 (-324)) = some (GoJson.binary 1 (-1074)) := by
  and_intros
  all_goals decide!

/-- The encoder's text of known `float64` values. -/
theorem formatNumber_examples :
    GoJson.formatNumber 0 = some "0".toList ∧
    GoJson.formatNumber 30 = some "30".toList ∧
    GoJson.formatNumber (-30) = some "-30".toList ∧
    GoJson.formatNumber (3 / 2) = some "1.5".toList ∧
    GoJson.formatNumber (GoJson.binary 3602879701896397 (-55)) = some "0.1".toList ∧
    GoJson.formatNumber 9007199254740992 = some "9007199254740992".toList ∧
    GoJson.formatNumber 12345678901234567168 = some "12345678901234567000".toList ∧
    GoJson.formatNumber (10 ^ 20) = some "100000000000000000000".toList ∧
    GoJson.formatNumber (10 ^ 21) = some "1e+21".toList ∧
    (GoJson.float64 (GoJson.decimal 1 (-6))).bind GoJson.formatNumber =
      some "0.000001".toList ∧
    (GoJson.float64 (GoJson.decimal 1 (-7))).bind GoJson.formatNumber = some "1e-7".toList ∧
    (GoJson.float64 (GoJson.decimal (-123456) (-12))).bind GoJson.formatNumber =
      some "-1.23456e-7".toList ∧
    GoJson.formatNumber (GoJson.binary 1 (-1074)) = some "5e-324".toList ∧
    GoJson.formatNumber (GoJson.binary (2 ^ 53 - 1) 971) =
      some "1.7976931348623157e+308".toList ∧
    GoJson.formatNumber (1 / 3) = none := by
  and_intros
  all_goals decide!

/-- The scanner on known texts: white space between tokens, escapes, a surrogate pair, a
surrogate alone, a name that repeats; what follows the first value is left unread; a
comma before a closing bracket, a zero in front of a number, a point without a digit and
a control character in a string are refused. -/
theorem parseDocument_examples :
    GoJson.parseDocument " [1, -2.5e1 ,\"a\\u00e9\\n\\/\", true , null] x".toList =
      some (.arr [.num 1, .num (-25), .str "aé\n/", .bool true, .null], " x".toList) ∧
    GoJson.parseDocument "\x7b \"a\" : \x7b\x7d , \"a\":[ ]\x7d".toList =
      some (.obj [("a", .obj []), ("a", .arr [])], []) ∧
    GoJson.parseDocument "\"\\ud83d\\ude00\"".toList =
      some (.str (String.mk [Char.ofNat 0x1F600]), []) ∧
    GoJson.parseDocument "\"\\ud83dx\"".toList =
      some (.str (String.mk [Char.ofNat 0xFFFD, 'x']), []) ∧
    GoJson.parseDocument "01".toList = some (.num 0, "1".toList) ∧
    GoJson.parseDocument "[1,]".toList = none ∧
    GoJson.parseDocument "[01]".toList = none ∧
    GoJson.parseDocument "1.e5".toList = none ∧
    GoJson.parseDocument "-".toList = none ∧
    GoJson.parseDocument "nul".toList = none ∧
    GoJson.parseDocument "\"a\nb\"".toList = none ∧
    GoJson.parseDocument "\"\\x\"".toList = none ∧
    GoJson.parseDocument "".toList = none := by
  and_intros
  all_goals decide!

/-- The decoder of a `SaveRequest` on known bodies: a name is matched without regard to
case, of members with the same name the last one stays, the members of a map are held in
the order of their keys, `null` leaves a field as it is, a body without `data` leaves it
`nil`; a key that is a number, a number out of range and a body that is an array are
refused. -/
theorem decodeSaveRequest_examples :
    (goJson.decodeSaveRequest heroBody30).toOption.map (fun r => (r.Key, r.Data)) =
      some ("hero1", .obj [("hp", .num 30)]) ∧
    (goJson.decodeSaveRequest
      "\x7b\"KEY\":\"hero1\",\"data\":\x7b\"b\":1,\"a\":[2],\"b\":3\x7d,\"x\":1e999\x7d"
      ).toOption.map (fun r => (r.Key, r.Data)) =
      some ("hero1", .obj [("a", .arr [.num 2]), ("b", .num 3)]) ∧
    (goJson.decodeSaveRequest "\x7b\"key\":\"hero1\",\"key\":null\x7d"
      ).toOption.map (fun r => (r.Key, r.Data)) = some ("hero1", .null) ∧
    (goJson.decodeSaveRequest "null").toOption.map (fun r => (r.Key, r.Data)) =
      some ("", .null) ∧
    (goJson.decodeSaveRequest "\x7b\"key\":5\x7d").toOption.map (fun r => (r.Key, r.Data)) =
      none ∧
    (goJson.decodeSaveRequest "\x7b\"key\":\"hero1\",\"data\":1e999\x7d"
      ).toOption.map (fun r => (r.Key, r.Data)) = none ∧
    (goJson.decodeSaveRequest "[]").toOption.map (fun r => (r.Key, r.Data)) = none := by
  and_intros
  all_goals decide!

/-- The encoder and `json.Unmarshal` on known values: the characters `<`, `"` and U+2028
are escaped, the text is read back, and text after the value is refused. -/
theorem marshal_examples :
    (goJson.Marshal (.obj [("a", .arr [.num 2, .str (String.mk ['<', '"', Char.ofNat 0x2028])]),
      ("b", .num (3 / 2))])).toOption =
      some "\x7b\"a\":[2,\"\\u003c\\\"\\u2028\"],\"b\":1.5\x7d" ∧
    goJson.Unmarshal "\x7b\"a\":[2,\"\\u003c\\\"\\u2028\"],\"b\":1.5\x7d " =
      .ok (.obj [("a", .arr [.num 2, .str (String.mk ['<', '"', Char.ofNat 0x2028])]),
        ("b", .num (3 / 2))]) ∧
    (goJson.Unmarshal "1 2").toOption = none := by
  and_intros
  all_goals decide!

/-! ## C1: save then load -/

/-- A successful `SaveCharacterData` over the map engine: the answer and the store. -/
theorem save_ok (env : Env Store) (hE : env.RedisClient = mapEngine)
    (w : ResponseWriter) (hw : w.Status = none)
    (r : Request) (k : String) (d : JSON) (bytes : String) (db : Store)
    (hpost : r.Method = "POST") (hbody : env.json.decodeSaveRequest r.Body = .ok ⟨k, d⟩)
    (hmin : 3 ≤ len k) (hmax : len k ≤ 50) (hmar : env.json.Marshal d = .ok bytes) :
    (SaveCharacterData env w r db).w.code = 200 ∧
    (SaveCharacterData env w r db).db = db.put ("user_save:" ++ k) ⟨bytes, 30 * 24 * Hour⟩ ∧
    (SaveCharacterData env w r db).calls = [.redisSet ("user_save:" ++ k) bytes (30 * 24 * Hour)] := by
  have hk : k ≠ "" := ne_empty_of_len hmin
  have h3 : ¬ len k < 3 := by omega
  have h50 : ¬ len k > 50 := by omega
  simp [SaveCharacterData, hpost, hbody, hk, h3, h50, hmar, hE, mapEngine,
    ResponseWriter.WriteHeader, ResponseWriter.Encode, ResponseWriter.write,
    ResponseWriter.code, hw]

/-- Over the map engine `SaveCharacterData` answers a `POST` request 200 exactly when the
key has 3 to 50 bytes and the document can be serialized. -/
theorem save_code_200_iff (env : Env Store) (hE : env.RedisClient = mapEngine)
    (w : ResponseWriter) (hw : w.Status = none) (r : Request) (req : SaveRequest) (db : Store)
    (hpost : r.Method = "POST") (hbody : env.json.decodeSaveRequest r.Body = .ok req) :
    (SaveCharacterData env w r db).w.code = 200 ↔
      (3 ≤ len req.Key ∧ len req.Key ≤ 50 ∧ ∃ bytes, env.json.Marshal req.Data = .ok bytes) := by
  constructor
  · intro h
    unfold SaveCharacterData at h
    simp only [hpost, hbody, ne_eq, not_true_eq_false, if_false] at h
    by_cases hk : req.Key = ""
    · simp [hk, code_httpError, hw] at h
    · by_cases h3 : len req.Key < 3
      · simp [hk, h3, code_httpError, hw] at h
      · by_cases h50 : len req.Key > 50
        · simp [hk, h3, h50, code_httpError, hw] at h
        · cases hm : env.json.Marshal req.Data with
          | error err => simp [hk, h3, h50, hm, code_httpError, hw] at h
          | ok bytes => exact ⟨by omega, by omega, bytes, rfl⟩
  · rintro ⟨hmin, hmax, bytes, hm⟩
    exact (save_ok env hE w hw r req.Key req.Data bytes db hpost hbody hmin hmax hm).1

/-- Save then load on `SaveCharacterData` and `LoadCharacterData` over the map engine, for
any `encoding/json` and a value `d` that it decodes from the body and takes through
`Marshal` and back: the save is answered 200 exactly when `len k` is in [3,50] and `d` can
be serialized, and a following `GET /api/load?key=k` is then answered 200 with key `k` and
data `d`. -/
theorem save_then_load (env : Env Store) (hE : env.RedisClient = mapEngine)
    (w w2 : ResponseWriter) (hw : w.Status = none) (hwb : w.Body = [])
    (hw2 : w2.Status = none) (hw2b : w2.Body = [])
    (save load : Request) (k : String) (d : JSON) (db : Store)
    (hpost : save.Method = "POST")
    (hbody : env.json.decodeSaveRequest save.Body = .ok ⟨k, d⟩)
    (hjson : ∀ bytes, env.json.Marshal d = .ok bytes → env.json.Unmarshal bytes = .ok d)
    (hget : load.Method = "GET") (hkey : load.queryGet "key" = k) :
    ((SaveCharacterData env w save db).w.code = 200 ↔
      (3 ≤ len k ∧ len k ≤ 50 ∧ ∃ bytes, env.json.Marshal d = .ok bytes)) ∧
    ((SaveCharacterData env w save db).w.code = 200 →
      (SaveCharacterData env w save db).w.Body =
        [.json (SaveResponse.toJSON ⟨"saved", k, env.now⟩)] ∧
      (LoadCharacterData env w2 load (SaveCharacterData env w save db).db).w.code = 200 ∧
      (LoadCharacterData env w2 load (SaveCharacterData env w save db).db).w.Body =
        [.json (LoadResponse.toJSON ⟨k, d, env.now⟩)]) := by
  have hiff : (SaveCharacterData env w save db).w.code = 200 ↔
      (3 ≤ len k ∧ len k ≤ 50 ∧ ∃ bytes, env.json.Marshal d = .ok bytes) :=
    save_code_200_iff env hE w hw save ⟨k, d⟩ db hpost hbody
  refine ⟨hiff, ?_⟩
  intro hc
  obtain ⟨hmin, hmax, bytes, hmar⟩ := hiff.mp hc
  have hun := hjson bytes hmar
  have hk : k ≠ "" := ne_empty_of_len hmin
  have h3 : ¬ len k < 3 := by omega
  have h50 : ¬ len k > 50 := by omega
  simp [SaveCharacterData, LoadCharacterData, hpost, hbody, hk, h3, h50, hmar, hE, mapEngine,
    hget, hkey, Store.find_put_self, hun, ResponseWriter.set, ResponseWriter.WriteHeader,
    ResponseWriter.Encode, ResponseWriter.write, ResponseWriter.code, hw, hwb, hw2, hw2b]

/-- The example library takes `{"hp":30}` through `Marshal` and back. -/
theorem exampleJson_hp30 (bytes : String) (h : exampleJson.Marshal hp30 = .ok bytes) :
    exampleJson.Unmarshal bytes = .ok hp30 := by
  have h1 : exampleJson.Marshal hp30 = .ok hp30Bytes := rfl
  rw [h1] at h
  cases h
  rfl

/-- The example library takes `{"hp":31}` through `Marshal` and back. -/
theorem exampleJson_hp31 (bytes : String) (h : exampleJson.Marshal hp31 = .ok bytes) :
    exampleJson.Unmarshal bytes = .ok hp31 := by
  have h1 : exampleJson.Marshal hp31 = .ok hp31Bytes := rfl
  rw [h1] at h
  cases h
  rfl

/-- Witness of `save_then_load`: `Save("hero1", {"hp":30})` then `Load("hero1")`. -/
theorem save_then_load_witness :
    (SaveCharacterData exampleEnv {} (postSave heroBody30) []).w.code = 200 ∧
    (LoadCharacterData exampleEnv {} (getLoad "hero1")
      (SaveCharacterData exampleEnv {} (postSave heroBody30) []).db).w.Body =
      [.json (LoadResponse.toJSON ⟨"hero1", hp30, exampleEnv.now⟩)] :=
  have h := save_then_load exampleEnv rfl {} {} rfl rfl rfl rfl (postSave heroBody30)
    (getLoad "hero1") "hero1" hp30 [] rfl rfl exampleJson_hp30 rfl rfl
  ⟨by decide, (h.2 (by decide)).2.2⟩

/-- C1, amended. Save/Load round trip on `SaveCharacterData` and `LoadCharacterData` over
the map engine, with the `encoding/json` of the Go standard library, for a request
`POST /api/save` whose body is the text of `{"key": k, "data": d}`, `d` any document: the
save is successful (answered 200) exactly when `len k` is in [3,50] and `d` has a Go value
`v` that can be serialized; a successful save is answered `{status:"saved", key:k,
savedAt}`, and a following `GET /api/load?key=k` is answered 200 with key `k` and data `v`,
the Go value of `d`: every number of `d` rounded to the nearest `float64`, every object as
a map.  The data is `d` itself when `d` is in the form of a Go value (every object lists
each name once, in the order of the names) and every number of `d` is a `float64`. -/
theorem save_then_load_go_value (env : Env Store) (hJ : env.json = goJson)
    (hE : env.RedisClient = mapEngine)
    (w w2 : ResponseWriter) (hw : w.Status = none) (hwb : w.Body = [])
    (hw2 : w2.Status = none) (hw2b : w2.Body = [])
    (save load : Request) (k : String) (d : JSON) (rest : List Char) (db : Store)
    (hpost : save.Method = "POST")
    (hbody : GoJson.parseDocument save.Body.toList =
      some (.obj [("key", .str k), ("data", d)], rest))
    (hget : load.Method = "GET") (hkey : load.queryGet "key" = k) :
    ((SaveCharacterData env w save db).w.code = 200 ↔
      (3 ≤ len k ∧ len k ≤ 50 ∧
        ∃ v bytes, GoJson.interfaceValue d = .ok v ∧ goJson.Marshal v = .ok bytes)) ∧
    ((SaveCharacterData env w save db).w.code = 200 →
      ∃ v, GoJson.interfaceValue d = .ok v ∧
        (SaveCharacterData env w save db).w.Body =
          [.json (.obj [("status", .str "saved"), ("key", .str k),
            ("savedAt", .str env.now)])] ∧
        (LoadCharacterData env w2 load (SaveCharacterData env w save db).db).w.code = 200 ∧
        (LoadCharacterData env w2 load (SaveCharacterData env w save db).db).w.Body =
          [.json (.obj [("key", .str k), ("data", v), ("loadedAt", .str env.now)])] ∧
        (GoJson.Canon d → GoJson.AllFloat64 d → v = d)) := by
  obtain ⟨hdok, hderr⟩ := decode_key_data save.Body k d rest hbody
  cases hi : GoJson.interfaceValue d with
  | error e =>
    have hdec : env.json.decodeSaveRequest save.Body = .error e := by
      rw [hJ]
      exact hderr e hi
    have hcode : (SaveCharacterData env w save db).w.code = 400 := by
      simp [SaveCharacterData, hpost, hdec, code_httpError, hw]
    constructor
    · constructor
      · intro h
        rw [hcode] at h
        exact absurd h (by decide)
      · rintro ⟨_, _, v, _, hv, _⟩
        cases hv
    · intro h
      rw [hcode] at h
      exact absurd h (by decide)
  | ok v =>
    obtain ⟨hdec, hcv, hwv⟩ := hdok v hi
    have hdec2 : env.json.decodeSaveRequest save.Body = .ok ⟨k, v⟩ := by
      rw [hJ]
      exact hdec
    have hjson : ∀ bytes, env.json.Marshal v = .ok bytes → env.json.Unmarshal bytes = .ok v := by
      rw [hJ]
      exact fun bytes hm => goJson_roundtrip v bytes hcv hwv hm
    have h := save_then_load env hE w w2 hw hwb hw2 hw2b save load k v db hpost hdec2 hjson
      hget hkey
    rw [hJ] at h
    constructor
    · rw [h.1]
      constructor
      · rintro ⟨h3, h50, bytes, hm⟩
        exact ⟨h3, h50, v, bytes, rfl, hm⟩
      · rintro ⟨h3, h50, v2, bytes, hv2, hm⟩
        cases hv2
        exact ⟨h3, h50, bytes, hm⟩
    · intro hc
      obtain ⟨hb, hlc, hlb⟩ := h.2 hc
      refine ⟨v, rfl, hb, hlc, hlb, fun hcd hfd => ?_⟩
      have hself := GoJson.interfaceValue_self d hcd hfd
      rw [hi] at hself
      cases hself
      rfl

/-- Witness of `save_then_load_go_value`: `Save("hero1", {"hp":30})` then `Load("hero1")`
with the `encoding/json` of the Go standard library; the document `{"hp":30}` is in the
form of a Go value and 30 is a `float64`, so the data loaded is the document saved. -/
theorem save_then_load_go_value_witness :
    GoJson.parseDocument heroBody30.toList =
      some (.obj [("key", .str "hero1"), ("data", .obj [("hp", .num 30)])], []) ∧
    (SaveCharacterData goEnv {} (postSave heroBody30) []).w.code = 200 ∧
    ∃ v, GoJson.interfaceValue (.obj [("hp", .num 30)]) = .ok v ∧
      (SaveCharacterData goEnv {} (postSave heroBody30) []).w.Body =
        [.json (.obj [("status", .str "saved"), ("key", .str "hero1"),
          ("savedAt", .str goEnv.now)])] ∧
      (LoadCharacterData goEnv {} (getLoad "hero1")
        (SaveCharacterData goEnv {} (postSave heroBody30) []).db).w.code = 200 ∧
      (LoadCharacterData goEnv {} (getLoad "hero1")
        (SaveCharacterData goEnv {} (postSave heroBody30) []).db).w.Body =
        [.json (.obj [("key", .str "hero1"), ("data", v), ("loadedAt", .str goEnv.now)])] ∧
      v = .obj [("hp", .num 30)] := by
  obtain ⟨v, h1, h2, h3, h4, h5⟩ :=
    (save_then_load_go_value goEnv rfl rfl {} {} rfl rfl rfl rfl (postSave heroBody30)
      (getLoad "hero1") "hero1" (.obj [("hp", .num 30)]) [] [] rfl (by decide!) rfl rfl).2
      (by decide!)
  refine ⟨by decide!, by decide!, v, h1, h2, h3, h4, h5 ?_ ?_⟩
  · simp [GoJson.Canon, GoJson.CanonFields, GoJson.SortedKeys]
  · simp only [GoJson.AllFloat64, GoJson.AllFloat64Fields, and_true]
    decide!

/-- C1 as stated fails: the save of `{"key":"hero1","data":9007199254740993}` is answered
200 and the following load is answered 200 with data `9007199254740992`, which is not the
document saved: the decoder holds a number as a `float64`, and `2^53 + 1` is none. -/
theorem save_then_load_not_equal :
    GoJson.parseDocument heroBodyOdd.toList =
      some (.obj [("key", .str "hero1"), ("data", .num 9007199254740993)], []) ∧
    (SaveCharacterData goEnv {} (postSave heroBodyOdd) []).w.code = 200 ∧
    (SaveCharacterData goEnv {} (postSave heroBodyOdd) []).db.find "user_save:hero1" =
      some ⟨"9007199254740992", 30 * 24 * Hour⟩ ∧
    (LoadCharacterData goEnv {} (getLoad "hero1")
      (SaveCharacterData goEnv {} (postSave heroBodyOdd) []).db).w.code = 200 ∧
    (LoadCharacterData goEnv {} (getLoad "hero1")
      (SaveCharacterData goEnv {} (postSave heroBodyOdd) []).db).w.Body =
      [.json (.obj [("key", .str "hero1"), ("data", .num 9007199254740992),
        ("loadedAt", .str goEnv.now)])] ∧
    JSON.num 9007199254740992 ≠ JSON.num 9007199254740993 := by
  decide!

/-! ## C2: keys the save handler rejects -/

/-- The key check of `SaveCharacterData` and of the api save handler in the unit the
code measures: a key whose `len` (bytes of the UTF-8 encoding) is below 3 or above 50 is
answered 400, no command is issued and the engine state is the one before the request. -/
theorem save_rejects_len {σ : Type} (env : Env σ) (w : ResponseWriter) (hw : w.Status = none)
    (r : Request) (db : σ) (req : SaveRequest) (hpost : r.Method = "POST")
    (hbody : env.json.decodeSaveRequest r.Body = .ok req)
    (hlen : len req.Key < 3 ∨ 50 < len req.Key) :
    ((SaveCharacterData env w r db).w.code = 400 ∧ (SaveCharacterData env w r db).calls = [] ∧
      (SaveCharacterData env w r db).db = db) ∧
    ((Api.save.Handler env w r db).w.code = 400 ∧ (Api.save.Handler env w r db).calls = [] ∧
      (Api.save.Handler env w r db).db = db) := by
  have hopt : r.Method ≠ "OPTIONS" := by rw [hpost]; decide
  have key : ∀ w0 : ResponseWriter, w0.Status = none →
      (SaveCharacterData env w0 r db).w.code = 400 ∧ (SaveCharacterData env w0 r db).calls = [] ∧
      (SaveCharacterData env w0 r db).db = db := by
    intro w0 hw0
    unfold SaveCharacterData
    simp only [hpost, hbody, ne_eq, not_true_eq_false, if_false]
    by_cases hk : req.Key = ""
    · simp [hk, code_httpError, hw0]
    · rcases hlen with h | h
      · simp [hk, h, code_httpError, hw0]
      · have h3 : ¬ len req.Key < 3 := by omega
        simp [hk, h, h3, code_httpError, hw0]
  refine ⟨key w hw, ?_⟩
  obtain ⟨w1, hs, _, he⟩ := Api.save_eq env w r db hopt
  rw [he]
  exact key w1 (hs.trans hw)

/-- A key of more than 50 characters is rejected: the claim of C2 holds on the long side. -/
theorem save_rejects_long_key {σ : Type} (env : Env σ) (w : ResponseWriter)
    (hw : w.Status = none) (r : Request) (db : σ) (req : SaveRequest) (hpost : r.Method = "POST")
    (hbody : env.json.decodeSaveRequest r.Body = .ok req) (hlong : 50 < req.Key.length) :
    (SaveCharacterData env w r db).w.code = 400 ∧ (SaveCharacterData env w r db).calls = [] ∧
      (SaveCharacterData env w r db).db = db :=
  (save_rejects_len env w hw r db req hpost hbody
    (Or.inr (Nat.lt_of_lt_of_le hlong (length_le_len req.Key)))).1

/-- C2 at the key `éé` (two characters, four bytes): `SaveCharacterData` and the api
save handler measure the key with `len`, so the save is answered 200 and `Set` is issued,
where the claim and the handler message "Key must be at least 3 characters" ask for 400. -/
theorem save_accepts_two_character_key :
    "éé".length = 2 ∧ len "éé" = 4 ∧
    (SaveCharacterData exampleEnv {} (postSave shortKeyBody) []).w.code = 200 ∧
    (SaveCharacterData exampleEnv {} (postSave shortKeyBody) []).calls =
      [.redisSet "user_save:éé" hp30Bytes (30 * 24 * Hour)] ∧
    (SaveCharacterData exampleEnv {} (postSave shortKeyBody) []).db =
      [("user_save:éé", ⟨hp30Bytes, 30 * 24 * Hour⟩)] ∧
    (Api.save.Handler exampleEnv {} (postSave shortKeyBody) []).w.code = 200 ∧
    (Api.save.Handler exampleEnv {} (postSave shortKeyBody) []).calls =
      [.redisSet "user_save:éé" hp30Bytes (30 * 24 * Hour)] := by
  decide

/-! ## C3: loading a key that is not stored -/

/-- C3. Over the map engine, a `GET` load request for a non-empty key `k` with no entry
at `"user_save:" ++ k` is answered 404 by `LoadCharacterData` and by the api load handler;
the body is the plain-text message, no document is written. -/
theorem load_absent_key_not_found (env : Env Store) (hE : env.RedisClient = mapEngine)
    (w : ResponseWriter) (hw : w.Status = none) (hwb : w.Body = [])
    (r : Request) (db : Store) (hget : r.Method = "GET") (hk : r.queryGet "key" ≠ "")
    (habsent : db.find ("user_save:" ++ r.queryGet "key") = none) :
    ((LoadCharacterData env w r db).w.code = 404 ∧
      (LoadCharacterData env w r db).w.Body = [.text "Save key not found\n"]) ∧
    ((Api.load.Handler env w r db).w.code = 404 ∧
      (Api.load.Handler env w r db).w.Body = [.text "Key not found\n"]) := by
  have hopt : r.Method ≠ "OPTIONS" := by rw [hget]; decide
  obtain ⟨w1, he, hs, hb⟩ := EnableCORS_pass w r hopt
  constructor
  · simp [LoadCharacterData, hget, hk, hE, mapEngine, habsent, code_httpError, body_httpError,
      hw, hwb]
  · unfold Api.load.Handler
    rw [he]
    simp [hget, hk, hE, mapEngine, habsent, code_httpError, body_httpError, hs, hb, hw, hwb]

/-- Witness of `load_absent_key_not_found`: `Load("hero1")` on the empty store. -/
theorem load_absent_key_not_found_witness :
    ((LoadCharacterData exampleEnv {} (getLoad "hero1") []).w.code = 404 ∧
      (LoadCharacterData exampleEnv {} (getLoad "hero1") []).w.Body =
        [.text "Save key not found\n"]) ∧
    ((Api.load.Handler exampleEnv {} (getLoad "hero1") []).w.code = 404 ∧
      (Api.load.Handler exampleEnv {} (getLoad "hero1") []).w.Body = [.text "Key not found\n"]) :=
  load_absent_key_not_found exampleEnv rfl {} rfl rfl (getLoad "hero1") [] rfl (by decide) rfl

/-! ## C4: deleting a key that is not stored -/

/-- The api delete handler on a key with no entry, over the map engine: `Del` counts
zero removed keys and the request is answered 404. -/
theorem api_delete_absent_key (env : Env Store) (hE : env.RedisClient = mapEngine)
    (w : ResponseWriter) (hw : w.Status = none) (hwb : w.Body = [])
    (r : Request) (db : Store) (hdel : r.Method = "DELETE") (hk : r.queryGet "key" ≠ "")
    (habsent : db.find ("user_save:" ++ r.queryGet "key") = none) :
    (Api.delete.Handler env w r db).w.code = 404 ∧
    (Api.delete.Handler env w r db).w.Body = [.text "Key not found\n"] := by
  have hopt : r.Method ≠ "OPTIONS" := by rw [hdel]; decide
  obtain ⟨w1, he, hs, hb⟩ := EnableCORS_pass w r hopt
  unfold Api.delete.Handler
  rw [he]
  simp [hdel, hk, hE, mapEngine, habsent, code_httpError, body_httpError, hs, hb, hw, hwb]

/-- The handler `DeleteCharacterData` on any non-empty key, stored or not, over the map
engine: the request is answered 200 with `{status:"deleted", key}`. -/
theorem backend_delete_any_key (env : Env Store) (hE : env.RedisClient = mapEngine)
    (w : ResponseWriter) (hw : w.Status = none) (hwb : w.Body = [])
    (r : Request) (db : Store) (hdel : r.Method = "DELETE") (hk : r.queryGet "key" ≠ "") :
    (DeleteCharacterData env w r db).w.code = 200 ∧
    (DeleteCharacterData env w r db).w.Body = [.json (deletedMap (r.queryGet "key"))] := by
  simp [DeleteCharacterData, hdel, hk, hE, mapEngine, ResponseWriter.Encode,
    ResponseWriter.write, ResponseWriter.code, hw, hwb]

/-- C4 at the key `ghost` on the empty store: `DeleteCharacterData` answers 200 with
`{status:"deleted", key:"ghost"}`, where the claim asks for 404; the api delete handler
answers 404 on the same request. -/
theorem delete_never_saved_key :
    (DeleteCharacterData exampleEnv {} (deleteKey "ghost") []).w.code = 200 ∧
    (DeleteCharacterData exampleEnv {} (deleteKey "ghost") []).w.Body =
      [.json (.obj [("key", .str "ghost"), ("status", .str "deleted")])] ∧
    (Api.delete.Handler exampleEnv {} (deleteKey "ghost") []).w.code = 404 ∧
    (Api.delete.Handler exampleEnv {} (deleteKey "ghost") []).w.Body =
      [.text "Key not found\n"] :=
  ⟨by decide, rfl, by decide, rfl⟩

/-! ## C5: delete then load -/

/-- Both delete handlers leave no entry under the key, over the map engine. -/
theorem delete_erases (env : Env Store) (hE : env.RedisClient = mapEngine)
    (w : ResponseWriter) (r : Request) (db : Store) (hdel : r.Method = "DELETE")
    (hk : r.queryGet "key" ≠ "") :
    (DeleteCharacterData env w r db).db = db.erase ("user_save:" ++ r.queryGet "key") ∧
    (Api.delete.Handler env w r db).db = db.erase ("user_save:" ++ r.queryGet "key") := by
  have hopt : r.Method ≠ "OPTIONS" := by rw [hdel]; decide
  obtain ⟨w1, he, _, _⟩ := EnableCORS_pass w r hopt
  constructor
  · simp [DeleteCharacterData, hdel, hk, hE, mapEngine]
  · unfold Api.delete.Handler
    rw [he]
    simp only [hdel, hk, hE, mapEngine, ne_eq, not_true_eq_false, if_false]
    split <;> rfl

/-- Both load handlers answer 404 when the map holds no entry for the key. -/
theorem load_code_absent (env : Env Store) (hE : env.RedisClient = mapEngine)
    (w : ResponseWriter) (hw : w.Status = none) (r : Request) (db : Store)
    (hget : r.Method = "GET") (hk : r.queryGet "key" ≠ "")
    (habsent : db.find ("user_save:" ++ r.queryGet "key") = none) :
    (LoadCharacterData env w r db).w.code = 404 ∧ (Api.load.Handler env w r db).w.code = 404 := by
  have hopt : r.Method ≠ "OPTIONS" := by rw [hget]; decide
  obtain ⟨w1, he, hs, _⟩ := EnableCORS_pass w r hopt
  constructor
  · simp [LoadCharacterData, hget, hk, hE, mapEngine, habsent, code_httpError, hw]
  · unfold Api.load.Handler
    rw [he]
    simp [hget, hk, hE, mapEngine, habsent, code_httpError, hs, hw]

/-- C5. Over the map engine, for every non-empty key `k` and every store, a `DELETE`
request for `k` (to `DeleteCharacterData` or to the api delete handler) followed by a
`GET` load request for `k` (to `LoadCharacterData` or to the api load handler) is answered
404 on the load, whether or not `k` was stored before the delete. -/
theorem delete_then_load (env : Env Store) (hE : env.RedisClient = mapEngine)
    (w w2 : ResponseWriter) (hw2 : w2.Status = none)
    (del load : Request) (db : Store) (k : String) (hk : k ≠ "")
    (hdel : del.Method = "DELETE") (hdk : del.queryGet "key" = k)
    (hget : load.Method = "GET") (hlk : load.queryGet "key" = k) :
    (LoadCharacterData env w2 load (DeleteCharacterData env w del db).db).w.code = 404 ∧
    (LoadCharacterData env w2 load (Api.delete.Handler env w del db).db).w.code = 404 ∧
    (Api.load.Handler env w2 load (DeleteCharacterData env w del db).db).w.code = 404 ∧
    (Api.load.Handler env w2 load (Api.delete.Handler env w del db).db).w.code = 404 := by
  have hk1 : del.queryGet "key" ≠ "" := by rw [hdk]; exact hk
  have hk2 : load.queryGet "key" ≠ "" := by rw [hlk]; exact hk
  obtain ⟨h1, h2⟩ := delete_erases env hE w del db hdel hk1
  have habsent : (db.erase ("user_save:" ++ del.queryGet "key")).find
      ("user_save:" ++ load.queryGet "key") = none := by
    rw [hdk, hlk]; exact Store.find_erase_self db _
  have hload := load_code_absent env hE w2 hw2 load _ hget hk2 habsent
  rw [h1, h2]
  exact ⟨hload.1, hload.1, hload.2, hload.2⟩

/-- Witness of `delete_then_load`: `Delete("hero1")` then `Load("hero1")` on a store that
holds `hero1`. -/
theorem delete_then_load_witness :
    (LoadCharacterData exampleEnv {} (getLoad "hero1")
      (DeleteCharacterData exampleEnv {} (deleteKey "hero1")
        [("user_save:hero1", ⟨hp30Bytes, 30 * 24 * Hour⟩)]).db).w.code = 404 ∧
    (Api.load.Handler exampleEnv {} (getLoad "hero1")
      (Api.delete.Handler exampleEnv {} (deleteKey "hero1")
        [("user_save:hero1", ⟨hp30Bytes, 30 * 24 * Hour⟩)]).db).w.code = 404 :=
  have h := delete_then_load exampleEnv rfl {} {} rfl (deleteKey "hero1") (getLoad "hero1")
    [("user_save:hero1", ⟨hp30Bytes, 30 * 24 * Hour⟩)] "hero1" (by decide) rfl rfl rfl rfl
  ⟨h.1, h.2.2.2⟩

/-! ## C6: the last save wins -/

/-- Two saves then a load on `SaveCharacterData` and `LoadCharacterData` over the map
engine, for any `encoding/json` and values `d1`, `d2` that it decodes from the bodies:
when both saves are answered 200, the entry at `"user_save:" ++ k` is the serialization of
`d2` alone, with the expiration of 30 days, and `Load(k)` is answered 200 with key `k` and
data `d2`, when `encoding/json` takes `d2` through `Marshal` and back. -/
theorem save_twice_then_load (env : Env Store) (hE : env.RedisClient = mapEngine)
    (w1 w2 w3 : ResponseWriter) (hw1 : w1.Status = none) (hw2 : w2.Status = none)
    (hw3 : w3.Status = none) (hw3b : w3.Body = [])
    (s1 s2 load : Request) (k : String) (d1 d2 : JSON) (db : Store)
    (hp1 : s1.Method = "POST") (hb1 : env.json.decodeSaveRequest s1.Body = .ok ⟨k, d1⟩)
    (hp2 : s2.Method = "POST") (hb2 : env.json.decodeSaveRequest s2.Body = .ok ⟨k, d2⟩)
    (hjson : ∀ bytes, env.json.Marshal d2 = .ok bytes → env.json.Unmarshal bytes = .ok d2)
    (hget : load.Method = "GET") (hkey : load.queryGet "key" = k)
    (hok1 : (SaveCharacterData env w1 s1 db).w.code = 200)
    (hok2 : (SaveCharacterData env w2 s2 (SaveCharacterData env w1 s1 db).db).w.code = 200) :
    (∃ b2, env.json.Marshal d2 = .ok b2 ∧
      (SaveCharacterData env w2 s2 (SaveCharacterData env w1 s1 db).db).db.find
        ("user_save:" ++ k) = some ⟨b2, 30 * 24 * Hour⟩) ∧
    (LoadCharacterData env w3 load
      (SaveCharacterData env w2 s2 (SaveCharacterData env w1 s1 db).db).db).w.code = 200 ∧
    (LoadCharacterData env w3 load
      (SaveCharacterData env w2 s2 (SaveCharacterData env w1 s1 db).db).db).w.Body =
      [.json (LoadResponse.toJSON ⟨k, d2, env.now⟩)] := by
  have _h1 : 3 ≤ len k ∧ len k ≤ 50 ∧ ∃ bytes, env.json.Marshal d1 = .ok bytes :=
    (save_code_200_iff env hE w1 hw1 s1 ⟨k, d1⟩ db hp1 hb1).mp hok1
  have h2 : 3 ≤ len k ∧ len k ≤ 50 ∧ ∃ bytes, env.json.Marshal d2 = .ok bytes :=
    (save_code_200_iff env hE w2 hw2 s2 ⟨k, d2⟩ _ hp2 hb2).mp hok2
  obtain ⟨hmin, hmax, b2, hm2⟩ := h2
  obtain ⟨_, e2, _⟩ := save_ok env hE w2 hw2 s2 k d2 b2
    (SaveCharacterData env w1 s1 db).db hp2 hb2 hmin hmax hm2
  have hun := hjson b2 hm2
  have hk : k ≠ "" := ne_empty_of_len hmin
  refine ⟨⟨b2, hm2, ?_⟩, ?_⟩
  · rw [e2]; exact Store.find_put_self _ _ _
  · rw [e2]
    simp [LoadCharacterData, hget, hkey, hk, hE, mapEngine, Store.find_put_self, hun,
      ResponseWriter.WriteHeader, ResponseWriter.Encode, ResponseWriter.write,
      ResponseWriter.code, hw3, hw3b]

/-- Witness of `save_twice_then_load`: `Save("hero1", {"hp":30})`, `Save("hero1",
{"hp":31})`, then `Load("hero1")`. -/
theorem save_twice_then_load_witness :
    (SaveCharacterData exampleEnv {} (postSave heroBody30) []).w.code = 200 ∧
    (SaveCharacterData exampleEnv {} (postSave heroBody31)
      (SaveCharacterData exampleEnv {} (postSave heroBody30) []).db).w.code = 200 ∧
    (LoadCharacterData exampleEnv {} (getLoad "hero1")
      (SaveCharacterData exampleEnv {} (postSave heroBody31)
        (SaveCharacterData exampleEnv {} (postSave heroBody30) []).db).db).w.Body =
      [.json (LoadResponse.toJSON ⟨"hero1", hp31, exampleEnv.now⟩)] :=
  ⟨by decide, by decide,
    (save_twice_then_load exampleEnv rfl {} {} {} rfl rfl rfl rfl
      (postSave heroBody30) (postSave heroBody31) (getLoad "hero1") "hero1" hp30 hp31 []
      rfl rfl rfl rfl exampleJson_hp31 rfl rfl (by decide) (by decide)).2.2⟩

/-- C6, amended. Last writer wins on `SaveCharacterData` and `LoadCharacterData` over the
map engine, with the `encoding/json` of the Go standard library: when the saves of
`{"key": k, "data": d1}` and then of `{"key": k, "data": d2}` are both answered 200, the
entry at `"user_save:" ++ k` is the serialization of the Go value `v2` of `d2` alone, with
the expiration of 30 days, and `Load(k)` is answered 200 with key `k` and data `v2`: every
number of `d2` rounded to the nearest `float64`, every object as a map, and nothing of
`d1`.  The data is `d2` itself when `d2` is in the form of a Go value (every object lists
each name once, in the order of the names) and every number of `d2` is a `float64`. -/
theorem save_twice_then_load_go_value (env : Env Store) (hJ : env.json = goJson)
    (hE : env.RedisClient = mapEngine)
    (w1 w2 w3 : ResponseWriter) (hw1 : w1.Status = none) (hw2 : w2.Status = none)
    (hw3 : w3.Status = none) (hw3b : w3.Body = [])
    (s1 s2 load : Request) (k : String) (d1 d2 : JSON) (rest1 rest2 : List Char) (db : Store)
    (hp1 : s1.Method = "POST")
    (hb1 : GoJson.parseDocument s1.Body.toList =
      some (.obj [("key", .str k), ("data", d1)], rest1))
    (hp2 : s2.Method = "POST")
    (hb2 : GoJson.parseDocument s2.Body.toList =
      some (.obj [("key", .str k), ("data", d2)], rest2))
    (hget : load.Method = "GET") (hkey : load.queryGet "key" = k)
    (hok1 : (SaveCharacterData env w1 s1 db).w.code = 200)
    (hok2 : (SaveCharacterData env w2 s2 (SaveCharacterData env w1 s1 db).db).w.code = 200) :
    ∃ v2 b2, GoJson.interfaceValue d2 = .ok v2 ∧ goJson.Marshal v2 = .ok b2 ∧
      (SaveCharacterData env w2 s2 (SaveCharacterData env w1 s1 db).db).db.find
        ("user_save:" ++ k) = some ⟨b2, 30 * 24 * Hour⟩ ∧
      (LoadCharacterData env w3 load
        (SaveCharacterData env w2 s2 (SaveCharacterData env w1 s1 db).db).db).w.code = 200 ∧
      (LoadCharacterData env w3 load
        (SaveCharacterData env w2 s2 (SaveCharacterData env w1 s1 db).db).db).w.Body =
        [.json (.obj [("key", .str k), ("data", v2), ("loadedAt", .str env.now)])] ∧
      (GoJson.Canon d2 → GoJson.AllFloat64 d2 → v2 = d2) := by
  have decoded : ∀ (body : String) (d : JSON) (rest : List Char) (w : ResponseWriter)
      (r : Request) (st : Store), w.Status = none → r.Method = "POST" → r.Body = body →
      GoJson.parseDocument body.toList = some (.obj [("key", .str k), ("data", d)], rest) →
      (SaveCharacterData env w r st).w.code = 200 →
      ∃ v, GoJson.interfaceValue d = .ok v ∧ env.json.decodeSaveRequest body = .ok ⟨k, v⟩ ∧
        GoJson.Canon v ∧ GoJson.Within GoJson.maxNestingDepth v := by
    intro body d rest w r st hw hp hb hdoc hok
    obtain ⟨hdok, hderr⟩ := decode_key_data body k d rest hdoc
    cases hi : GoJson.interfaceValue d with
    | error e =>
      have hdec : env.json.decodeSaveRequest r.Body = .error e := by
        rw [hJ, hb]
        exact hderr e hi
      have hcode : (SaveCharacterData env w r st).w.code = 400 := by
        simp [SaveCharacterData, hp, hdec, code_httpError, hw]
      rw [hcode] at hok
      exact absurd hok (by decide)
    | ok v =>
      obtain ⟨hdec, hcv, hwv⟩ := hdok v hi
      exact ⟨v, rfl, by rw [hJ]; exact hdec, hcv, hwv⟩
  obtain ⟨v1, _, hd1, _, _⟩ := decoded s1.Body d1 rest1 w1 s1 db hw1 hp1 rfl hb1 hok1
  obtain ⟨v2, hi2, hd2, hc2, hwv2⟩ := decoded s2.Body d2 rest2 w2 s2 _ hw2 hp2 rfl hb2 hok2
  have hjson : ∀ bytes, env.json.Marshal v2 = .ok bytes →
      env.json.Unmarshal bytes = .ok v2 := by
    rw [hJ]
    exact fun bytes hm => goJson_roundtrip v2 bytes hc2 hwv2 hm
  have h := save_twice_then_load env hE w1 w2 w3 hw1 hw2 hw3 hw3b s1 s2 load k v1 v2 db
    hp1 hd1 hp2 hd2 hjson hget hkey hok1 hok2
  rw [hJ] at h
  obtain ⟨⟨b2, hm, hf⟩, hlc, hlb⟩ := h
  refine ⟨v2, b2, hi2, hm, hf, hlc, hlb, fun hcd hfd => ?_⟩
  have hself := GoJson.interfaceValue_self d2 hcd hfd
  rw [hi2] at hself
  cases hself
  rfl

/-- Witness of `save_twice_then_load_go_value`: `Save("hero1", {"hp":30})`,
`Save("hero1", {"hp":31})`, then `Load("hero1")`, with the `encoding/json` of the Go
standard library; the data loaded is the second document. -/
theorem save_twice_then_load_go_value_witness :
    (SaveCharacterData goEnv {} (postSave heroBody30) []).w.code = 200 ∧
    (SaveCharacterData goEnv {} (postSave heroBody31)
      (SaveCharacterData goEnv {} (postSave heroBody30) []).db).w.code = 200 ∧
    ∃ v2 b2, GoJson.interfaceValue (.obj [("hp", .num 31)]) = .ok v2 ∧
      goJson.Marshal v2 = .ok b2 ∧
      (SaveCharacterData goEnv {} (postSave heroBody31)
        (SaveCharacterData goEnv {} (postSave heroBody30) []).db).db.find
        ("user_save:" ++ "hero1") = some ⟨b2, 30 * 24 * Hour⟩ ∧
      (LoadCharacterData goEnv {} (getLoad "hero1")
        (SaveCharacterData goEnv {} (postSave heroBody31)
          (SaveCharacterData goEnv {} (postSave heroBody30) []).db).db).w.code = 200 ∧
      (LoadCharacterData goEnv {} (getLoad "hero1")
        (SaveCharacterData goEnv {} (postSave heroBody31)
          (SaveCharacterData goEnv {} (postSave heroBody30) []).db).db).w.Body =
        [.json (.obj [("key", .str "hero1"), ("data", v2), ("loadedAt", .str goEnv.now)])] ∧
      v2 = .obj [("hp", .num 31)] := by
  obtain ⟨v2, b2, h1, h2, h3, h4, h5, h6⟩ :=
    save_twice_then_load_go_value goEnv rfl rfl {} {} {} rfl rfl rfl rfl
      (postSave heroBody30) (postSave heroBody31) (getLoad "hero1") "hero1"
      (.obj [("hp", .num 30)]) (.obj [("hp", .num 31)]) [] [] [] rfl (by decide!) rfl
      (by decide!) rfl rfl (by decide!) (by decide!)
  refine ⟨by decide!, by decide!, v2, b2, h1, h2, h3, h4, h5, h6 ?_ ?_⟩
  · simp [GoJson.Canon, GoJson.CanonFields, GoJson.SortedKeys]
  · simp only [GoJson.AllFloat64, GoJson.AllFloat64Fields, and_true]
    decide!

/-- C6 as stated fails: after the saves of `{"hp":30}` and then of
`{"gold":12345678901234567890}` under `hero1`, both answered 200, the load is answered 200
with data `{"gold":12345678901234567168}`, which is not the second document: the decoder
holds a number as a `float64`.  The entry holds the bytes `{"gold":12345678901234567000}`
and nothing of the first document. -/
theorem second_save_not_equal :
    GoJson.parseDocument heroBodyGold.toList =
      some (.obj [("key", .str "hero1"),
        ("data", .obj [("gold", .num 12345678901234567890)])], []) ∧
    (SaveCharacterData goEnv {} (postSave heroBody30) []).w.code = 200 ∧
    (SaveCharacterData goEnv {} (postSave heroBodyGold)
      (SaveCharacterData goEnv {} (postSave heroBody30) []).db).w.code = 200 ∧
    (SaveCharacterData goEnv {} (postSave heroBodyGold)
      (SaveCharacterData goEnv {} (postSave heroBody30) []).db).db.find "user_save:hero1" =
      some ⟨"\x7b\"gold\":12345678901234567000\x7d", 30 * 24 * Hour⟩ ∧
    (LoadCharacterData goEnv {} (getLoad "hero1")
      (SaveCharacterData goEnv {} (postSave heroBodyGold)
        (SaveCharacterData goEnv {} (postSave heroBody30) []).db).db).w.Body =
      [.json (.obj [("key", .str "hero1"),
        ("data", .obj [("gold", .num 12345678901234567168)]),
        ("loadedAt", .str goEnv.now)])] ∧
    JSON.obj [("gold", .num 12345678901234567168)] ≠
      JSON.obj [("gold", .num 12345678901234567890)] := by
  decide!

/-! ## C7: what the fetch proxy validates -/

/-- After the CORS step the api character handler, on a `GET` request, runs the text of
`GetCharacterData`. -/
theorem Api.character_eq {σ : Type} (env : Env σ) (w : ResponseWriter) (r : Request) (db : σ)
    (hget : r.Method = "GET") :
    ∃ w1, w1.Status = w.Status ∧ w1.Body = w.Body ∧
      Api.character.Handler env w r db = GetCharacterData env w1 r db := by
  have hopt : r.Method ≠ "OPTIONS" := by rw [hget]; decide
  obtain ⟨w1, he, hs, hb⟩ := EnableCORS_pass w r hopt
  refine ⟨w1, hs, hb, ?_⟩
  unfold Api.character.Handler GetCharacterData
  rw [he]
  simp [hget]

/-- The fetch proxy on a `url` parameter that is empty or that `url.ParseRequestURI`
rejects: `GetCharacterData` and, for a `GET` request, the api character handler answer
400 and do not call `http.Get`. -/
theorem fetch_rejected {σ : Type} (env : Env σ) (w : ResponseWriter) (hw : w.Status = none)
    (r : Request) (db : σ) (hget : r.Method = "GET")
    (hbad : r.queryGet "url" = "" ∨
      ∃ err, ParseRequestURI env.parseAuthority (r.queryGet "url") = .error err) :
    ((GetCharacterData env w r db).w.code = 400 ∧ (GetCharacterData env w r db).calls = []) ∧
    ((Api.character.Handler env w r db).w.code = 400 ∧
      (Api.character.Handler env w r db).calls = []) := by
  have key : ∀ w0 : ResponseWriter, w0.Status = none →
      (GetCharacterData env w0 r db).w.code = 400 ∧ (GetCharacterData env w0 r db).calls = [] := by
    intro w0 hw0
    unfold GetCharacterData
    by_cases hu : r.queryGet "url" = ""
    · simp [hu, ResponseWriter.WriteHeader, ResponseWriter.Encode, ResponseWriter.write,
        ResponseWriter.code, hw0]
    · rcases hbad with h | ⟨err, h⟩
      · exact absurd h hu
      · simp [hu, h, ResponseWriter.WriteHeader, ResponseWriter.Encode, ResponseWriter.write,
          ResponseWriter.code, hw0]
  refine ⟨key w hw, ?_⟩
  obtain ⟨w1, hs, _, he⟩ := Api.character_eq env w r db hget
  rw [he]
  exact key w1 (hs.trans hw)

/-- The fetch proxy calls `http.Get` only on a non-empty `url` parameter that
`url.ParseRequestURI` accepts, and then on that parameter alone. -/
theorem fetch_only_accepted {σ : Type} (env : Env σ) (w : ResponseWriter) (r : Request)
    (db : σ) (c : Call)
    (hc : c ∈ (GetCharacterData env w r db).calls ∨ c ∈ (Api.character.Handler env w r db).calls) :
    c = .httpGet (r.queryGet "url") ∧ r.queryGet "url" ≠ "" ∧
    ParseRequestURI env.parseAuthority (r.queryGet "url") = .ok () := by
  have key : ∀ w0 : ResponseWriter, c ∈ (GetCharacterData env w0 r db).calls →
      c = .httpGet (r.queryGet "url") ∧ r.queryGet "url" ≠ "" ∧
      ParseRequestURI env.parseAuthority (r.queryGet "url") = .ok () := by
    intro w0 h0
    unfold GetCharacterData at h0
    by_cases hu : r.queryGet "url" = ""
    · simp [hu] at h0
    · cases hp : ParseRequestURI env.parseAuthority (r.queryGet "url") with
      | error err => simp [hu, hp] at h0
      | ok u =>
        refine ⟨?_, hu, rfl⟩
        cases hf : env.httpGet (r.queryGet "url") <;> simp [hu, hp, hf] at h0 <;> exact h0
  rcases hc with h | h
  · exact key w h
  · unfold Api.character.Handler at h
    by_cases hopt : r.Method = "OPTIONS"
    · simp [EnableCORS, hopt] at h
    · obtain ⟨w1, he, _, _⟩ := EnableCORS_pass w r hopt
      rw [he] at h
      by_cases hget : r.Method = "GET"
      · apply key w1
        unfold GetCharacterData
        simpa [hget] using h
      · simp [hget] at h

/-- The function `url.ParseRequestURI` accepts the bare path `/foo`, whatever the
authority parser, and rejects the schemeless word `not-a-url`. -/
theorem ParseRequestURI_examples (parseAuthority : String → Bool) :
    ParseRequestURI parseAuthority "/foo" = .ok () ∧
    ParseRequestURI parseAuthority "not-a-url" = .error "invalid URI for request" :=
  ⟨rfl, rfl⟩

/-- The fetch proxy on a non-empty `url` parameter that `url.ParseRequestURI` accepts:
`http.Get` is called on it and the answer is 502, 500 or 200, never 400. -/
theorem fetch_accepted {σ : Type} (env : Env σ) (w : ResponseWriter) (hw : w.Status = none)
    (r : Request) (db : σ) (hget : r.Method = "GET") (hu : r.queryGet "url" ≠ "")
    (hp : ParseRequestURI env.parseAuthority (r.queryGet "url") = .ok ()) :
    ((GetCharacterData env w r db).w.code ∈ [502, 500, 200] ∧
      (GetCharacterData env w r db).calls = [.httpGet (r.queryGet "url")]) ∧
    ((Api.character.Handler env w r db).w.code ∈ [502, 500, 200] ∧
      (Api.character.Handler env w r db).calls = [.httpGet (r.queryGet "url")]) := by
  have key : ∀ w0 : ResponseWriter, w0.Status = none →
      (GetCharacterData env w0 r db).w.code ∈ [502, 500, 200] ∧
      (GetCharacterData env w0 r db).calls = [.httpGet (r.queryGet "url")] := by
    intro w0 hw0
    unfold GetCharacterData
    cases hf : env.httpGet (r.queryGet "url") <;>
      simp [hu, hp, hf, ResponseWriter.WriteHeader, ResponseWriter.Encode,
        ResponseWriter.write, ResponseWriter.code, hw0]
  refine ⟨key w hw, ?_⟩
  obtain ⟨w1, hs, _, he⟩ := Api.character_eq env w r db hget
  rw [he]
  exact key w1 (hs.trans hw)

/-- C7 at the bare path `/foo`: `url.ParseRequestURI` accepts it, so `GetCharacterData`
and the api character handler call `http.Get("/foo")`, which the client refuses, and
answer 502, where the claim asks for 400 and no call. -/
theorem fetch_bare_path :
    ParseRequestURI exampleEnv.parseAuthority "/foo" = .ok () ∧
    (GetCharacterData exampleEnv {} (getCharacter "/foo") []).w.code = 502 ∧
    (GetCharacterData exampleEnv {} (getCharacter "/foo") []).calls = [.httpGet "/foo"] ∧
    (Api.character.Handler exampleEnv {} (getCharacter "/foo") []).w.code = 502 ∧
    (Api.character.Handler exampleEnv {} (getCharacter "/foo") []).calls = [.httpGet "/foo"] :=
  ⟨rfl, by decide, by decide, by decide, by decide⟩

/-! ## C8: the answer to `url=not-a-url` -/

/-- C8 as stated fails: the body written for `GET /api/character?url=not-a-url` is not the
object with the single field `error`. -/
theorem not_a_url_body_not_single_field :
    ¬ ((GetCharacterData exampleEnv {} (getCharacter "not-a-url") []).w.Body =
        [.json (.obj [("error", .str "invalid url format")])]) ∧
    ¬ ((Api.character.Handler exampleEnv {} (getCharacter "not-a-url") []).w.Body =
        [.json (.obj [("error", .str "invalid url format")])]) := by
  have h1 : (GetCharacterData exampleEnv {} (getCharacter "not-a-url") []).w.Body =
      [.json (.obj [("url", .str ""), ("content", .str ""),
        ("error", .str "invalid url format")])] := rfl
  have h2 : (Api.character.Handler exampleEnv {} (getCharacter "not-a-url") []).w.Body =
      [.json (.obj [("url", .str ""), ("content", .str ""),
        ("error", .str "invalid url format")])] := rfl
  rw [h1, h2]
  simp

/-- C8, amended. For `GET /api/character?url=not-a-url` the fetch proxy
(`GetCharacterData` and the api character handler) answers 400 without calling
`http.Get`, and the body is the object
`{url:"", content:"", error:"invalid url format"}`: `url` and `content` are not tagged
`omitempty` and are written as empty strings. -/
theorem not_a_url_answer {σ : Type} (env : Env σ) (db : σ) :
    ((GetCharacterData env {} (getCharacter "not-a-url") db).w.code = 400 ∧
      (GetCharacterData env {} (getCharacter "not-a-url") db).w.Body =
        [.json (.obj [("url", .str ""), ("content", .str ""),
          ("error", .str "invalid url format")])] ∧
      (GetCharacterData env {} (getCharacter "not-a-url") db).calls = []) ∧
    ((Api.character.Handler env {} (getCharacter "not-a-url") db).w.code = 400 ∧
      (Api.character.Handler env {} (getCharacter "not-a-url") db).w.Body =
        [.json (.obj [("url", .str ""), ("content", .str ""),
          ("error", .str "invalid url format")])] ∧
      (Api.character.Handler env {} (getCharacter "not-a-url") db).calls = []) :=
  ⟨⟨rfl, rfl, rfl⟩, ⟨rfl, rfl, rfl⟩⟩

/-! ## C9: the shape of an error reply -/

/-- Reading a header after `Set`, before the status line is written. -/
theorem ResponseWriter.header_set (w : ResponseWriter) (hs : w.Status = none)
    (name value other : String) :
    (w.set name value).header other = if other = name then some value else w.header other := by
  simp only [ResponseWriter.set, hs, ResponseWriter.header]
  induction w.Header with
  | nil =>
    by_cases h : other = name
    · simp [h]
    · have h2 : ¬ name = other := fun hc => h hc.symm
      simp [h, h2]
  | cons p rest ih =>
    by_cases hp : p.1 = name
    · have : (p.1 != name) = false := by simp [hp]
      rw [List.filter_cons_of_neg (by simp [hp])]
      rw [ih]
      by_cases h : other = name
      · simp [h]
      · have h2 : ¬ p.1 = other := fun hc => h (hc ▸ hp)
        simp [h, h2]
    · rw [List.filter_cons_of_pos (by simp [hp])]
      by_cases h : p.1 = other
      · have h3 : ¬ other = name := fun hc => hp (h ▸ hc)
        simp [h, h3]
      · simp only [List.cons_append, List.find?_cons]
        have : (p.1 == other) = false := by simp [h]
        rw [this]
        simpa using ih

/-- The reply of `http.Error` on a fresh writer: the status, a plain-text body, no JSON. -/
theorem httpError_plain (w : ResponseWriter) (hs : w.Status = none) (hb : w.Body = [])
    (msg : String) (c : Nat) :
    (httpError w msg c).code = c ∧ isPlainText (httpError w msg c) = true ∧
    isErrorEnvelope (httpError w msg c).Body = false := by
  refine ⟨code_httpError w hs msg c, ?_, ?_⟩
  · have hh : (httpError w msg c).header "Content-Type" = some "text/plain; charset=utf-8" := by
      have e : (httpError w msg c).Header =
          ((w.set "Content-Type" "text/plain; charset=utf-8").set
            "X-Content-Type-Options" "nosniff").Header := by
        simp [httpError, ResponseWriter.WriteHeader, ResponseWriter.write, hs]
      unfold ResponseWriter.header at *
      rw [e]
      have := ResponseWriter.header_set (w.set "Content-Type" "text/plain; charset=utf-8")
        (by simp [hs]) "X-Content-Type-Options" "nosniff" "Content-Type"
      unfold ResponseWriter.header at this
      rw [this]
      have := ResponseWriter.header_set w hs "Content-Type" "text/plain; charset=utf-8" "Content-Type"
      unfold ResponseWriter.header at this
      rw [this]
      simp
    simp [isPlainText, hh, body_httpError, hb]
  · simp [isErrorEnvelope, body_httpError, hb]

/-- A reply written by `http.Error` with one of the error statuses. -/
theorem plain_of_httpError {σ : Type} (w : ResponseWriter) (hs : w.Status = none)
    (hb : w.Body = []) (msg : String) (c : Nat) (hc : c ∈ [405, 400, 404, 500]) (db : σ)
    (calls : List Call) : PlainErrors ⟨httpError w msg c, db, calls⟩ := by
  obtain ⟨h1, h2, h3⟩ := httpError_plain w hs hb msg c
  exact Or.inr ⟨by simpa [h1] using hc, h2, h3⟩

/-- The two ways the handlers write a JSON reply are answered 200. -/
theorem plain_of_ok {σ : Type} (w : ResponseWriter) (hs : w.Status = none) (hb : w.Body = [])
    (v : JSON) (db : σ) (calls : List Call) :
    PlainErrors ⟨((w.set "Content-Type" "application/json").WriteHeader 200).Encode v, db, calls⟩ ∧
    PlainErrors ⟨(w.set "Content-Type" "application/json").Encode v, db, calls⟩ := by
  constructor <;> left <;>
    simp [ResponseWriter.WriteHeader, ResponseWriter.Encode, ResponseWriter.write,
      ResponseWriter.code, isJsonBody, hs, hb]

/-- The two shapes of a reply. Every reply of the save, load and delete handlers
(`SaveCharacterData`, `LoadCharacterData`, `DeleteCharacterData` and the api handlers) is
either a 200 reply or
carries one of the statuses 405, 400, 404, 500 with a body that is one line of plain text
written by `http.Error` under `Content-Type: text/plain; charset=utf-8`; the body of an
error reply is not a JSON object with a field `error`. -/
theorem error_replies_plain {σ : Type} (env : Env σ) (w : ResponseWriter)
    (hs : w.Status = none) (hb : w.Body = []) (r : Request) (db : σ) :
    PlainErrors (SaveCharacterData env w r db) ∧ PlainErrors (LoadCharacterData env w r db) ∧
    PlainErrors (DeleteCharacterData env w r db) ∧ PlainErrors (Api.save.Handler env w r db) ∧
    PlainErrors (Api.load.Handler env w r db) ∧ PlainErrors (Api.delete.Handler env w r db) := by
  have save : ∀ w0 : ResponseWriter, w0.Status = none → w0.Body = [] →
      PlainErrors (SaveCharacterData env w0 r db) := by
    intro w0 h0 b0
    unfold SaveCharacterData
    repeat' first | dsimp only | split
    all_goals first
      | exact plain_of_httpError w0 h0 b0 _ _ (by decide) _ _
      | exact (plain_of_ok w0 h0 b0 _ _ _).1
  have load : ∀ w0 : ResponseWriter, w0.Status = none → w0.Body = [] →
      PlainErrors (LoadCharacterData env w0 r db) := by
    intro w0 h0 b0
    unfold LoadCharacterData
    repeat' first | dsimp only | split
    all_goals first
      | exact plain_of_httpError w0 h0 b0 _ _ (by decide) _ _
      | exact (plain_of_ok w0 h0 b0 _ _ _).1
  have del : ∀ w0 : ResponseWriter, w0.Status = none → w0.Body = [] →
      PlainErrors (DeleteCharacterData env w0 r db) := by
    intro w0 h0 b0
    unfold DeleteCharacterData
    repeat' first | dsimp only | split
    all_goals first
      | exact plain_of_httpError w0 h0 b0 _ _ (by decide) _ _
      | exact (plain_of_ok w0 h0 b0 _ _ _).2
  have options : ∀ h : r.Method = "OPTIONS", EnableCORS w r = ((EnableCORS w r).1, true) ∧
      (EnableCORS w r).1.code = 200 ∧ (EnableCORS w r).1.Body = [] := by
    intro h
    unfold EnableCORS
    simp only [if_pos h]
    refine ⟨trivial, ?_, ?_⟩
    · split <;> simp [ResponseWriter.WriteHeader, ResponseWriter.code, hs]
    · split <;> simp [ResponseWriter.WriteHeader, hs, hb]
  refine ⟨save w hs hb, load w hs hb, del w hs hb, ?_, ?_, ?_⟩
  · by_cases hopt : r.Method = "OPTIONS"
    · obtain ⟨he, hc, hbd⟩ := options hopt
      unfold Api.save.Handler
      rw [he]
      exact Or.inl ⟨hc, Or.inl hbd⟩
    · obtain ⟨w1, h1, b1, he⟩ := Api.save_eq env w r db hopt
      rw [he]
      exact save w1 (h1.trans hs) (b1.trans hb)
  · by_cases hopt : r.Method = "OPTIONS"
    · obtain ⟨he, hc, hbd⟩ := options hopt
      unfold Api.load.Handler
      rw [he]
      exact Or.inl ⟨hc, Or.inl hbd⟩
    · obtain ⟨w1, he, h1, b1⟩ := EnableCORS_pass w r hopt
      unfold Api.load.Handler
      rw [he]
      repeat' first | dsimp only | split
      all_goals first
        | exact plain_of_httpError w1 (h1.trans hs) (b1.trans hb) _ _ (by decide) _ _
        | exact (plain_of_ok w1 (h1.trans hs) (b1.trans hb) _ _ _).1
  · by_cases hopt : r.Method = "OPTIONS"
    · obtain ⟨he, hc, hbd⟩ := options hopt
      unfold Api.delete.Handler
      rw [he]
      exact Or.inl ⟨hc, Or.inl hbd⟩
    · obtain ⟨w1, he, h1, b1⟩ := EnableCORS_pass w r hopt
      unfold Api.delete.Handler
      rw [he]
      repeat' first | dsimp only | split
      all_goals first
        | exact plain_of_httpError w1 (h1.trans hs) (b1.trans hb) _ _ (by decide) _ _
        | exact (plain_of_ok w1 (h1.trans hs) (b1.trans hb) _ _ _).1

/-- Witness of `error_replies_plain`: a load of `hero1` on the empty store. -/
theorem error_replies_plain_witness :
    PlainErrors (SaveCharacterData exampleEnv {} (getLoad "hero1") []) ∧
    PlainErrors (LoadCharacterData exampleEnv {} (getLoad "hero1") []) ∧
    PlainErrors (DeleteCharacterData exampleEnv {} (getLoad "hero1") []) ∧
    PlainErrors (Api.save.Handler exampleEnv {} (getLoad "hero1") []) ∧
    PlainErrors (Api.load.Handler exampleEnv {} (getLoad "hero1") []) ∧
    PlainErrors (Api.delete.Handler exampleEnv {} (getLoad "hero1") []) :=
  error_replies_plain exampleEnv {} rfl rfl (getLoad "hero1") []

/-- A reply written by `http.Error` on a fresh writer is the plain reply of its status
and message. -/
theorem plainReply_httpError {σ : Type} (w : ResponseWriter) (hs : w.Status = none)
    (hb : w.Body = []) (msg : String) (c : Nat) (db : σ) (calls : List Call) :
    PlainReply ⟨httpError w msg c, db, calls⟩ c msg := by
  obtain ⟨h1, h2, _⟩ := httpError_plain w hs hb msg c
  refine ⟨h1, by simp [body_httpError, hb], ?_⟩
  simp only [isPlainText, Bool.and_eq_true, beq_iff_eq] at h2
  exact h2.1

/-- The statuses of `SaveCharacterData`. -/
theorem save_statuses {σ : Type} (env : Env σ) : SaveStatuses env (SaveCharacterData env) := by
  intro w r db hs hb _
  refine ⟨?_, ?_, ?_⟩
  · intro hm
    simp only [SaveCharacterData, hm, ne_eq, not_false_eq_true, if_true]
    exact plainReply_httpError w hs hb _ _ _ _
  · intro hm err he
    simp only [SaveCharacterData, hm, he, ne_eq, not_true_eq_false, if_false]
    exact plainReply_httpError w hs hb _ _ _ _
  · intro hm req he
    refine ⟨?_, ?_, ?_, ?_⟩
    · intro hk
      simp only [SaveCharacterData, hm, he, hk, ne_eq, not_true_eq_false, if_false, if_true]
      exact plainReply_httpError w hs hb _ _ _ _
    · intro hk h3
      simp only [SaveCharacterData, hm, he, hk, h3, ne_eq, not_true_eq_false, if_false, if_true]
      exact plainReply_httpError w hs hb _ _ _ _
    · intro h3 h50
      have hk : req.Key ≠ "" := ne_empty_of_len h3
      have h3n : ¬ len req.Key < 3 := by omega
      have h50p : len req.Key > 50 := h50
      simp only [SaveCharacterData, hm, he, hk, h3n, h50p, ne_eq, not_true_eq_false, if_false,
        if_true]
      exact plainReply_httpError w hs hb _ _ _ _
    · intro h3 h50
      have hk : req.Key ≠ "" := ne_empty_of_len h3
      have h3n : ¬ len req.Key < 3 := by omega
      have h50n : ¬ len req.Key > 50 := by omega
      refine ⟨?_, ?_⟩
      · intro err hmar
        simp only [SaveCharacterData, hm, he, hk, h3n, h50n, hmar, ne_eq, not_true_eq_false,
          if_false]
        exact plainReply_httpError w hs hb _ _ _ _
      · intro bytes hmar
        refine ⟨?_, ?_⟩
        · intro err hset
          unfold SaveCharacterData
          simp only [hm, he, hk, h3n, h50n, hmar, ne_eq, not_true_eq_false, if_false]
          split
          · next e1 d1 heq =>
            rw [heq] at hset
            cases hset
            exact plainReply_httpError w hs hb _ _ _ _
          · next d1 heq =>
            rw [heq] at hset
            cases hset
        · intro hset
          unfold SaveCharacterData
          simp only [hm, he, hk, h3n, h50n, hmar, ne_eq, not_true_eq_false, if_false]
          split
          · next e1 d1 heq =>
            rw [heq] at hset
            cases hset
          · next d1 heq =>
            simp [SaveResponse.toJSON, ResponseWriter.WriteHeader, ResponseWriter.Encode,
              ResponseWriter.write, ResponseWriter.code, hs, hb]

/-- The statuses of the api save handler: those of `SaveCharacterData`. -/
theorem api_save_statuses {σ : Type} (env : Env σ) : SaveStatuses env (Api.save.Handler env) := by
  intro w r db hs hb hopt
  obtain ⟨w1, h1, b1, he⟩ := Api.save_eq env w r db hopt
  rw [he]
  exact save_statuses env w1 r db (h1.trans hs) (b1.trans hb) hopt

/-- The statuses of `LoadCharacterData`. -/
theorem load_statuses {σ : Type} (env : Env σ) :
    LoadStatuses env (LoadCharacterData env) "Missing 'key' parameter" "Save key not found"
      (fun _ => "Corrupted data in storage") := by
  intro w r db hs hb _
  refine ⟨?_, ?_⟩
  · intro hm
    simp only [LoadCharacterData, hm, ne_eq, not_false_eq_true, if_true]
    exact plainReply_httpError w hs hb _ _ _ _
  · intro hm
    refine ⟨?_, ?_⟩
    · intro hk
      simp only [LoadCharacterData, hm, hk, ne_eq, not_true_eq_false, if_false, if_true]
      exact plainReply_httpError w hs hb _ _ _ _
    · intro hk
      refine ⟨?_, ?_, ?_⟩
      · intro hg
        simp only [LoadCharacterData, hm, hk, hg, ne_eq, not_true_eq_false, if_false]
        exact plainReply_httpError w hs hb _ _ _ _
      · intro err hg
        simp only [LoadCharacterData, hm, hk, hg, ne_eq, not_true_eq_false, if_false]
        exact plainReply_httpError w hs hb _ _ _ _
      · intro bytes hg
        refine ⟨?_, ?_⟩
        · intro err hu
          simp only [LoadCharacterData, hm, hk, hg, hu, ne_eq, not_true_eq_false, if_false]
          exact plainReply_httpError w hs hb _ _ _ _
        · intro data hu
          simp [LoadCharacterData, hm, hk, hg, hu, LoadResponse.toJSON,
            ResponseWriter.WriteHeader, ResponseWriter.Encode, ResponseWriter.write,
            ResponseWriter.code, hs, hb]

/-- The statuses of the api load handler. -/
theorem api_load_statuses {σ : Type} (env : Env σ) :
    LoadStatuses env (Api.load.Handler env) "Key parameter is required" "Key not found"
      (fun err => "Failed to parse data: " ++ err) := by
  intro w r db hs hb hopt
  obtain ⟨w1, he, h1, b1⟩ := EnableCORS_pass w r hopt
  have hs1 : w1.Status = none := h1.trans hs
  have hb1 : w1.Body = [] := b1.trans hb
  unfold Api.load.Handler
  rw [he]
  refine ⟨?_, ?_⟩
  · intro hm
    simp only [hm, ne_eq, not_false_eq_true, if_true]
    exact plainReply_httpError w1 hs1 hb1 _ _ _ _
  · intro hm
    refine ⟨?_, ?_⟩
    · intro hk
      simp only [hm, hk, ne_eq, not_true_eq_false, if_false, if_true]
      exact plainReply_httpError w1 hs1 hb1 _ _ _ _
    · intro hk
      refine ⟨?_, ?_, ?_⟩
      · intro hg
        simp only [hm, hk, hg, ne_eq, not_true_eq_false, if_false]
        exact plainReply_httpError w1 hs1 hb1 _ _ _ _
      · intro err hg
        simp only [hm, hk, hg, ne_eq, not_true_eq_false, if_false]
        exact plainReply_httpError w1 hs1 hb1 _ _ _ _
      · intro bytes hg
        refine ⟨?_, ?_⟩
        · intro err hu
          simp only [hm, hk, hg, hu, ne_eq, not_true_eq_false, if_false]
          exact plainReply_httpError w1 hs1 hb1 _ _ _ _
        · intro data hu
          simp [hm, hk, hg, hu, LoadResponse.toJSON,
            ResponseWriter.WriteHeader, ResponseWriter.Encode, ResponseWriter.write,
            ResponseWriter.code, hs1, hb1]

/-- The statuses of `DeleteCharacterData`: a count of zero is answered 200. -/
theorem delete_statuses {σ : Type} (env : Env σ) :
    DeleteStatuses env (DeleteCharacterData env) "Missing 'key' parameter" "Failed to delete: "
      false (fun key => .obj [("key", .str key), ("status", .str "deleted")]) := by
  intro w r db hs hb _
  refine ⟨?_, ?_⟩
  · intro hm
    simp only [DeleteCharacterData, hm, ne_eq, not_false_eq_true, if_true]
    exact plainReply_httpError w hs hb _ _ _ _
  · intro hm
    refine ⟨?_, ?_⟩
    · intro hk
      simp only [DeleteCharacterData, hm, hk, ne_eq, not_true_eq_false, if_false, if_true]
      exact plainReply_httpError w hs hb _ _ _ _
    · intro hk
      refine ⟨?_, ?_⟩
      · intro err hd
        unfold DeleteCharacterData
        simp only [hm, hk, ne_eq, not_true_eq_false, if_false]
        split
        · next e1 d1 heq =>
          rw [heq] at hd
          cases hd
          exact plainReply_httpError w hs hb _ _ _ _
        · next c1 d1 heq =>
          rw [heq] at hd
          cases hd
      · intro count hd
        refine ⟨fun h => absurd h (by decide), ?_⟩
        intro _
        unfold DeleteCharacterData
        simp only [hm, hk, ne_eq, not_true_eq_false, if_false]
        split
        · next e1 d1 heq =>
          rw [heq] at hd
          cases hd
        · next c1 d1 heq =>
          simp [deletedMap, ResponseWriter.Encode, ResponseWriter.write,
            ResponseWriter.code, hs, hb]

/-- The statuses of the api delete handler: a count of zero is answered 404. -/
theorem api_delete_statuses {σ : Type} (env : Env σ) :
    DeleteStatuses env (Api.delete.Handler env) "Key parameter is required"
      "Failed to delete data: " true
      (fun key => .obj [("status", .str "deleted"), ("key", .str key)]) := by
  intro w r db hs hb hopt
  obtain ⟨w1, he, h1, b1⟩ := EnableCORS_pass w r hopt
  have hs1 : w1.Status = none := h1.trans hs
  have hb1 : w1.Body = [] := b1.trans hb
  unfold Api.delete.Handler
  rw [he]
  refine ⟨?_, ?_⟩
  · intro hm
    simp only [hm, ne_eq, not_false_eq_true, if_true]
    exact plainReply_httpError w1 hs1 hb1 _ _ _ _
  · intro hm
    refine ⟨?_, ?_⟩
    · intro hk
      simp only [hm, hk, ne_eq, not_true_eq_false, if_false, if_true]
      exact plainReply_httpError w1 hs1 hb1 _ _ _ _
    · intro hk
      refine ⟨?_, ?_⟩
      · intro err hd
        simp only [hm, hk, ne_eq, not_true_eq_false, if_false]
        split
        · next e1 d1 heq =>
          rw [heq] at hd
          cases hd
          exact plainReply_httpError w1 hs1 hb1 _ _ _ _
        · next c1 d1 heq =>
          rw [heq] at hd
          cases hd
      · intro count hd
        refine ⟨?_, ?_⟩
        · intro _ hz
          simp only [hm, hk, ne_eq, not_true_eq_false, if_false]
          split
          · next e1 d1 heq =>
            rw [heq] at hd
            cases hd
          · next c1 d1 heq =>
            rw [heq] at hd
            cases hd
            simp only [hz, if_true]
            exact plainReply_httpError w1 hs1 hb1 _ _ _ _
        · intro hnz
          have hc : count ≠ 0 := by
            rcases hnz with h | h
            · exact absurd h (by decide)
            · exact h
          simp only [hm, hk, ne_eq, not_true_eq_false, if_false]
          split
          · next e1 d1 heq =>
            rw [heq] at hd
            cases hd
          · next c1 d1 heq =>
            rw [heq] at hd
            cases hd
            simp [hc, DeleteResponse.toJSON, ResponseWriter.WriteHeader,
              ResponseWriter.Encode, ResponseWriter.write, ResponseWriter.code, hs1, hb1]

/-- C9, amended. Every error reply of the save, load and delete handlers
(`SaveCharacterData`, `LoadCharacterData`, `DeleteCharacterData` and the api handlers)
carries the status mapped to its condition and a body that is one line of plain text
written by `http.Error` under `Content-Type: text/plain; charset=utf-8`, not a JSON object:
a method other than the declared one 405; a body that is not valid JSON, an empty, short
or long key, or a missing `key` parameter 400; an absent key 404 (on load, and on delete in
the api handler only); a serialization failure, stored bytes that do not decode, or a
failure of the engine 500.  Only the 200 replies are JSON objects. -/
theorem error_status_by_condition {σ : Type} (env : Env σ) :
    SaveStatuses env (SaveCharacterData env) ∧ SaveStatuses env (Api.save.Handler env) ∧
    LoadStatuses env (LoadCharacterData env) "Missing 'key' parameter" "Save key not found"
      (fun _ => "Corrupted data in storage") ∧
    LoadStatuses env (Api.load.Handler env) "Key parameter is required" "Key not found"
      (fun err => "Failed to parse data: " ++ err) ∧
    DeleteStatuses env (DeleteCharacterData env) "Missing 'key' parameter" "Failed to delete: "
      false (fun key => .obj [("key", .str key), ("status", .str "deleted")]) ∧
    DeleteStatuses env (Api.delete.Handler env) "Key parameter is required"
      "Failed to delete data: " true
      (fun key => .obj [("status", .str "deleted"), ("key", .str key)]) :=
  ⟨save_statuses env, api_save_statuses env, load_statuses env, api_load_statuses env,
    delete_statuses env, api_delete_statuses env⟩

/-- Witness of `error_status_by_condition` on the empty store: a `GET` sent to the save
handler is answered 405, a load with no `key` parameter 400, a load of `hero1` 404, and a
delete of `hero1` by the api handler 404, each in plain text. -/
theorem error_status_by_condition_witness :
    PlainReply (SaveCharacterData exampleEnv {} (getLoad "hero1") []) 405
      "Method not allowed" ∧
    PlainReply (Api.load.Handler exampleEnv {} (getLoad "") []) 400
      "Key parameter is required" ∧
    PlainReply (LoadCharacterData exampleEnv {} (getLoad "hero1") []) 404
      "Save key not found" ∧
    PlainReply (Api.delete.Handler exampleEnv {} (deleteKey "hero1") []) 404
      "Key not found" :=
  ⟨((error_status_by_condition exampleEnv).1 {} (getLoad "hero1") [] rfl rfl
      (by decide)).1 (by decide),
    (((error_status_by_condition exampleEnv).2.2.2.1 {} (getLoad "") [] rfl rfl
      (by decide)).2 rfl).1 rfl,
    ((((error_status_by_condition exampleEnv).2.2.1 {} (getLoad "hero1") [] rfl rfl
      (by decide)).2 rfl).2 (by decide)).1 rfl,
    (((((error_status_by_condition exampleEnv).2.2.2.2.2 {} (deleteKey "hero1") [] rfl rfl
      (by decide)).2 rfl).2 (by decide)).2 0 rfl).1 rfl rfl⟩

/-- C9 as stated fails: the api save handler answers a `GET` request 405 and
`LoadCharacterData` answers a load of an absent key 404, each with a plain-text body that
is not a JSON object with a field `error`. -/
theorem error_reply_not_envelope :
    (Api.save.Handler exampleEnv {} (getLoad "hero1") []).w.code = 405 ∧
    (Api.save.Handler exampleEnv {} (getLoad "hero1") []).w.Body =
      [.text "Method not allowed\n"] ∧
    isErrorEnvelope (Api.save.Handler exampleEnv {} (getLoad "hero1") []).w.Body = false ∧
    (LoadCharacterData exampleEnv {} (getLoad "hero1") []).w.code = 404 ∧
    (LoadCharacterData exampleEnv {} (getLoad "hero1") []).w.Body =
      [.text "Save key not found\n"] ∧
    isErrorEnvelope (LoadCharacterData exampleEnv {} (getLoad "hero1") []).w.Body = false :=
  ⟨by decide, rfl, rfl, by decide, rfl, rfl⟩

/-! ## C10: `OPTIONS` requests -/

/-- On an `OPTIONS` request `EnableCORS` reports the request as answered, with the bare
reply. -/
theorem EnableCORS_options (r : Request) (h : r.Method = "OPTIONS") :
    ∃ w1, EnableCORS {} r = (w1, true) ∧ ∀ {σ : Type} (db : σ),
      BareOptionsReply r db ⟨w1, db, []⟩ := by
  unfold EnableCORS
  simp only [if_pos h]
  refine ⟨_, rfl, ?_⟩
  intro σ db
  unfold BareOptionsReply
  cases ha : allowedOrigins r.Origin <;>
    simp [ResponseWriter.set, ResponseWriter.WriteHeader, ResponseWriter.code,
      ResponseWriter.header]

/-- C10. For every request with method `OPTIONS`, whatever its path, origin, query and
body: `EnableCORS` returns true, and the four api handlers, the server `enableCORS(mux)`
and `enableCORS` around any next handler answer 200 with an empty body and the CORS headers,
issue no call to the engine or to `http.Get`, and leave the engine state as it was; the
middleware does not run the next handler. -/
theorem options_bare_reply {σ : Type} (env : Env σ) (next : Handler σ) (r : Request) (db : σ)
    (h : r.Method = "OPTIONS") :
    (EnableCORS {} r).2 = true ∧
    BareOptionsReply r db (Api.save.Handler env {} r db) ∧
    BareOptionsReply r db (Api.load.Handler env {} r db) ∧
    BareOptionsReply r db (Api.delete.Handler env {} r db) ∧
    BareOptionsReply r db (Api.character.Handler env {} r db) ∧
    BareOptionsReply r db (server env {} r db) ∧
    BareOptionsReply r db (enableCORS next {} r db) := by
  obtain ⟨w1, he, hr⟩ := EnableCORS_options r h
  have hmw : ∀ nx : Handler σ, enableCORS nx {} r db = ⟨w1, db, []⟩ := by
    intro nx
    unfold EnableCORS at he
    simp only [if_pos h] at he
    unfold enableCORS
    simp only [if_pos h]
    rw [(Prod.mk.inj he).1]
  refine ⟨by rw [he], ?_, ?_, ?_, ?_, ?_, ?_⟩
  · unfold Api.save.Handler; rw [he]; exact hr db
  · unfold Api.load.Handler; rw [he]; exact hr db
  · unfold Api.delete.Handler; rw [he]; exact hr db
  · unfold Api.character.Handler; rw [he]; exact hr db
  · unfold server; rw [hmw]; exact hr db
  · rw [hmw]; exact hr db

/-- Witness of `options_bare_reply`: a preflight for `/api/save` from the development
origin. -/
theorem options_bare_reply_witness :
    BareOptionsReply
      { Method := "OPTIONS", Path := "/api/save", Origin := "http://localhost:4200" }
      ([] : Store)
      (server exampleEnv {}
        { Method := "OPTIONS", Path := "/api/save", Origin := "http://localhost:4200" } []) :=
  (options_bare_reply exampleEnv (mux exampleEnv)
    { Method := "OPTIONS", Path := "/api/save", Origin := "http://localhost:4200" } []
    rfl).2.2.2.2.2.1

/-! ## C11: what a successful save writes -/

/-- Whatever the engine, a save answered 200 by `SaveCharacterData` has issued exactly
one command: `Set` of `"user_save:" ++ k` to the serialization of the document, with the
expiration `30 * 24 * time.Hour`. -/
theorem save_calls_one_set {σ : Type} (env : Env σ) (w : ResponseWriter)
    (hw : w.Status = none) (r : Request) (k : String) (d : JSON) (db : σ)
    (hbody : env.json.decodeSaveRequest r.Body = .ok ⟨k, d⟩)
    (hok : (SaveCharacterData env w r db).w.code = 200) :
    ∃ bytes, env.json.Marshal d = .ok bytes ∧
      (SaveCharacterData env w r db).calls =
        [.redisSet ("user_save:" ++ k) bytes (30 * 24 * Hour)] := by
  unfold SaveCharacterData at hok ⊢
  by_cases hm : r.Method = "POST"
  · simp only [hm, hbody, ne_eq, not_true_eq_false, if_false] at hok ⊢
    by_cases hk : k = ""
    · simp [hk, code_httpError, hw] at hok
    · by_cases h3 : len k < 3
      · simp [hk, h3, code_httpError, hw] at hok
      · by_cases h50 : len k > 50
        · simp [hk, h3, h50, code_httpError, hw] at hok
        · cases hmar : env.json.Marshal d with
          | error err => simp [hk, h3, h50, hmar, code_httpError, hw] at hok
          | ok bytes =>
            refine ⟨bytes, rfl, ?_⟩
            simp only [hk, h3, h50, if_false]
            split <;> rfl
  · simp [hm, code_httpError, hw] at hok

/-- The handlers that test `r.Method` answer a request of another method 405 without
a call to the engine or to `http.Get`, and with the engine state unchanged; the answer is
the same for every query and body. -/
theorem wrong_method_refused {σ : Type} (env : Env σ) (w : ResponseWriter)
    (hw : w.Status = none) (r : Request) (db : σ) (hopt : r.Method ≠ "OPTIONS") :
    (r.Method ≠ "POST" →
      Refused db (SaveCharacterData env w r db) ∧ Refused db (Api.save.Handler env w r db) ∧
      ∀ query body,
        SaveCharacterData env w { r with Query := query, Body := body } db =
          SaveCharacterData env w r db ∧
        Api.save.Handler env w { r with Query := query, Body := body } db =
          Api.save.Handler env w r db) ∧
    (r.Method ≠ "GET" →
      Refused db (LoadCharacterData env w r db) ∧ Refused db (Api.load.Handler env w r db) ∧
      Refused db (Api.character.Handler env w r db) ∧
      ∀ query body,
        LoadCharacterData env w { r with Query := query, Body := body } db =
          LoadCharacterData env w r db ∧
        Api.load.Handler env w { r with Query := query, Body := body } db =
          Api.load.Handler env w r db ∧
        Api.character.Handler env w { r with Query := query, Body := body } db =
          Api.character.Handler env w r db) ∧
    (r.Method ≠ "DELETE" →
      Refused db (DeleteCharacterData env w r db) ∧
      Refused db (Api.delete.Handler env w r db) ∧
      ∀ query body,
        DeleteCharacterData env w { r with Query := query, Body := body } db =
          DeleteCharacterData env w r db ∧
        Api.delete.Handler env w { r with Query := query, Body := body } db =
          Api.delete.Handler env w r db) := by
  obtain ⟨w1, he, hs, _⟩ := EnableCORS_pass w r hopt
  have hs1 : w1.Status = none := hs.trans hw
  have hcors : ∀ query body,
      EnableCORS w { r with Query := query, Body := body } = EnableCORS w r := by
    intro query body; rfl
  refine ⟨?_, ?_, ?_⟩
  · intro hm
    refine ⟨?_, ?_, ?_⟩
    · simp [Refused, SaveCharacterData, hm, code_httpError, hw]
    · unfold Api.save.Handler
      rw [he]
      simp [Refused, hm, code_httpError, hs1]
    · intro query body
      constructor
      · simp [SaveCharacterData, hm]
      · unfold Api.save.Handler
        rw [hcors, he]
        simp [hm]
  · intro hm
    refine ⟨?_, ?_, ?_, ?_⟩
    · simp [Refused, LoadCharacterData, hm, code_httpError, hw]
    · unfold Api.load.Handler
      rw [he]
      simp [Refused, hm, code_httpError, hs1]
    · unfold Api.character.Handler
      rw [he]
      simp [Refused, hm, ResponseWriter.WriteHeader, ResponseWriter.Encode,
        ResponseWriter.write, ResponseWriter.code, hs1]
    · intro query body
      refine ⟨?_, ?_, ?_⟩
      · simp [LoadCharacterData, hm]
      · unfold Api.load.Handler
        rw [hcors, he]
        simp [hm]
      · unfold Api.character.Handler
        rw [hcors, he]
        simp [hm]
  · intro hm
    refine ⟨?_, ?_, ?_⟩
    · simp [Refused, DeleteCharacterData, hm, code_httpError, hw]
    · unfold Api.delete.Handler
      rw [he]
      simp [Refused, hm, code_httpError, hs1]
    · intro query body
      constructor
      · simp [DeleteCharacterData, hm]
      · unfold Api.delete.Handler
        rw [hcors, he]
        simp [hm]

/-- The handler `GetCharacterData` does not read `r.Method`: its outcome is the same
under every method, and it never answers 405. -/
theorem GetCharacterData_any_method {σ : Type} (env : Env σ) (w : ResponseWriter)
    (hw : w.Status = none) (r : Request) (db : σ) (method : String) :
    GetCharacterData env w { r with Method := method } db = GetCharacterData env w r db ∧
    (GetCharacterData env w r db).w.code ≠ 405 := by
  constructor
  · rfl
  · unfold GetCharacterData
    repeat' first | dsimp only | split
    all_goals
      simp [ResponseWriter.WriteHeader, ResponseWriter.Encode, ResponseWriter.write,
        ResponseWriter.code, hw]

/-- Behind the server, a request to one of the four endpoints under a method that is
neither the declared one nor `OPTIONS` is answered 405 without a call and with the engine
state unchanged, except `HEAD /api/character`, which the routes hand to
`GetCharacterData`. -/
theorem server_wrong_method {σ : Type} (env : Env σ) (r : Request) (db : σ)
    (hopt : r.Method ≠ "OPTIONS") :
    (r.Path = "/api/save" → r.Method ≠ "POST" → Refused db (server env {} r db)) ∧
    (r.Path = "/api/load" → r.Method ≠ "GET" → Refused db (server env {} r db)) ∧
    (r.Path = "/api/delete" → r.Method ≠ "DELETE" → Refused db (server env {} r db)) ∧
    (r.Path = "/api/character" → r.Method ≠ "GET" → r.Method ≠ "HEAD" →
      Refused db (server env {} r db)) ∧
    (r.Path = "/api/character" → r.Method = "HEAD" →
      ∃ w0 : ResponseWriter, w0.Status = none ∧ w0.Body = [] ∧
        server env {} r db = GetCharacterData env w0 r db) := by
  have hmna : ∀ (w0 : ResponseWriter) (allow : String), w0.Status = none →
      Refused db (methodNotAllowed allow w0 r db) := by
    intro w0 allow h0
    simp [Refused, methodNotAllowed, code_httpError, h0]
  have hsrv : ∃ w0 : ResponseWriter, w0.Status = none ∧ w0.Body = [] ∧
      server env {} r db = mux env w0 r db := by
    unfold server enableCORS
    simp only [if_neg hopt]
    refine ⟨_, ?_, ?_, rfl⟩
    · split <;> simp
    · split <;> simp
  obtain ⟨w0, hw0, hb0, hsrv⟩ := hsrv
  rw [hsrv]
  refine ⟨?_, ?_, ?_, ?_, ?_⟩
  · intro hp hm
    have h1 : ¬ ("/api/save" = "/api/character") := by decide
    unfold mux
    simp only [hp, h1, if_false, if_true, hm]
    exact hmna w0 _ hw0
  · intro hp hm
    have h1 : ¬ ("/api/load" = "/api/character") := by decide
    have h2 : ¬ ("/api/load" = "/api/save") := by decide
    unfold mux
    simp only [hp, h1, h2, if_false, if_true]
    by_cases hh : r.Method = "HEAD"
    · simp only [hh, or_true, if_true]
      have hm2 : ¬ ("HEAD" = "GET") := by decide
      simp [Refused, LoadCharacterData, hh, hm2, code_httpError, hw0]
    · simp only [hm, hh, or_self, if_false]
      exact hmna w0 _ hw0
  · intro hp hm
    have h1 : ¬ ("/api/delete" = "/api/character") := by decide
    have h2 : ¬ ("/api/delete" = "/api/save") := by decide
    have h3 : ¬ ("/api/delete" = "/api/load") := by decide
    unfold mux
    simp only [hp, h1, h2, h3, if_false, if_true, hm]
    exact hmna w0 _ hw0
  · intro hp hm hh
    unfold mux
    simp only [hp, if_true, hm, hh, or_self, if_false]
    exact hmna w0 _ hw0
  · intro hp hh
    refine ⟨w0, hw0, hb0, ?_⟩
    unfold mux
    simp only [hp, if_true, hh, or_true]

/-- C12 at `HEAD /api/character?url=https://example.com/sheet.json` on the server: the
route `GET /api/character` also serves `HEAD`, and `GetCharacterData` has no test of
`r.Method`, so the URL is fetched and the answer is 200, where the claim asks for 405 and no
outbound fetch; the api character handler answers the same request 405 without a call. -/
theorem head_character_is_proxied :
    (server exampleEnv {} (headCharacter "https://example.com/sheet.json") []).w.code = 200 ∧
    (server exampleEnv {} (headCharacter "https://example.com/sheet.json") []).calls =
      [.httpGet "https://example.com/sheet.json"] ∧
    (Api.character.Handler exampleEnv {}
      (headCharacter "https://example.com/sheet.json") []).w.code = 405 ∧
    (Api.character.Handler exampleEnv {}
      (headCharacter "https://example.com/sheet.json") []).calls = [] := by
  decide

/-! ## C13: saving no document -/

end CharacterKeeper
